import Mathlib

/-!
# users-api: transactional outbox pipeline

A shallow embedding of the transaction coordinator
(`internal/infra/postgresql/tx_supplier.go`), the outbox and user stores
(`internal/infra/postgresql/outbox_commands.go`, `user_commands.go`,
`user_queries.go`), the outbox drain worker and its scheduler
(`internal/infra/outbox/processor.go`), the command and query services
(`internal/app/user/commands.go`, `queries.go`, `pagination.go`), the broker
notifier (`internal/infra/notification/notifier_pubsub.go`) and the health
checker (`internal/app/health_check.go`).

Stateful Go code is written as explicit state passing over `World`.  Every
call that leaves the process (a statement sent to the database, a
begin/commit/rollback, a publish) appends one `Call` to `World.trace`; the
answer of the outside world to the call made at step `n` (the length of the
trace at the time) is read from the oracles in `Env`.
-/

namespace UsersApi

/-! ## Errors (`internal/domain/errors.go`, `pkg/postgresql/errors.go`) -/

/-- Go `error` values.  The nine sentinels of `internal/domain/errors.go` keep
their names.  `pgError code` is a `*pgconn.PgError` with that SQLSTATE,
`foreign text` any other error value created outside the repository (driver,
broker, bcrypt).  `wrapf msg inner` is `fmt.Errorf(msg + ": %w", inner)` and
`wrap2 first second` is `fmt.Errorf("%w: %w", first, second)`.  A nil `error`
is `none : Option GoError`. -/
inductive GoError where
  | ErrInternal
  | ErrInvalidPW
  | ErrFailedToProcessData
  | ErrInvalidPaginationCursor
  | ErrEmptyRequest
  | ErrNotificationNotSent
  | ErrUserNotFound
  | ErrUserAlreadyExists
  | ErrInvalidUserID
  | pgError (code : String)
  | foreign (text : String)
  | wrapf (msg : String) (inner : GoError)
  | wrap2 (first second : GoError)
  deriving DecidableEq, Repr

/-- Go `errors.Is(err, target)` for a non-nil `err`: `err` is the target, or
one of the errors it wraps (through `Unwrap() error` of a single `%w`, or
through `Unwrap() []error` of a double `%w`) is. -/
def errorsIs (err target : GoError) : Bool :=
  if err = target then true
  else
    match err with
    | .wrapf _ inner => errorsIs inner target
    | .wrap2 first second => errorsIs first target || errorsIs second target
    | _ => false

/-- The function `IsConflictErr` of `pkg/postgresql/errors.go`: a type
assertion to `*pgconn.PgError` (no unwrapping) whose code is `23505`. -/
def IsConflictErr (err : GoError) : Bool :=
  match err with
  | .pgError code => code == "23505"
  | _ => false

/-- How a Go call ends: it returns a value, or it panics and unwinds. -/
inductive Outcome (α : Type) where
  | returned (value : α)
  | panicked
  deriving DecidableEq, Repr

/-! ## Data model (`internal/domain/user.go`, `notifications.go`) -/

/-- A `uuid.UUID`, identified with its canonical text form. -/
structure UUID where
  text : String
  deriving DecidableEq, Repr

/-- The zero value `uuid.Nil`. -/
def UUID.Nil : UUID := ⟨"00000000-0000-0000-0000-000000000000"⟩

/-- The method `uuid.UUID.String`. -/
def UUID.String (u : UUID) : String := u.text

/-- `domain.User`; a row of the `users` table carries the same fields (the
`pw` column is `Password`).  Timestamps are natural numbers. -/
structure User where
  ID : UUID
  FirstName : String
  LastName : String
  NickName : String
  Email : String
  Password : String
  CountryISOCode : String
  CreatedAt : Nat
  UpdatedAt : Nat
  deriving DecidableEq, Repr

/-- `domain.Event`; the field `Type` is `EventType` here (a reserved word in
Lean), `Payload` is the byte string as text. -/
structure Event where
  ID : UUID
  EventType : String
  Payload : String
  deriving DecidableEq, Repr

/-- A row of the `outbox` table: `id`, `event_type`, `payload`,
`processed_at` (NULL is `none`). -/
structure OutboxRow where
  id : UUID
  eventType : String
  payload : String
  processedAt : Option Nat
  deriving DecidableEq, Repr

/-- The two tables. -/
structure Database where
  users : List User
  outbox : List OutboxRow
  deriving DecidableEq, Repr

/-- The data-changing SQL statements the stores issue, with their parameters
resolved:
`INSERT INTO users ... RETURNING id`, `DELETE FROM users WHERE id=$1`,
`UPDATE users SET first_name=$2, last_name=$3, country_iso_code=$4,
nickname=$5, email=$6 WHERE id=$1`, `INSERT INTO outbox (event_type, payload)
... RETURNING id`, `UPDATE outbox SET processed_at=NOW() WHERE id=$1`. -/
inductive Stmt where
  | insertUser (row : User)
  | deleteUser (id : UUID)
  | updateUser (user : User)
  | insertEvent (row : OutboxRow)
  | markProcessed (id : UUID) (now : Nat)
  deriving DecidableEq, Repr

/-- The effect of a statement on the tables. -/
def Stmt.apply (s : Stmt) (d : Database) : Database :=
  match s with
  | .insertUser row => { d with users := d.users ++ [row] }
  | .deleteUser id => { d with users := d.users.filter (fun r => decide (r.ID ≠ id)) }
  | .updateUser u =>
    { d with users := d.users.map (fun r =>
        if r.ID = u.ID then
          { r with FirstName := u.FirstName, LastName := u.LastName,
                   CountryISOCode := u.CountryISOCode, NickName := u.NickName,
                   Email := u.Email }
        else r) }
  | .insertEvent row => { d with outbox := d.outbox ++ [row] }
  | .markProcessed id now =>
    { d with outbox := d.outbox.map (fun r =>
        if r.id = id then { r with processedAt := some now } else r) }

/-- The statements of a transaction applied in order. -/
def applyAll (ps : List Stmt) (d : Database) : Database :=
  ps.foldl (fun acc s => s.apply acc) d

/-! ## Contexts, transaction handles, the world -/

/-- A `pgx.Tx` handle; `serial` is the step at which it was begun. -/
structure Tx where
  serial : Nat
  deriving DecidableEq, Repr

/-- A `context.Context`, reduced to the value stored under `domain.TxKey`. -/
structure Context where
  txKey : Option Tx
  deriving DecidableEq, Repr

/-- `context.Background()`. -/
def Context.Background : Context := ⟨none⟩

/-- `postgresql.DBProvider`: the pool, or a transaction handle. -/
inductive DBProvider where
  | pool
  | tx (h : Tx)
  deriving DecidableEq, Repr

/-- One call that left the process, with what it was given and what it
answered (`res` is the returned `error`).  `TopicPublish` is the
`topic.Publish` of the broker client together with the `result.Get` that
waits for the acknowledgement. -/
inductive Call where
  | Begin (res : Option GoError)
  | Commit (res : Option GoError)
  | Rollback (res : Option GoError)
  | SaveUser (via : DBProvider) (user : User) (id : String) (res : Option GoError)
  | DeleteUser (via : DBProvider) (userID : String) (res : Option GoError)
  | UpdateUser (via : DBProvider) (user : User) (res : Option GoError)
  | GetUnprocessed (via : DBProvider) (limit : Int) (events : List Event) (res : Option GoError)
  | MarkAsProcessed (via : DBProvider) (id : String) (res : Option GoError)
  | AddEvent (via : DBProvider) (event : Event) (id : String) (res : Option GoError)
  | Publish (event : Event) (res : Option GoError)
  | GetUser (via : DBProvider) (userID : String) (user : Option User) (res : Option GoError)
  | ListUsers (via : DBProvider) (cursorUserID : String) (cursorUpdatedAt : Option Nat)
      (limit : Int) (users : List User) (res : Option GoError)
  | TopicPublish (topic : String) (data : String) (attributes : List (String × String))
      (res : Option GoError)
  deriving DecidableEq, Repr

/-- The state the code runs against: the committed tables, the open
transaction (its handle and the statements executed on it, not yet
committed), the calls made so far, and the heap cell of the local variable
`userID` that the closure of `CreateUser` shares with its enclosing function. -/
structure World where
  committed : Database
  openTx : Option (Tx × List Stmt)
  trace : List Call
  userID : String
  deriving DecidableEq, Repr

/-- The step number of the next call. -/
def World.step (w : World) : Nat := w.trace.length

/-- Append a call to the trace. -/
def World.log (w : World) (c : Call) : World := { w with trace := w.trace ++ [c] }

/-- The statements pending on handle `h`, when `h` is the open transaction. -/
def World.pendingOf (w : World) (h : Tx) : Option (List Stmt) :=
  match w.openTx with
  | some (h', ps) => if h' = h then some ps else none
  | none => none

/-- The tables as a statement run on `p` sees them: the committed state for
the pool, the committed state plus its own pending statements for a
transaction. -/
def World.view (w : World) (p : DBProvider) : Database :=
  match p with
  | .pool => w.committed
  | .tx h =>
    match w.pendingOf h with
    | some ps => applyAll ps w.committed
    | none => w.committed

/-- Run a data-changing statement on `p`: on the pool it takes effect at once
(autocommit), on the open transaction it is added to the pending ones. -/
def World.write (w : World) (p : DBProvider) (s : Stmt) : World :=
  match p with
  | .pool => { w with committed := s.apply w.committed }
  | .tx h =>
    match w.pendingOf h with
    | some ps => { w with openTx := some (h, ps ++ [s]) }
    | none => w

/-- End the transaction `h` without applying it. -/
def World.discard (w : World) (h : Tx) : World :=
  match w.pendingOf h with
  | some _ => { w with openTx := none }
  | none => w

/-- The answers of the outside world.  Each oracle is asked with the step
number of the call; theorems quantify over all of them.
`stmtErr` is the failure, if any, the driver reports for a statement
(constraint violations included); `scanErr` a failure while reading result
rows; `newID` the id the database generates for an inserted row; `now` the
value of `NOW()`; `uuidIn` the conversion of a text parameter to a uuid
column value; `lockedElsewhere` the rows locked by other transactions (what
`SKIP LOCKED` skips); `publish` the answer of the notification system. -/
structure Env where
  beginErr : Nat → Option GoError
  commitErr : Nat → Option GoError
  rollbackErr : Nat → Option GoError
  stmtErr : Nat → Option GoError
  scanErr : Nat → Option GoError
  newID : Nat → UUID
  now : Nat → Nat
  uuidIn : String → Option UUID
  lockedElsewhere : Nat → UUID → Bool
  publish : Nat → Event → Option GoError

/-- The error of the driver for a statement sent on `p` at this step: the
failure the oracle reports, or `tx is closed` for a handle that is not the
open transaction. -/
def driverFault (env : Env) (p : DBProvider) (w : World) : Option GoError :=
  match env.stmtErr w.step with
  | some e => some e
  | none =>
    match p with
    | .pool => none
    | .tx h => if (w.pendingOf h).isSome then none else some (.foreign "tx is closed")

/-! ## Interfaces (`internal/domain`) -/

/-- The function type `func(ctx context.Context) error`, over the world. -/
abbrev TxFunc := Context → World → World × Outcome (Option GoError)

/-- `domain.Transaction`. -/
structure Transaction where
  BeginTx : Context → TxFunc → World → World × Outcome (Option GoError)

/-- `domain.UserRepoCommands`. -/
structure UserRepoCommands where
  SaveUser : Context → User → World → World × (String × Option GoError)
  DeleteUser : Context → String → World → World × Option GoError
  UpdateUser : Context → User → World → World × Option GoError

/-- `domain.OutboxRepoCommands`. -/
structure OutboxRepoCommands where
  GetUnprocessed : Context → Int → World → World × (List Event × Option GoError)
  MarkAsProcessed : Context → String → World → World × Option GoError
  AddEvent : Context → Event → World → World × (String × Option GoError)

/-- `domain.NotificationService`. -/
structure NotificationService where
  Publish : Context → Event → World → World × Option GoError

/-! ## Transaction coordinator (`internal/infra/postgresql/tx_supplier.go`) -/

/-- `transactionSupplier.BeginTx`: begin on the pool (its error is returned
as is), store the handle in the context, run `fn`; when `fn` returns an error
roll back and return that error (joined with the rollback error by
`"%w: %w"` when the rollback fails too); when `fn` returns nil return what
`Commit` returns.  There is no `defer`: when `fn` panics nothing more runs.
A successful commit applies the pending statements; a failed commit and a
rollback (failed or not) leave the committed tables as they are. -/
def transactionSupplier.BeginTx (env : Env) (ctx : Context) (fn : TxFunc) (w : World) :
    World × Outcome (Option GoError) :=
  match env.beginErr w.step with
  | some err => (w.log (.Begin (some err)), .returned (some err))
  | none =>
    let tx : Tx := ⟨w.step⟩
    let w1 : World := { w with openTx := some (tx, []), trace := w.trace ++ [.Begin none] }
    let ctx1 : Context := { ctx with txKey := some tx }
    match fn ctx1 w1 with
    | (w2, .panicked) => (w2, .panicked)
    | (w2, .returned (some err)) =>
      match env.rollbackErr w2.step with
      | some err2 => ((w2.discard tx).log (.Rollback (some err2)), .returned (some (.wrap2 err2 err)))
      | none => ((w2.discard tx).log (.Rollback none), .returned (some err))
    | (w2, .returned none) =>
      match env.commitErr w2.step, w2.pendingOf tx with
      | none, some ps =>
        ({ w2 with committed := applyAll ps w2.committed, openTx := none,
                   trace := w2.trace ++ [.Commit none] }, .returned none)
      | some err, _ => ((w2.discard tx).log (.Commit (some err)), .returned (some err))
      | none, none =>
        (w2.log (.Commit (some (.foreign "tx is closed"))), .returned (some (.foreign "tx is closed")))

/-- `NewTransactionSupplier`. -/
def NewTransactionSupplier (env : Env) : Transaction := ⟨transactionSupplier.BeginTx env⟩

/-! ## Outbox store (`internal/infra/postgresql/outbox_commands.go`) -/

/-- `outboxCommandsRepo.db`: the transaction stored in the context when there
is one, the pool otherwise. -/
def outboxCommandsRepo.db (ctx : Context) : DBProvider :=
  match ctx.txKey with
  | some tx => .tx tx
  | none => .pool

/-- `outboxCommandsRepo.GetUnprocessed`:
`SELECT id, event_type, payload FROM outbox WHERE processed_at IS NULL
FOR UPDATE SKIP LOCKED LIMIT $1`.  A failed query gives `ErrInternal`, a
failure while scanning or iterating the rows `ErrFailedToProcessData`. -/
def outboxCommandsRepo.GetUnprocessed (env : Env) (ctx : Context) (limit : Int) (w : World) :
    World × (List Event × Option GoError) :=
  let p := outboxCommandsRepo.db ctx
  match driverFault env p w with
  | some _ => (w.log (.GetUnprocessed p limit [] (some .ErrInternal)), ([], some .ErrInternal))
  | none =>
    match env.scanErr w.step with
    | some _ =>
      (w.log (.GetUnprocessed p limit [] (some .ErrFailedToProcessData)),
        ([], some .ErrFailedToProcessData))
    | none =>
      let rows := ((w.view p).outbox.filter
        (fun r => r.processedAt.isNone && !env.lockedElsewhere w.step r.id)).take limit.toNat
      let events : List Event :=
        rows.map (fun r => { ID := r.id, EventType := r.eventType, Payload := r.payload })
      (w.log (.GetUnprocessed p limit events none), (events, none))

/-- `outboxCommandsRepo.MarkAsProcessed`:
`UPDATE outbox SET processed_at=NOW() WHERE id=$1` with the id as text; any
failure of the statement gives `ErrInternal`. -/
def outboxCommandsRepo.MarkAsProcessed (env : Env) (ctx : Context) (id : String) (w : World) :
    World × Option GoError :=
  let p := outboxCommandsRepo.db ctx
  match driverFault env p w, env.uuidIn id with
  | none, some u =>
    ((w.write p (.markProcessed u (env.now w.step))).log (.MarkAsProcessed p id none), none)
  | _, _ => (w.log (.MarkAsProcessed p id (some .ErrInternal)), some .ErrInternal)

/-- `outboxCommandsRepo.AddEvent`:
`INSERT INTO outbox (event_type, payload) VALUES ($1, $2) RETURNING id`; the
id of the event given is not used, the database generates one; any failure
gives the empty id and `ErrInternal`. -/
def outboxCommandsRepo.AddEvent (env : Env) (ctx : Context) (event : Event) (w : World) :
    World × (String × Option GoError) :=
  let p := outboxCommandsRepo.db ctx
  match driverFault env p w with
  | some _ => (w.log (.AddEvent p event "" (some .ErrInternal)), ("", some .ErrInternal))
  | none =>
    let id := env.newID w.step
    let row : OutboxRow :=
      { id := id, eventType := event.EventType, payload := event.Payload, processedAt := none }
    ((w.write p (.insertEvent row)).log (.AddEvent p event id.String none), (id.String, none))

/-- `NewOutboxCommandsRepo`. -/
def NewOutboxCommandsRepo (env : Env) : OutboxRepoCommands :=
  { GetUnprocessed := outboxCommandsRepo.GetUnprocessed env
    MarkAsProcessed := outboxCommandsRepo.MarkAsProcessed env
    AddEvent := outboxCommandsRepo.AddEvent env }

/-! ## Notifier -/

/-- A notification service as the drain worker sees it: `Publish` answers
what the outside world answers at that step.  The logger variant
(`notifier_logger.go`) is the case where the answer is always nil. -/
def notifierOf (env : Env) : NotificationService :=
  ⟨fun _ event w => (w.log (.Publish event (env.publish w.step event)), env.publish w.step event)⟩

/-! ## Outbox drain worker (`internal/infra/outbox/processor.go`) -/

/-- `outboxProcessor`: the three collaborators (the logger, the channels and
the wait group play no part in `ProcessOnce`). -/
structure outboxProcessor where
  repo : OutboxRepoCommands
  txhandler : Transaction
  notifier : NotificationService

/-- The `for _, evt := range outboxEvents` loop of `ProcessOnce`: publish,
then mark as processed; the first failure ends the loop with the wrapped
error. -/
def outboxProcessor.processEvents (p : outboxProcessor) (txCtx : Context) :
    List Event → World → World × Option GoError
  | [], w => (w, none)
  | evt :: rest, w =>
    match p.notifier.Publish txCtx evt w with
    | (w1, some err) => (w1, some (.wrapf "failed to publish event" err))
    | (w1, none) =>
      match p.repo.MarkAsProcessed txCtx evt.ID.String w1 with
      | (w2, some err) => (w2, some (.wrapf "failed to mark as processed" err))
      | (w2, none) => outboxProcessor.processEvents p txCtx rest w2

/-- The closure `ProcessOnce` hands to `BeginTx`. -/
def outboxProcessor.processTx (p : outboxProcessor) (limit : Int) : TxFunc :=
  fun txCtx w =>
    match p.repo.GetUnprocessed txCtx limit w with
    | (w1, (_, some err)) => (w1, .returned (some (.wrapf "failed to get events" err)))
    | (w1, (outboxEvents, none)) =>
      match p.processEvents txCtx outboxEvents w1 with
      | (w2, res) => (w2, .returned res)

/-- `outboxProcessor.ProcessOnce`: the result of `BeginTx` on the closure
(the error is logged and returned, nil is returned as nil). -/
def outboxProcessor.ProcessOnce (p : outboxProcessor) (ctx : Context) (limit : Int) (w : World) :
    World × Outcome (Option GoError) :=
  match p.txhandler.BeginTx ctx (p.processTx limit) w with
  | (w1, .returned (some err)) => (w1, .returned (some err))
  | (w1, .returned none) => (w1, .returned none)
  | (w1, .panicked) => (w1, .panicked)

/-- `NewProcessor` on the PostgreSQL transaction supplier and outbox store. -/
def NewProcessor (env : Env) : outboxProcessor :=
  { repo := NewOutboxCommandsRepo env
    txhandler := NewTransactionSupplier env
    notifier := notifierOf env }

/-! ## User store (`internal/infra/postgresql/user_commands.go`) -/

/-- `userCommandsRepo.db`: the transaction stored in the context when there
is one, the pool otherwise. -/
def userCommandsRepo.db (ctx : Context) : DBProvider :=
  match ctx.txKey with
  | some tx => .tx tx
  | none => .pool

/-- `userCommandsRepo.SaveUser`: `INSERT INTO users (...) VALUES (...)
RETURNING id`.  A failure that `IsConflictErr` recognises gives
`ErrUserAlreadyExists`, any other failure `ErrInternal`, both with the empty
id; on success the id the database generated is returned. -/
def userCommandsRepo.SaveUser (env : Env) (ctx : Context) (user : User) (w : World) :
    World × (String × Option GoError) :=
  let p := userCommandsRepo.db ctx
  match driverFault env p w with
  | some err =>
    if IsConflictErr err then
      (w.log (.SaveUser p user "" (some .ErrUserAlreadyExists)), ("", some .ErrUserAlreadyExists))
    else (w.log (.SaveUser p user "" (some .ErrInternal)), ("", some .ErrInternal))
  | none =>
    let id := env.newID w.step
    let row : User := { user with ID := id, CreatedAt := env.now w.step, UpdatedAt := env.now w.step }
    ((w.write p (.insertUser row)).log (.SaveUser p user id.String none), (id.String, none))

/-- `userCommandsRepo.DeleteUser`: `DELETE FROM users WHERE id=$1` with the id
as text.  A failed statement gives `ErrInternal`; zero rows affected gives
`ErrUserNotFound`. -/
def userCommandsRepo.DeleteUser (env : Env) (ctx : Context) (userID : String) (w : World) :
    World × Option GoError :=
  let p := userCommandsRepo.db ctx
  match driverFault env p w, env.uuidIn userID with
  | none, some u =>
    if ((w.view p).users.filter (fun r => decide (r.ID = u))).length = 0 then
      (w.log (.DeleteUser p userID (some .ErrUserNotFound)), some .ErrUserNotFound)
    else ((w.write p (.deleteUser u)).log (.DeleteUser p userID none), none)
  | _, _ => (w.log (.DeleteUser p userID (some .ErrInternal)), some .ErrInternal)

/-- `userCommandsRepo.UpdateUser`: `UPDATE users SET ... WHERE id=$1` with
`user.ID`.  A failed statement gives `ErrInternal`; zero rows affected gives
`ErrUserNotFound`. -/
def userCommandsRepo.UpdateUser (env : Env) (ctx : Context) (user : User) (w : World) :
    World × Option GoError :=
  let p := userCommandsRepo.db ctx
  match driverFault env p w with
  | some _ => (w.log (.UpdateUser p user (some .ErrInternal)), some .ErrInternal)
  | none =>
    if ((w.view p).users.filter (fun r => decide (r.ID = user.ID))).length = 0 then
      (w.log (.UpdateUser p user (some .ErrUserNotFound)), some .ErrUserNotFound)
    else ((w.write p (.updateUser user)).log (.UpdateUser p user none), none)

/-- `NewUserCommandsRepo`. -/
def NewUserCommandsRepo (env : Env) : UserRepoCommands :=
  { SaveUser := userCommandsRepo.SaveUser env
    DeleteUser := userCommandsRepo.DeleteUser env
    UpdateUser := userCommandsRepo.UpdateUser env }

/-! ## Command service (`internal/app/user/commands.go`) -/

/-- The library functions the command service calls, taken as parameters:
`uuid.Parse` (`none` is a parse error), the JSON encoding of a string by
`encoding/json` (quotes included), `unicode.IsLetter`, `unicode.IsDigit`, and
`bcrypt.GenerateFromPassword` at `bcrypt.DefaultCost`. -/
structure Lib where
  uuidParse : String → Option UUID
  jsonString : String → String
  IsLetter : Char → Bool
  IsDigit : Char → Bool
  GenerateFromPassword : String → Except GoError String

/-- `AddUserRequest`; the JSON tags are `first_name`, `last_name`, `nickname`,
`email`, `-` (the password is left out) and `country`. -/
structure AddUserRequest where
  FirstName : String
  LastName : String
  NickName : String
  Email : String
  Password : String
  CountryISOCode : String
  deriving DecidableEq, Repr

/-- `UpdateUserRequest`; the JSON tags are `id`, `first_name`, `last_name`,
`nickname`, `email` and `country`. -/
structure UpdateUserRequest where
  ID : String
  FirstName : String
  LastName : String
  NickName : String
  Email : String
  CountryISOCode : String
  deriving DecidableEq, Repr

/-- The `domain.User` literal built by `CreateUser`: the fields of the
request and the hashed password; id and timestamps are zero values. -/
def AddUserRequest.toUser (req : AddUserRequest) (hashedPassword : String) : User :=
  { ID := UUID.Nil, FirstName := req.FirstName, LastName := req.LastName,
    NickName := req.NickName, Email := req.Email, Password := hashedPassword,
    CountryISOCode := req.CountryISOCode, CreatedAt := 0, UpdatedAt := 0 }

/-- The `domain.User` literal built by `UpdateUser`: the parsed id and the
fields of the request; password and timestamps are zero values. -/
def UpdateUserRequest.toUser (req : UpdateUserRequest) (userID : UUID) : User :=
  { ID := userID, FirstName := req.FirstName, LastName := req.LastName,
    NickName := req.NickName, Email := req.Email, Password := "",
    CountryISOCode := req.CountryISOCode, CreatedAt := 0, UpdatedAt := 0 }

/-- What `json.Marshal` writes for a struct of string fields: the fields in
declaration order under their keys, each value encoded by the library. -/
def jsonObject (lib : Lib) (fields : List (String × String)) : String :=
  "\x7b" ++ ",".intercalate
    (fields.map (fun kv => "\x22" ++ kv.1 ++ "\x22:" ++ lib.jsonString kv.2)) ++ "\x7d"

/-- `json.Marshal(req)` for an `AddUserRequest`. -/
def AddUserRequest.Marshal (lib : Lib) (req : AddUserRequest) : String :=
  jsonObject lib [("first_name", req.FirstName), ("last_name", req.LastName),
    ("nickname", req.NickName), ("email", req.Email), ("country", req.CountryISOCode)]

/-- `json.Marshal(req)` for an `UpdateUserRequest`. -/
def UpdateUserRequest.Marshal (lib : Lib) (req : UpdateUserRequest) : String :=
  jsonObject lib [("id", req.ID), ("first_name", req.FirstName), ("last_name", req.LastName),
    ("nickname", req.NickName), ("email", req.Email), ("country", req.CountryISOCode)]

/-- `validatePassword`: a letter, a digit, and at least six bytes. -/
def validatePassword (lib : Lib) (password : String) : Option GoError :=
  let flags := password.toList.foldl
    (fun (acc : Bool × Bool) char =>
      if lib.IsLetter char then (true, acc.2)
      else if lib.IsDigit char then (acc.1, true)
      else acc)
    (false, false)
  if !flags.1 || !flags.2 || password.utf8ByteSize < 6 then some .ErrInvalidPW else none

/-- `hashPassword`: the bcrypt hash as a string, or the error of bcrypt. -/
def hashPassword (lib : Lib) (password : String) : Except GoError String :=
  match lib.GenerateFromPassword password with
  | .error err => .error err
  | .ok hash => .ok hash

/-- `userUseCaseCommands`: the three collaborators (the logger plays no part
in the results). -/
structure userUseCaseCommands where
  repo : UserRepoCommands
  outboxRepo : OutboxRepoCommands
  transaction : Transaction

/-- The closure `CreateUser` hands to `BeginTx`: `SaveUser` on `txCtx`
(its id is assigned to the shared variable `userID`), then `AddEvent` on
`txCtx` with type `CreateUser` and the marshalled request.  `json.Marshal`
cannot fail on a struct of strings, so that branch is left out. -/
def userUseCaseCommands.createTx (uc : userUseCaseCommands) (lib : Lib) (req : AddUserRequest)
    (u : User) : TxFunc :=
  fun txCtx w =>
    match uc.repo.SaveUser txCtx u w with
    | (w1, (id, some err)) => ({ w1 with userID := id }, .returned (some err))
    | (w1, (id, none)) =>
      let event : Event := { ID := UUID.Nil, EventType := "CreateUser", Payload := req.Marshal lib }
      match uc.outboxRepo.AddEvent txCtx event { w1 with userID := id } with
      | (w2, (_, some err)) => (w2, .returned (some err))
      | (w2, (_, none)) => (w2, .returned none)

/-- `userUseCaseCommands.CreateUser`. -/
def userUseCaseCommands.CreateUser (uc : userUseCaseCommands) (lib : Lib) (ctx : Context)
    (req : AddUserRequest) (w : World) : World × Outcome (String × Option GoError) :=
  match validatePassword lib req.Password with
  | some err => (w, .returned ("", some err))
  | none =>
    match hashPassword lib req.Password with
    | .error _ => (w, .returned ("", some .ErrInvalidPW))
    | .ok hashedPassword =>
      let u : User := req.toUser hashedPassword
      match uc.transaction.BeginTx ctx (uc.createTx lib req u) { w with userID := "" } with
      | (w1, .returned (some err)) =>
        if !errorsIs err .ErrUserAlreadyExists then (w1, .returned ("", some .ErrInternal))
        else (w1, .returned ("", some err))
      | (w1, .returned none) => (w1, .returned (w1.userID, none))
      | (w1, .panicked) => (w1, .panicked)

/-- The closure `DeleteUser` hands to `BeginTx`: the store's `DeleteUser` is
called with `ctx`, the context of the enclosing call, not with `txCtx`; then
`AddEvent` on `txCtx` with type `DeleteUser` and the marshalled
`struct{ ID string }`. -/
def userUseCaseCommands.deleteTx (uc : userUseCaseCommands) (lib : Lib) (ctx : Context)
    (userID : String) : TxFunc :=
  fun txCtx w =>
    match uc.repo.DeleteUser ctx userID w with
    | (w1, some err) => (w1, .returned (some err))
    | (w1, none) =>
      let event : Event :=
        { ID := UUID.Nil, EventType := "DeleteUser", Payload := jsonObject lib [("ID", userID)] }
      match uc.outboxRepo.AddEvent txCtx event w1 with
      | (w2, (_, some err)) => (w2, .returned (some err))
      | (w2, (_, none)) => (w2, .returned none)

/-- `userUseCaseCommands.DeleteUser`. -/
def userUseCaseCommands.DeleteUser (uc : userUseCaseCommands) (lib : Lib) (ctx : Context)
    (userID : String) (w : World) : World × Outcome (Option GoError) :=
  match lib.uuidParse userID with
  | none => (w, .returned (some .ErrInvalidUserID))
  | some _ =>
    match uc.transaction.BeginTx ctx (uc.deleteTx lib ctx userID) w with
    | (w1, .returned (some err)) =>
      if !errorsIs err .ErrUserNotFound then (w1, .returned (some .ErrInternal))
      else (w1, .returned (some err))
    | (w1, .returned none) => (w1, .returned none)
    | (w1, .panicked) => (w1, .panicked)

/-- The closure `UpdateUser` hands to `BeginTx`: the store's `UpdateUser` is
called with `ctx`, the context of the enclosing call, not with `txCtx`; then
`AddEvent` on `txCtx` with type `UpdateUser` and the marshalled request. -/
def userUseCaseCommands.updateTx (uc : userUseCaseCommands) (lib : Lib) (ctx : Context)
    (req : UpdateUserRequest) (u : User) : TxFunc :=
  fun txCtx w =>
    match uc.repo.UpdateUser ctx u w with
    | (w1, some err) => (w1, .returned (some err))
    | (w1, none) =>
      let event : Event := { ID := UUID.Nil, EventType := "UpdateUser", Payload := req.Marshal lib }
      match uc.outboxRepo.AddEvent txCtx event w1 with
      | (w2, (_, some err)) => (w2, .returned (some err))
      | (w2, (_, none)) => (w2, .returned none)

/-- `userUseCaseCommands.UpdateUser`. -/
def userUseCaseCommands.UpdateUser (uc : userUseCaseCommands) (lib : Lib) (ctx : Context)
    (req : UpdateUserRequest) (w : World) : World × Outcome (Option GoError) :=
  match lib.uuidParse req.ID with
  | none => (w, .returned (some .ErrInvalidUserID))
  | some userID =>
    let u : User := req.toUser userID
    match uc.transaction.BeginTx ctx (uc.updateTx lib ctx req u) w with
    | (w1, .returned (some err)) =>
      if !errorsIs err .ErrUserNotFound then (w1, .returned (some .ErrInternal))
      else (w1, .returned (some err))
    | (w1, .returned none) => (w1, .returned none)
    | (w1, .panicked) => (w1, .panicked)

/-- `NewUserUseCaseCommands` on the PostgreSQL stores and transaction
supplier, as wired in `cmd/users/main.go`. -/
def NewUserUseCaseCommands (env : Env) : userUseCaseCommands :=
  { repo := NewUserCommandsRepo env
    outboxRepo := NewOutboxCommandsRepo env
    transaction := NewTransactionSupplier env }

/-! ## Query side of the domain (`internal/domain/user.go`) -/

/-- `domain.UserSearchFilters`: a nil pointer is `none`. -/
structure UserSearchFilters where
  FirstName : Option String
  LastName : Option String
  NickName : Option String
  Email : Option String
  CountryISOCode : Option String
  deriving DecidableEq, Repr

/-- `domain.UserRepoQueries`; a nil `*domain.User` and a nil `*time.Time` are
`none`. -/
structure UserRepoQueries where
  GetUser : Context → String → World → World × (Option User × Option GoError)
  ListUsers : Context → String → Option Nat → Int → UserSearchFilters → World →
    World × (List User × Option GoError)

/-! ## Pagination cursors (`internal/app/user/pagination.go`) -/

/-- The library functions of the cursor code, taken as parameters:
`base64.StdEncoding.EncodeToString` and `DecodeString` (on strings, for
`[]byte` and back), `ts.Format(time.RFC3339Nano)` and
`time.Parse(time.RFC3339Nano, s)`.  A `time.Time` is the natural number that
stands for its instant, as in `User.UpdatedAt`. -/
structure CursorLib where
  EncodeToString : String → String
  DecodeString : String → Except GoError String
  Format : Nat → String
  Parse : String → Except GoError Nat

/-- The pieces of a character list between the occurrences of `sep`; there
is always at least one piece. -/
def splitChars (sep : Char) : List Char → List (List Char)
  | [] => [[]]
  | c :: cs =>
    if c = sep then [] :: splitChars sep cs
    else
      match splitChars sep cs with
      | [] => [[c]]
      | piece :: pieces => (c :: piece) :: pieces

/-- `strings.Split(s, sep)` for a separator of one character. -/
def stringsSplit (s : String) (sep : Char) : List String :=
  (splitChars sep s.toList).map String.mk

/-- `decodeCursor`: base64-decode, split on `|` into exactly two parts, parse
the first as an RFC3339-nano timestamp.  The three results of the Go function
are `.ok (ts, userID)` when `err` is nil and `.error err` otherwise. -/
def decodeCursor (cl : CursorLib) (encodedCursor : String) : Except GoError (Nat × String) :=
  match cl.DecodeString encodedCursor with
  | .error err => .error err
  | .ok cursor =>
    match stringsSplit cursor '|' with
    | [first, second] =>
      match cl.Parse first with
      | .error _ => .error (.foreign "cursor is invalid: timestamp")
      | .ok ts => .ok (ts, second)
    | _ => .error (.foreign "cursor is invalid")

/-- `encodeCursor`: the base64 text of `<RFC3339-nano>|<userID>`. -/
def encodeCursor (cl : CursorLib) (ts : Nat) (userID : String) : String :=
  cl.EncodeToString (cl.Format ts ++ "|" ++ userID)

/-! ## Query service (`internal/app/user/queries.go`) -/

/-- `ListUsersRequest`; `Limit` is an `int32`. -/
structure ListUsersRequest where
  Cursor : String
  Limit : Int
  Filters : UserSearchFilters
  deriving DecidableEq, Repr

/-- `userUseCaseQueries`: the store (the logger plays no part in the
results). -/
structure userUseCaseQueries where
  repo : UserRepoQueries

/-- `userUseCaseQueries.GetUser`: an id that does not parse gives
`ErrInvalidUserID`; a store error is returned as it is when it matches
`ErrUserNotFound` and as `ErrInternal` otherwise, with the user the store
returned. -/
def userUseCaseQueries.GetUser (uc : userUseCaseQueries) (lib : Lib) (ctx : Context)
    (userID : String) (w : World) : World × (Option User × Option GoError) :=
  match lib.uuidParse userID with
  | none => (w, (none, some .ErrInvalidUserID))
  | some _ =>
    match uc.repo.GetUser ctx userID w with
    | (w1, (du, some err)) =>
      if !errorsIs err .ErrUserNotFound then (w1, (du, some .ErrInternal))
      else (w1, (du, some err))
    | (w1, (du, none)) => (w1, (du, none))

/-- The second half of `userUseCaseQueries.ListUsers` (from the call of the
store on): a store error gives no users, no cursor and `ErrInternal`; when
the number of users equals the limit the next cursor is made from the last
user, `users[len(users)-1]`, which panics on an empty slice. -/
def userUseCaseQueries.listFrom (uc : userUseCaseQueries) (cl : CursorLib) (ctx : Context)
    (req : ListUsersRequest) (userIDCur : String) (updatedAtCur : Option Nat) (w : World) :
    World × Outcome (List User × String × Option GoError) :=
  match uc.repo.ListUsers ctx userIDCur updatedAtCur req.Limit req.Filters w with
  | (w1, (_, some _)) => (w1, .returned ([], "", some .ErrInternal))
  | (w1, (users, none)) =>
    if (users.length : Int) = req.Limit then
      match users.getLast? with
      | some lastUser =>
        (w1, .returned (users, encodeCursor cl lastUser.UpdatedAt lastUser.ID.String, none))
      | none => (w1, .panicked)
    else (w1, .returned (users, "", none))

/-- `userUseCaseQueries.ListUsers`: a non-empty cursor is decoded first, and a
cursor that does not decode gives no users, no cursor and
`ErrInvalidPaginationCursor`. -/
def userUseCaseQueries.ListUsers (uc : userUseCaseQueries) (cl : CursorLib) (ctx : Context)
    (req : ListUsersRequest) (w : World) :
    World × Outcome (List User × String × Option GoError) :=
  if req.Cursor.utf8ByteSize > 0 then
    match decodeCursor cl req.Cursor with
    | .error _ => (w, .returned ([], "", some .ErrInvalidPaginationCursor))
    | .ok (uCur, userIDCur) => uc.listFrom cl ctx req userIDCur (some uCur) w
  else uc.listFrom cl ctx req "" none w

/-! ## User queries store (`internal/infra/postgresql/user_queries.go`) -/

/-- `postgresql.ErrNoRows` (`pgx.ErrNoRows`). -/
def ErrNoRows : GoError := .foreign "no rows in result set"

/-- The operators of the database that the list query relies on:
`ilike value pattern` is `value ILIKE pattern`. -/
structure SqlOps where
  ilike : String → String → Bool

/-- `userQueriesRepo.db`: the transaction stored in the context when there is
one, the pool otherwise. -/
def userQueriesRepo.db (ctx : Context) : DBProvider :=
  match ctx.txKey with
  | some tx => .tx tx
  | none => .pool

/-- The columns the two `SELECT`s read: every field but the password, which
keeps its zero value. -/
def User.selected (row : User) : User := { row with Password := "" }

/-- `userQueriesRepo.GetUser`: `SELECT ... FROM users WHERE id = $1` with the
id as text.  `Scan` failing with `ErrNoRows` (compared with `==`) gives
`ErrUserNotFound`, failing with anything else `ErrFailedToProcessData`. -/
def userQueriesRepo.GetUser (env : Env) (ctx : Context) (userID : String) (w : World) :
    World × (Option User × Option GoError) :=
  let p := userQueriesRepo.db ctx
  match driverFault env p w, env.uuidIn userID with
  | none, some u =>
    match (w.view p).users.find? (fun r => decide (r.ID = u)) with
    | some row => (w.log (.GetUser p userID (some row.selected) none), (some row.selected, none))
    | none =>
      (w.log (.GetUser p userID none (some .ErrUserNotFound)), (none, some .ErrUserNotFound))
  | some err, _ =>
    if err = ErrNoRows then
      (w.log (.GetUser p userID none (some .ErrUserNotFound)), (none, some .ErrUserNotFound))
    else
      (w.log (.GetUser p userID none (some .ErrFailedToProcessData)),
        (none, some .ErrFailedToProcessData))
  | none, none =>
    (w.log (.GetUser p userID none (some .ErrFailedToProcessData)),
      (none, some .ErrFailedToProcessData))

/-- The keyset clause
`(updated_at < $1 OR (updated_at = $1 AND id < $2))`; uuids compare as their
canonical texts do. -/
def keysetClause (ts : Nat) (id : UUID) (row : User) : Bool :=
  decide (row.UpdatedAt < ts) ||
    (decide (row.UpdatedAt = ts) && decide (row.ID.text.toList < id.text.toList))

/-- The filter clauses, joined by `AND`: `first_name ILIKE`, `last_name
ILIKE`, `nickname ILIKE`, `email ILIKE` with the pattern `%value%`, and
`country_iso_code ILIKE` with the value itself for pattern; a nil filter adds
no clause. -/
def filterClauses (ops : SqlOps) (filters : UserSearchFilters) (row : User) : Bool :=
  (match filters.FirstName with
    | some v => ops.ilike row.FirstName ("%" ++ v ++ "%")
    | none => true) &&
  (match filters.LastName with
    | some v => ops.ilike row.LastName ("%" ++ v ++ "%")
    | none => true) &&
  (match filters.NickName with
    | some v => ops.ilike row.NickName ("%" ++ v ++ "%")
    | none => true) &&
  (match filters.Email with
    | some v => ops.ilike row.Email ("%" ++ v ++ "%")
    | none => true) &&
  (match filters.CountryISOCode with
    | some v => ops.ilike row.CountryISOCode v
    | none => true)

/-- The order `ORDER BY updated_at DESC, id DESC`: `a` may stand before `b`. -/
def listOrder (a b : User) : Prop :=
  b.UpdatedAt < a.UpdatedAt ∨ (a.UpdatedAt = b.UpdatedAt ∧ b.ID.text.toList ≤ a.ID.text.toList)

instance listOrder.decidable : DecidableRel listOrder :=
  fun a b => by unfold listOrder; exact inferInstance

/-- `userQueriesRepo.ListUsers`: the keyset clause is added when the cursor
id is not empty and the cursor time is not nil; then the filter clauses;
`ORDER BY updated_at DESC, id DESC LIMIT $n`.  A failed query gives
`ErrInternal` (so does a cursor id the driver cannot turn into a uuid, and a
negative limit, which the database refuses), a failure while scanning or
iterating the rows `ErrFailedToProcessData`. -/
def userQueriesRepo.ListUsers (env : Env) (ops : SqlOps) (ctx : Context) (cursorUserID : String)
    (cursorUpdatedAt : Option Nat) (limit : Int) (filters : UserSearchFilters) (w : World) :
    World × (List User × Option GoError) :=
  let p := userQueriesRepo.db ctx
  let keyset : Option (User → Bool) :=
    match cursorUpdatedAt with
    | some ts =>
      if cursorUserID ≠ "" then (env.uuidIn cursorUserID).map (keysetClause ts)
      else some (fun _ => true)
    | none => some (fun _ => true)
  match driverFault env p w, (if limit < 0 then none else keyset) with
  | none, some clause =>
    match env.scanErr w.step with
    | some _ =>
      (w.log (.ListUsers p cursorUserID cursorUpdatedAt limit []
          (some .ErrFailedToProcessData)), ([], some .ErrFailedToProcessData))
    | none =>
      let rows := (((w.view p).users.filter
        (fun r => clause r && filterClauses ops filters r)).insertionSort listOrder).take
          limit.toNat
      (w.log (.ListUsers p cursorUserID cursorUpdatedAt limit (rows.map User.selected) none),
        (rows.map User.selected, none))
  | _, _ =>
    (w.log (.ListUsers p cursorUserID cursorUpdatedAt limit [] (some .ErrInternal)),
      ([], some .ErrInternal))

/-- `NewUserQueriesRepo`. -/
def NewUserQueriesRepo (env : Env) (ops : SqlOps) : UserRepoQueries :=
  { GetUser := userQueriesRepo.GetUser env
    ListUsers := userQueriesRepo.ListUsers env ops }

/-- `NewUserUseCaseQueries` on the PostgreSQL store, as wired in
`cmd/users/main.go`. -/
def NewUserUseCaseQueries (env : Env) (ops : SqlOps) : userUseCaseQueries :=
  { repo := NewUserQueriesRepo env ops }

/-! ## Broker notifier (`internal/infra/notification/notifier_pubsub.go`) -/

/-- What the broker notifier needs from outside: `rawJSON` is what
`json.Marshal` makes of a `json.RawMessage` (the text compacted, or an error
when it is not valid JSON); `ack` is the outcome of `topic.Publish` followed
by `result.Get` for the message data sent at that step. -/
structure BrokerEnv where
  rawJSON : String → Except GoError String
  ack : Nat → String → Option GoError

/-- The constant `attributes` of the notifier. -/
def attributes : List (String × String) :=
  [("origin", "users-service"), ("source", "pubsub-notifier")]

/-- `gcpPubSubNotifier`: the users topic, as the enabled client of
`cmd/users/main.go` hands it out (the logger plays no part in the
results). -/
structure gcpPubSubNotifier where
  usersTopic : String

/-- `gcpPubSubNotifier.getTopic`: the users topic for the three known types,
an error for any other. -/
def gcpPubSubNotifier.getTopic (n : gcpPubSubNotifier) (event_type : String) :
    Except GoError String :=
  if event_type = "CreateUser" ∨ event_type = "UpdateUser" ∨ event_type = "DeleteUser" then
    .ok n.usersTopic
  else .error (.foreign ("unknown type: " ++ event_type))

/-- `json.Marshal(pubsubEvent{Type, Payload})`: the object with the keys
`type` and `payload`, the payload embedded as raw JSON. -/
def marshalPubsubEvent (lib : Lib) (b : BrokerEnv) (event : Event) : Except GoError String :=
  match b.rawJSON event.Payload with
  | .error err => .error err
  | .ok raw =>
    .ok ("\x7b\x22type\x22:" ++ lib.jsonString event.EventType ++ ",\x22payload\x22:" ++ raw
      ++ "\x7d")

/-- `gcpPubSubNotifier.Publish`: an unknown type gives
`ErrNotificationNotSent`, a body that cannot be marshalled
`ErrFailedToProcessData`; otherwise the message is published on the topic
and the call blocks on its result, whose failure gives
`ErrNotificationNotSent`. -/
def gcpPubSubNotifier.Publish (n : gcpPubSubNotifier) (lib : Lib) (b : BrokerEnv)
    (_ctx : Context) (event : Event) (w : World) : World × Option GoError :=
  match n.getTopic event.EventType with
  | .error _ => (w, some .ErrNotificationNotSent)
  | .ok topic =>
    match marshalPubsubEvent lib b event with
    | .error _ => (w, some .ErrFailedToProcessData)
    | .ok jsonEvent =>
      match b.ack w.step jsonEvent with
      | some err =>
        (w.log (.TopicPublish topic jsonEvent attributes (some err)),
          some .ErrNotificationNotSent)
      | none => (w.log (.TopicPublish topic jsonEvent attributes none), none)

/-- `NewPubSubNotifierService`. -/
def NewPubSubNotifierService (lib : Lib) (b : BrokerEnv) (usersTopic : String) :
    NotificationService :=
  ⟨gcpPubSubNotifier.Publish ⟨usersTopic⟩ lib b⟩

/-- No filter set: the zero value of `domain.UserSearchFilters`. -/
def noFilters : UserSearchFilters := ⟨none, none, none, none, none⟩

/-- The strict order of `ORDER BY updated_at DESC, id DESC`: `a` stands
before `b`. -/
def listBefore (a b : User) : Prop :=
  b.UpdatedAt < a.UpdatedAt ∨ (a.UpdatedAt = b.UpdatedAt ∧ b.ID.text.toList < a.ID.text.toList)

instance listBefore.decidable : DecidableRel listBefore :=
  fun a b => by unfold listBefore; exact inferInstance

/-- Two rows with the same `(updated_at, id)`. -/
def sameKey (a b : User) : Prop := a.UpdatedAt = b.UpdatedAt ∧ a.ID = b.ID

instance sameKey.decidable : DecidableRel sameKey :=
  fun a b => by unfold sameKey; exact inferInstance

/-- A client that pages through the list: it calls `ListUsers` with the
cursor, keeps the users of the page, and calls again with the next cursor
until that is empty.  The result is the pages in the order received; `none`
when a call fails or panics, or when `fuel` calls were not enough. -/
def listAllPages (uc : userUseCaseQueries) (cl : CursorLib) (ctx : Context) (limit : Int)
    (filters : UserSearchFilters) : Nat → String → World → Option (List (List User))
  | 0, _, _ => none
  | fuel + 1, cursor, w =>
    match uc.ListUsers cl ctx ⟨cursor, limit, filters⟩ w with
    | (w1, .returned (users, next, none)) =>
      if next = "" then some [users]
      else (listAllPages uc cl ctx limit filters fuel next w1).map (fun pages => users :: pages)
    | _ => none

/-! ## Health checker (`internal/domain/db.go`, `internal/app/health_check.go`) -/

/-- `domain.MonitoringRepoQueries`, over the state `σ` its methods run
against. -/
structure MonitoringRepoQueries (σ : Type) where
  Ping : Context → σ → σ × Bool
  IsEnabled : σ → σ × Bool

/-- `healthCheckQueries`: the store and the broker client. -/
structure healthCheckQueries (σ : Type) where
  repo : MonitoringRepoQueries σ
  pubsub : MonitoringRepoQueries σ

/-- `NewHealthCheckQueries`. -/
def NewHealthCheckQueries {σ : Type} (repo pubsub : MonitoringRepoQueries σ) :
    healthCheckQueries σ :=
  { repo := repo, pubsub := pubsub }

/-- `healthCheckQueries.Check`:
`h.repo.Ping(ctx) && (!h.pubsub.IsEnabled() || h.pubsub.Ping(ctx))`, the
operands evaluated from left to right and only as far as needed. -/
def healthCheckQueries.Check {σ : Type} (h : healthCheckQueries σ) (ctx : Context) (s : σ) :
    σ × Bool :=
  match h.repo.Ping ctx s with
  | (s1, false) => (s1, false)
  | (s1, true) =>
    match h.pubsub.IsEnabled s1 with
    | (s2, false) => (s2, true)
    | (s2, true) => h.pubsub.Ping ctx s2

/-! ## The SQL text of the list query (`internal/infra/postgresql/user_queries.go`) -/

/-- An argument handed to `Query` next to the SQL text: a `time.Time`, a
string, or the `int32` limit. -/
inductive SqlArg where
  | timestamp (ts : Nat)
  | text (s : String)
  | int32 (n : Int)
  deriving DecidableEq, Repr

/-- The decimal digits of `n`, the most significant first; `fuel` bounds
their number. -/
def decimalDigits : Nat → Nat → List Char
  | 0, _ => []
  | fuel + 1, n =>
    if n < 10 then [Char.ofNat (48 + n)]
    else decimalDigits fuel (n / 10) ++ [Char.ofNat (48 + n % 10)]

/-- The verb `%d` of `fmt.Sprintf` for a number that is not negative. -/
def sprintNat (n : Nat) : String := String.mk (decimalDigits (n + 1) n)

/-- The two slices `whereClauses` and `args` while the query is built. -/
structure QueryParts where
  whereClauses : List String
  args : List SqlArg
  deriving DecidableEq, Repr

/-- The keyset clause as the store writes it. -/
def keysetText : String := "(updated_at < $1 OR (updated_at = $1 AND id < $2))"

/-- One block `if filters.X != nil { ... }`: the clause `column ILIKE $k` with
`k = len(args)+1` is appended to `whereClauses` and the pattern to `args`. -/
def addFilterClause (column : String) (value : Option String) (pattern : String → String)
    (q : QueryParts) : QueryParts :=
  match value with
  | some v =>
    { whereClauses := q.whereClauses ++ [column ++ " ILIKE $" ++ sprintNat (q.args.length + 1)]
      args := q.args ++ [.text (pattern v)] }
  | none => q

/-- The slices `whereClauses` and `args` of `userQueriesRepo.ListUsers` when
the query text is composed: the keyset clause with the cursor time and id when
the id is not empty and the time not nil, then the five filter blocks. -/
def userQueriesRepo.listQueryParts (cursorUserID : String) (cursorUpdatedAt : Option Nat)
    (filters : UserSearchFilters) : QueryParts :=
  let q0 : QueryParts :=
    match cursorUpdatedAt with
    | some ts =>
      if cursorUserID ≠ "" then
        { whereClauses := [keysetText], args := [.timestamp ts, .text cursorUserID] }
      else { whereClauses := [], args := [] }
    | none => { whereClauses := [], args := [] }
  let q1 := addFilterClause "first_name" filters.FirstName (fun v => "%" ++ v ++ "%") q0
  let q2 := addFilterClause "last_name" filters.LastName (fun v => "%" ++ v ++ "%") q1
  let q3 := addFilterClause "nickname" filters.NickName (fun v => "%" ++ v ++ "%") q2
  let q4 := addFilterClause "email" filters.Email (fun v => "%" ++ v ++ "%") q3
  addFilterClause "country_iso_code" filters.CountryISOCode (fun v => v) q4

/-- The SQL text and the arguments `userQueriesRepo.ListUsers` hands to
`Query`: the clauses joined by ` AND ` after `WHERE ` when there is one, the
limit as the last placeholder and the last argument. -/
def userQueriesRepo.listQuery (cursorUserID : String) (cursorUpdatedAt : Option Nat)
    (limit : Int) (filters : UserSearchFilters) : String × List SqlArg :=
  let q := userQueriesRepo.listQueryParts cursorUserID cursorUpdatedAt filters
  let whereText :=
    if q.whereClauses.length > 0 then "WHERE " ++ " AND ".intercalate q.whereClauses else ""
  ("\n\t\tSELECT id, first_name, last_name, country_iso_code, nickname, email, created_at, updated_at \n\t\tFROM users \n\t\t"
      ++ whereText ++ " \n\t\tORDER BY updated_at DESC, id DESC LIMIT $"
      ++ sprintNat (q.args.length + 1),
    q.args ++ [.int32 limit])

/-! ## Scheduler of the drain workers (`internal/infra/outbox/processor.go`)

`StartScheduleProcess` and the goroutines it starts, as a transition system:
one event is one step of one goroutine.  The controller is the loop of
`StartScheduleProcess`; a worker is a goroutine started by `go func()`. -/

/-- The constant `_maxConcurrentProcess`, the capacity of `tasksChan`. -/
def _maxConcurrentProcess : Nat := 5

/-- Where the controller stands: in the `select`; at `p.tasksChan <- struct{}{}`
after a tick; at `p.wg.Add(1)`; at `go func()`; at `p.wg.Wait()` after the stop
signal or the end of the context; returned. -/
inductive ControllerPc where
  | selecting
  | sending
  | adding
  | spawning
  | waiting
  | returned
  deriving DecidableEq, Repr

/-- Where a worker stands: in `ProcessOnce`; in the deferred function at
`<-p.tasksChan`; at `p.wg.Done()`. -/
inductive WorkerPc where
  | processing
  | releasing
  | finishing
  deriving DecidableEq, Repr

/-- The shared state of the scheduler: the number of values buffered in
`tasksChan`, the counter of the wait group, the controller and the workers
that have not ended. -/
structure Scheduler where
  tasksChan : Nat
  wg : Nat
  controller : ControllerPc
  workers : List WorkerPc
  deriving DecidableEq, Repr

/-- The state `NewProcessor` builds, with the controller entering its loop. -/
def Scheduler.init : Scheduler :=
  { tasksChan := 0, wg := 0, controller := .selecting, workers := [] }

/-- One step of one goroutine: the controller takes a tick, sends to
`tasksChan`, adds to the wait group, starts a worker, takes the stop signal,
or comes back from `p.wg.Wait()`; worker `i` ends `ProcessOnce` (by return or
panic, the deferred function runs in both cases), receives from `tasksChan`,
or calls `p.wg.Done()` and ends. -/
inductive SchedulerEvent where
  | tick
  | send
  | add
  | spawn
  | finish (i : Nat)
  | release (i : Nat)
  | done (i : Nat)
  | stop
  | join
  deriving DecidableEq, Repr

/-- The state after an event, `none` when the goroutine cannot take that
step: it stands elsewhere, the send finds the channel full or the receive
finds it empty (both block), `Wait` finds the counter above zero, `Done`
finds it at zero. -/
def Scheduler.step (s : Scheduler) : SchedulerEvent → Option Scheduler
  | .tick =>
    if s.controller = .selecting then some { s with controller := .sending } else none
  | .send =>
    if s.controller = .sending ∧ s.tasksChan < _maxConcurrentProcess then
      some { s with tasksChan := s.tasksChan + 1, controller := .adding }
    else none
  | .add =>
    if s.controller = .adding then some { s with wg := s.wg + 1, controller := .spawning }
    else none
  | .spawn =>
    if s.controller = .spawning then
      some { s with workers := s.workers ++ [.processing], controller := .selecting }
    else none
  | .finish i =>
    if s.workers[i]? = some .processing then
      some { s with workers := s.workers.set i .releasing }
    else none
  | .release i =>
    if s.workers[i]? = some .releasing ∧ 0 < s.tasksChan then
      some { s with tasksChan := s.tasksChan - 1, workers := s.workers.set i .finishing }
    else none
  | .done i =>
    if s.workers[i]? = some .finishing ∧ 0 < s.wg then
      some { s with wg := s.wg - 1, workers := s.workers.eraseIdx i }
    else none
  | .stop =>
    if s.controller = .selecting then some { s with controller := .waiting } else none
  | .join =>
    if s.controller = .waiting ∧ s.wg = 0 then some { s with controller := .returned }
    else none

/-- The state after a sequence of events, `none` when one of them cannot be
taken. -/
def Scheduler.run : List SchedulerEvent → Scheduler → Option Scheduler
  | [], s => some s
  | e :: es, s =>
    match s.step e with
    | some s1 => Scheduler.run es s1
    | none => none

/-! ## Vocabulary of the statements -/

/-- The call sequence of a batch on which every publish and every mark
succeeds: `Publish(e1), MarkAsProcessed(e1.ID), ..., Publish(en),
MarkAsProcessed(en.ID)`. -/
def expectedCalls (p : DBProvider) : List Event → List Call
  | [] => []
  | e :: es => .Publish e none :: .MarkAsProcessed p e.ID.String none :: expectedCalls p es

/-- The error a call returned. -/
def Call.res : Call → Option GoError
  | .Begin r => r
  | .Commit r => r
  | .Rollback r => r
  | .SaveUser _ _ _ r => r
  | .DeleteUser _ _ r => r
  | .UpdateUser _ _ r => r
  | .GetUnprocessed _ _ _ r => r
  | .MarkAsProcessed _ _ r => r
  | .AddEvent _ _ _ r => r
  | .Publish _ r => r
  | .GetUser _ _ _ r => r
  | .ListUsers _ _ _ _ _ r => r
  | .TopicPublish _ _ _ r => r

/-- A `Publish` or a `MarkAsProcessed` call that returned an error. -/
def Call.isFailedDelivery : Call → Bool
  | .Publish _ (some _) => true
  | .MarkAsProcessed _ _ (some _) => true
  | _ => false

/-- A `MarkAsProcessed` call. -/
def Call.isMark : Call → Bool
  | .MarkAsProcessed _ _ _ => true
  | _ => false

/-- An `AddEvent` call. -/
def Call.isAddEvent : Call → Bool
  | .AddEvent _ _ _ _ => true
  | _ => false

/-- A call of the user store (`SaveUser`, `UpdateUser`, `DeleteUser`). -/
def Call.isUserMutation : Call → Bool
  | .SaveUser _ _ _ _ => true
  | .UpdateUser _ _ _ => true
  | .DeleteUser _ _ _ => true
  | _ => false

/-- The error `BeginTx` returns after a rollback: `err`, joined with the
rollback error when there is one. -/
def afterRollback (rb : Option GoError) (err : GoError) : GoError :=
  match rb with
  | some err2 => .wrap2 err2 err
  | none => err

/-- The ways the loop of `ProcessOnce` over `es` can go: every step
succeeds; or the publish of some `e` fails after the events before it went
through; or the mark of some `e` fails after its publish succeeded. -/
def LoopShape (p : DBProvider) (es : List Event) (calls : List Call) (res : Option GoError) :
    Prop :=
  (res = none ∧ calls = expectedCalls p es) ∨
  (∃ pre e post x, es = pre ++ e :: post ∧
      calls = expectedCalls p pre ++ [.Publish e (some x)] ∧
      res = some (.wrapf "failed to publish event" x)) ∨
  (∃ pre e post x, es = pre ++ e :: post ∧
      calls = expectedCalls p pre ++ [.Publish e none, .MarkAsProcessed p e.ID.String (some x)] ∧
      res = some (.wrapf "failed to mark as processed" x))

/-- The calls the health checker can make. -/
inductive MonitorCall where
  | repoPing
  | repoIsEnabled
  | pubsubPing
  | pubsubIsEnabled
  deriving DecidableEq, Repr

/-- A dependency that records each call made to it, in order, next to the
state of the dependency it wraps. -/
def recorded {σ : Type} (m : MonitoringRepoQueries σ) (ping enabled : MonitorCall) :
    MonitoringRepoQueries (σ × List MonitorCall) :=
  { Ping := fun ctx s => (((m.Ping ctx s.1).1, s.2 ++ [ping]), (m.Ping ctx s.1).2)
    IsEnabled := fun s => (((m.IsEnabled s.1).1, s.2 ++ [enabled]), (m.IsEnabled s.1).2) }

/-- The health checker on two dependencies, every call recorded. -/
def recordedHealthCheck {σ : Type} (repo pubsub : MonitoringRepoQueries σ) :
    healthCheckQueries (σ × List MonitorCall) :=
  NewHealthCheckQueries (recorded repo .repoPing .repoIsEnabled)
    (recorded pubsub .pubsubPing .pubsubIsEnabled)

/-- The placeholders `$k` of an SQL text in the order they appear; `reading`
is the number whose digits are being read. -/
def placeholdersFrom : List Char → Option Nat → List Nat
  | [], none => []
  | [], some n => [n]
  | c :: cs, none =>
    if c = '$' then placeholdersFrom cs (some 0) else placeholdersFrom cs none
  | c :: cs, some n =>
    if c.isDigit then placeholdersFrom cs (some (n * 10 + (c.toNat - 48)))
    else n :: (if c = '$' then placeholdersFrom cs (some 0) else placeholdersFrom cs none)

/-- The placeholders `$k` of an SQL text in the order they appear. -/
def placeholders (query : String) : List Nat := placeholdersFrom query.toList none

/-- The filters that are supplied, each as its column and the argument
passed for it, in the order first_name, last_name, nickname, email,
country. -/
def suppliedFilters (filters : UserSearchFilters) : List (String × String) :=
  [("first_name", filters.FirstName.map (fun v => "%" ++ v ++ "%")),
    ("last_name", filters.LastName.map (fun v => "%" ++ v ++ "%")),
    ("nickname", filters.NickName.map (fun v => "%" ++ v ++ "%")),
    ("email", filters.Email.map (fun v => "%" ++ v ++ "%")),
    ("country_iso_code", filters.CountryISOCode)].filterMap
      (fun cv => cv.2.map (fun pattern => (cv.1, pattern)))

/-- The filter clauses of the columns given, the first with the placeholder
`first`, the next with `first + 1`, and so on. -/
def numberedClauses : Nat → List String → List String
  | _, [] => []
  | first, column :: rest =>
    (column ++ " ILIKE $" ++ sprintNat first) :: numberedClauses (first + 1) rest

/-- The arguments of the cursor: its time and id, when the id is not empty
and the time not nil. -/
def cursorArgs (cursorUserID : String) (cursorUpdatedAt : Option Nat) : List SqlArg :=
  match cursorUpdatedAt with
  | some ts => if cursorUserID ≠ "" then [.timestamp ts, .text cursorUserID] else []
  | none => []

/-- The clause of the cursor, when the id is not empty and the time not
nil. -/
def cursorClauses (cursorUserID : String) (cursorUpdatedAt : Option Nat) : List String :=
  match cursorUpdatedAt with
  | some _ => if cursorUserID ≠ "" then [keysetText] else []
  | none => []

/-- The SQL text in which every placeholder is the position of its
argument, for a cursor that is there or not and the columns of the supplied
filters: with a cursor the keyset clause takes `$1` and `$2`, the filter
clauses follow with the next numbers, and the limit takes the number after
the last of them. -/
def numberedListQuery (cursor : Bool) (columns : List String) : String :=
  let clauses := (if cursor then [keysetText] else []) ++
    numberedClauses ((if cursor then 2 else 0) + 1) columns
  "\n\t\tSELECT id, first_name, last_name, country_iso_code, nickname, email, created_at, updated_at \n\t\tFROM users \n\t\t"
    ++ (if clauses.length > 0 then "WHERE " ++ " AND ".intercalate clauses else "")
    ++ " \n\t\tORDER BY updated_at DESC, id DESC LIMIT $"
    ++ sprintNat ((if cursor then 2 else 0) + columns.length + 1)

/-- The escape character of `LIKE` patterns, the backslash. -/
def likeEscape : Char := Char.ofNat 92

/-- A list of characters without the pattern characters of `LIKE`: no `%`,
no `_`, no backslash. -/
def plainChars (v : List Char) : Prop := '%' ∉ v ∧ '_' ∉ v ∧ likeEscape ∉ v

/-- A text without the pattern characters of `LIKE`. -/
def plainText (v : String) : Prop := plainChars v.toList

/-- Does `field` hold `value` as a substring, once both are put in lower case
by `lower`?  `lower` stands for the `lower()` of the locale of the database,
which is what makes `ILIKE` insensitive to case. -/
def containsFold (lower : String → String) (field value : String) : Bool :=
  decide ((lower value).toList <:+: (lower field).toList)

/-- Is `field` equal to `value`, once both are put in lower case by `lower`? -/
def equalsFold (lower : String → String) (field value : String) : Bool :=
  decide (lower field = lower value)

/-- The users the filters select when each text filter is read as a
substring of its field and the country filter as the country code itself,
both compared after lower-casing by `lower`. -/
def matchesFilters (lower : String → String) (filters : UserSearchFilters) (u : User) : Bool :=
  (match filters.FirstName with
    | some v => containsFold lower u.FirstName v
    | none => true) &&
  (match filters.LastName with
    | some v => containsFold lower u.LastName v
    | none => true) &&
  (match filters.NickName with
    | some v => containsFold lower u.NickName v
    | none => true) &&
  (match filters.Email with
    | some v => containsFold lower u.Email v
    | none => true) &&
  (match filters.CountryISOCode with
    | some v => equalsFold lower u.CountryISOCode v
    | none => true)

/-- Every supplied filter value is a text without pattern characters. -/
def plainFilters (filters : UserSearchFilters) : Prop :=
  ∀ v, (filters.FirstName = some v ∨ filters.LastName = some v ∨ filters.NickName = some v ∨
    filters.Email = some v ∨ filters.CountryISOCode = some v) → plainText v

/-- The workers in flight: started and not yet past their receive from
`tasksChan`, so still holding the slot reserved for them. -/
def slotHolders : List WorkerPc → Nat
  | [] => 0
  | .finishing :: ws => slotHolders ws
  | _ :: ws => slotHolders ws + 1

/-- The slot the controller has reserved for the worker it is about to
start. -/
def slotsReserved (pc : ControllerPc) : Nat :=
  match pc with
  | .adding => 1
  | .spawning => 1
  | _ => 0

/-- The invariant of the scheduler: the values in `tasksChan` are the slots
of the workers in flight and of the worker about to be started, at most
`_maxConcurrentProcess`; the counter of the wait group counts the workers that
have not ended and the one about to be started. -/
def Scheduler.Inv (s : Scheduler) : Prop :=
  s.tasksChan = slotHolders s.workers + slotsReserved s.controller ∧
  s.tasksChan ≤ _maxConcurrentProcess ∧
  s.wg = s.workers.length + (if s.controller = .spawning then 1 else 0)

/-! ## Concrete worlds for the witnesses -/

/-- An outside world in which nothing fails. -/
def quietEnv : Env :=
  { beginErr := fun _ => none
    commitErr := fun _ => none
    rollbackErr := fun _ => none
    stmtErr := fun _ => none
    scanErr := fun _ => none
    newID := fun _ => ⟨"0d913f6a-497b-4305-b3d1-3f53657e3a27"⟩
    now := fun n => n
    uuidIn := fun s => some ⟨s⟩
    lockedElsewhere := fun _ _ => false
    publish := fun _ _ => none }

/-- Library functions for the witnesses: ids of 36 characters parse, strings
are quoted without escaping, ASCII letters and digits, and a hash that
rejects more than 72 bytes. -/
def plainLib : Lib :=
  { uuidParse := fun s => if s.length = 36 then some ⟨s⟩ else none
    jsonString := fun s => "\x22" ++ s ++ "\x22"
    IsLetter := Char.isAlpha
    IsDigit := Char.isDigit
    GenerateFromPassword := fun s =>
      if s.utf8ByteSize > 72 then .error (.foreign "bcrypt: password length exceeds 72 bytes")
      else .ok ("$2a$10$" ++ s) }

/-- Two unprocessed outbox rows. -/
def twoRows : List OutboxRow :=
  [⟨⟨"0d913f6a-497b-4305-b3d1-3f53657e3a27"⟩, "CreateUser", "p1", none⟩,
   ⟨⟨"0d913f6a-497b-4305-b3d1-3f53657e3a28"⟩, "DeleteUser", "p2", none⟩]

/-- A world with no user, two unprocessed outbox rows and no call made. -/
def outboxWorld : World :=
  { committed := ⟨[], twoRows⟩, openTx := none, trace := [], userID := "" }

/-- The user of the repository tests. -/
def storedUser : User :=
  { ID := ⟨"0f913f6a-497b-4305-b3d1-3f53657e3a25"⟩, FirstName := "first", LastName := "last",
    NickName := "nick", Email := "email@email.pt", Password := "$2a$10$Password1!",
    CountryISOCode := "UK", CreatedAt := 1, UpdatedAt := 1 }

/-- A world with one user, an empty outbox and no call made. -/
def userWorld : World :=
  { committed := ⟨[storedUser], []⟩, openTx := none, trace := [], userID := "" }

/-- A world with no rows and no call made. -/
def emptyWorld : World :=
  { committed := ⟨[], []⟩, openTx := none, trace := [], userID := "" }

/-- A closure that returns `ErrUserNotFound` without touching anything. -/
def failingFn : TxFunc := fun _ w => (w, .returned (some .ErrUserNotFound))

/-- A closure that returns nil without touching anything. -/
def idleFn : TxFunc := fun _ w => (w, .returned none)

/-- A closure that panics. -/
def panickingFn : TxFunc := fun _ w => (w, .panicked)

/-- An outside world in which every rollback fails. -/
def brokenRollbackEnv : Env :=
  { quietEnv with rollbackErr := fun _ => some (.foreign "conn closed") }

/-- An outside world in which every commit fails. -/
def brokenCommitEnv : Env :=
  { quietEnv with commitErr := fun _ => some (.foreign "conn closed") }

/-- The event of the first row of `twoRows`. -/
def firstEvent : Event := ⟨⟨"0d913f6a-497b-4305-b3d1-3f53657e3a27"⟩, "CreateUser", "p1"⟩

/-- The event of the second row of `twoRows`. -/
def secondEvent : Event := ⟨⟨"0d913f6a-497b-4305-b3d1-3f53657e3a28"⟩, "DeleteUser", "p2"⟩

/-- An outside world in which the notification system fails at step 4 (the
publish of the second event of a batch). -/
def brokerDownEnv : Env :=
  { quietEnv with publish := fun n _ => if n = 4 then some (.foreign "broker down") else none }

/-- The calls of a drain of `outboxWorld` in which nothing fails. -/
def quietDrainCalls : List Call :=
  [.Begin none, .GetUnprocessed (.tx ⟨0⟩) 10 [firstEvent, secondEvent] none,
   .Publish firstEvent none, .MarkAsProcessed (.tx ⟨0⟩) firstEvent.ID.String none,
   .Publish secondEvent none, .MarkAsProcessed (.tx ⟨0⟩) secondEvent.ID.String none,
   .Commit none]

/-- The calls of a drain of `outboxWorld` whose second publish fails. -/
def brokerDownCalls : List Call :=
  [.Begin none, .GetUnprocessed (.tx ⟨0⟩) 10 [firstEvent, secondEvent] none,
   .Publish firstEvent none, .MarkAsProcessed (.tx ⟨0⟩) firstEvent.ID.String none,
   .Publish secondEvent (some (.foreign "broker down")), .Rollback none]

/-- A `domain.Transaction` that returns `res` without running the closure,
as the mock of the repository tests can be set up to do. -/
def stubTransaction (res : Option GoError) : Transaction :=
  ⟨fun _ _ w => (w, .returned res)⟩

/-- The command service on the PostgreSQL stores with `stubTransaction res`
for its transaction. -/
def stubbedCommands (res : Option GoError) : userUseCaseCommands :=
  { repo := NewUserCommandsRepo quietEnv
    outboxRepo := NewOutboxCommandsRepo quietEnv
    transaction := stubTransaction res }

/-- The create request of the repository tests. -/
def exampleAddUserReq : AddUserRequest :=
  { FirstName := "first", LastName := "last", NickName := "nick", Email := "email@email.pt",
    Password := "Password1!", CountryISOCode := "UK" }

/-- The update request of the repository tests. -/
def exampleUpdateUserReq : UpdateUserRequest :=
  { ID := "0f913f6a-497b-4305-b3d1-3f53657e3a25", FirstName := "first", LastName := "last",
    NickName := "nick", Email := "email@email.pt", CountryISOCode := "UK" }

/-- The user id of the repository tests. -/
def expectedUserID : String := "0f913f6a-497b-4305-b3d1-3f53657e3a25"

/-- The password of over 72 bytes of the repository tests. -/
def longPassword : String :=
  "VeryLongPasswordThatExceedsSeventyTwoCharactersInLengthWhichIsDefinitelyLongEnoughToTestThePasswordHashFunction@123456789"

/-- An outside world in which the statement sent at step 2 fails (in
`UpdateUser` and `DeleteUser` that is the `INSERT INTO outbox`). -/
def eventFailsEnv : Env :=
  { quietEnv with stmtErr := fun n => if n = 2 then some (.foreign "insert failed") else none }

/-- The update request of the repository tests with another first name. -/
def renameReq : UpdateUserRequest := { exampleUpdateUserReq with FirstName := "renamed" }

/-- The event `DeleteUser` appends for `expectedUserID`. -/
def deleteEvent : Event :=
  ⟨UUID.Nil, "DeleteUser", jsonObject plainLib [("ID", expectedUserID)]⟩

/-- The event `UpdateUser` appends for `renameReq`. -/
def renameEvent : Event := ⟨UUID.Nil, "UpdateUser", renameReq.Marshal plainLib⟩

/-! ## A stand-in for the Go standard library of the cursor code

Used by the witnesses and the counterexamples of the cursor statements,
written from the documentation of `encoding/base64` and `time`.  Strings are
taken byte by byte, every character below 256 being one byte.  Instants are
nanoseconds since 1970-01-01T00:00:00Z, so there is none before 1970, and they
are written in UTC, as the times of a server that runs in UTC are: a parsed
text with another offset gives its instant, the offset itself is not kept.
The statements themselves are about every library; the witnesses print and
parse times in UTC only. -/

/-- The alphabet of `base64.StdEncoding`. -/
def b64Alphabet : List Char :=
  "ABCDEFGHIJKLMNOPQRSTUVWXYZabcdefghijklmnopqrstuvwxyz0123456789+/".toList

/-- The character of a six-bit value. -/
def b64Char (n : Nat) : Char := b64Alphabet.getD n 'A'

/-- The six-bit value of a character of the alphabet. -/
def b64Value (c : Char) : Option Nat :=
  if c ∈ b64Alphabet then some (b64Alphabet.indexOf c) else none

/-- Base64 with padding: three bytes give four characters. -/
def b64EncodeBytes : List Nat → List Char
  | [] => []
  | [a] => [b64Char (a / 4), b64Char (a % 4 * 16), '=', '=']
  | [a, b] => [b64Char (a / 4), b64Char (a % 4 * 16 + b / 16), b64Char (b % 16 * 4), '=']
  | a :: b :: c :: rest =>
    b64Char (a / 4) :: b64Char (a % 4 * 16 + b / 16) :: b64Char (b % 16 * 4 + c / 64) ::
      b64Char (c % 64) :: b64EncodeBytes rest

/-- The inverse on groups of four characters; padding may only close the last
group, and bits that do not fill a byte are dropped. -/
def b64DecodeChars : List Char → Option (List Nat)
  | [] => some []
  | a :: b :: c :: d :: rest =>
    match b64Value a, b64Value b with
    | some x, some y =>
      if c = '=' ∧ d = '=' ∧ rest = [] then some [x * 4 + y / 16]
      else
        match b64Value c with
        | some z =>
          if d = '=' ∧ rest = [] then some [x * 4 + y / 16, y % 16 * 16 + z / 4]
          else
            match b64Value d, b64DecodeChars rest with
            | some t, some bytes =>
              some ((x * 4 + y / 16) :: (y % 16 * 16 + z / 4) :: (z % 4 * 64 + t) :: bytes)
            | _, _ => none
        | none => none
    | _, _ => none
  | _ => none

/-- `base64.StdEncoding.EncodeToString`. -/
def goEncodeToString (s : String) : String :=
  String.mk (b64EncodeBytes (s.toList.map (fun c => c.toNat % 256)))

/-- `base64.StdEncoding.DecodeString`: carriage returns and new lines in the
input are ignored. -/
def goDecodeString (s : String) : Except GoError String :=
  match b64DecodeChars (s.toList.filter (fun c => c ≠ '\r' ∧ c ≠ '\n')) with
  | some bytes => .ok (String.mk (bytes.map Char.ofNat))
  | none => .error (.foreign "illegal base64 data")

/-- The decimal digit of a number at a power of ten. -/
def digitAt (n pow : Nat) : Char := Char.ofNat (48 + n / pow % 10)

/-- Two decimal digits. -/
def twoDigits (n : Nat) : List Char := [digitAt n 10, digitAt n 1]

/-- Four decimal digits. -/
def fourDigits (n : Nat) : List Char := [digitAt n 1000, digitAt n 100, digitAt n 10, digitAt n 1]

/-- The year as a layout prints it: four digits at least. -/
def yearDigits (y : Nat) : List Char :=
  if y < 10000 then fourDigits y else decimalDigits (y + 1) y

/-- The year, month and day of a day count since 1970-01-01 (the proleptic
Gregorian calendar). -/
def civilFromDays (days : Nat) : Nat × Nat × Nat :=
  let z := days + 719468
  let era := z / 146097
  let doe := z % 146097
  let yoe := (doe - doe / 1460 + doe / 36524 - doe / 146096) / 365
  let doy := doe - (365 * yoe + yoe / 4 - yoe / 100)
  let mp := (5 * doy + 2) / 153
  let d := doy - (153 * mp + 2) / 5 + 1
  let m := if mp < 10 then mp + 3 else mp - 9
  let y := yoe + era * 400
  (if m ≤ 2 then y + 1 else y, m, d)

/-- The day count since 1970-01-01 of a date from March of year 0 on, as an
offset from 0000-03-01. -/
def daysFromCivil (y m d : Nat) : Nat :=
  let y' := if m ≤ 2 then y - 1 else y
  let era := y' / 400
  let yoe := y' % 400
  let mp := if m > 2 then m - 3 else m + 9
  let doy := (153 * mp + 2) / 5 + d - 1
  let doe := yoe * 365 + yoe / 4 - yoe / 100 + doy
  era * 146097 + doe

/-- The digits of the nanoseconds with the trailing zeros removed, as
`.999999999` in a layout prints them. -/
def fractionDigits (nsec : Nat) : List Char :=
  ([digitAt nsec 100000000, digitAt nsec 10000000, digitAt nsec 1000000, digitAt nsec 100000,
    digitAt nsec 10000, digitAt nsec 1000, digitAt nsec 100, digitAt nsec 10,
    digitAt nsec 1].reverse.dropWhile (fun c => c = '0')).reverse

/-- `ts.Format(time.RFC3339Nano)` for an instant in UTC. -/
def goFormat (ts : Nat) : String :=
  let secs := ts / 1000000000
  let nsec := ts % 1000000000
  let date := civilFromDays (secs / 86400)
  let sod := secs % 86400
  String.mk (yearDigits date.1 ++ ['-'] ++ twoDigits date.2.1 ++ ['-'] ++ twoDigits date.2.2
    ++ ['T'] ++ twoDigits (sod / 3600) ++ [':'] ++ twoDigits (sod / 60 % 60) ++ [':']
    ++ twoDigits (sod % 60)
    ++ (if nsec = 0 then [] else '.' :: fractionDigits nsec) ++ ['Z'])

/-- The value of a run of decimal digits, `none` when a character is no
digit. -/
def digitsValue (cs : List Char) : Option Nat :=
  cs.foldl (fun acc c =>
    match acc with
    | some n => if c.isDigit then some (n * 10 + (c.toNat - 48)) else none
    | none => none) (some 0)

/-- The days of a month. -/
def daysIn (y m : Nat) : Nat :=
  if m = 2 then (if y % 4 = 0 ∧ (y % 100 ≠ 0 ∨ y % 400 = 0) then 29 else 28)
  else if m = 4 ∨ m = 6 ∨ m = 9 ∨ m = 11 then 30
  else 31

/-- The zone at the end of a timestamp: `Z`, or a sign, two digits, a colon
and two digits; the result is the offset in seconds and whether it is to be
subtracted from the wall clock. -/
def parseZone (cs : List Char) : Option (Bool × Nat) :=
  match cs with
  | ['Z'] => some (true, 0)
  | [sign, h1, h2, ':', m1, m2] =>
    match digitsValue [h1, h2], digitsValue [m1, m2] with
    | some h, some m =>
      if h < 24 ∧ m < 60 then
        if sign = '+' then some (true, h * 3600 + m * 60)
        else if sign = '-' then some (false, h * 3600 + m * 60)
        else none
      else none
    | _, _ => none
  | _ => none

/-- The fraction of a second and the zone after the seconds: an optional
`.` or `,` with one or more digits (the first nine count), then the zone. -/
def parseFractionAndZone (cs : List Char) : Option (Nat × Bool × Nat) :=
  match cs with
  | sep :: rest =>
    if sep = '.' ∨ sep = ',' then
      let digits := rest.takeWhile Char.isDigit
      let nine := (digits ++ List.replicate 9 '0').take 9
      match digits, digitsValue nine, parseZone (rest.dropWhile Char.isDigit) with
      | _ :: _, some nsec, some zone => some (nsec, zone)
      | _, _, _ => none
    else (parseZone cs).map (fun zone => (0, zone))
  | [] => none

/-- `time.Parse(time.RFC3339Nano, s)` on texts of the form
`YYYY-MM-DDTHH:MM:SS[.fraction](Z|±HH:MM)`, for instants from 1970 on. -/
def goParse (s : String) : Except GoError Nat :=
  match s.toList with
  | y1 :: y2 :: y3 :: y4 :: '-' :: mo1 :: mo2 :: '-' :: d1 :: d2 :: 'T' :: h1 :: h2 :: ':' ::
      mi1 :: mi2 :: ':' :: s1 :: s2 :: rest =>
    match digitsValue [y1, y2, y3, y4], digitsValue [mo1, mo2], digitsValue [d1, d2],
      digitsValue [h1, h2], digitsValue [mi1, mi2], digitsValue [s1, s2],
      parseFractionAndZone rest with
    | some y, some mo, some d, some h, some mi, some sec, some (nsec, east, offset) =>
      if 1 ≤ mo ∧ mo ≤ 12 ∧ 1 ≤ d ∧ d ≤ daysIn y mo ∧ h < 24 ∧ mi < 60 ∧ sec < 60 then
        let wall := (daysFromCivil y mo d - 719468) * 86400 + h * 3600 + mi * 60 + sec
        if daysFromCivil y mo d < 719468 then .error (.foreign "parsing time: out of range")
        else if east then
          (if wall < offset then .error (.foreign "parsing time: out of range")
           else .ok ((wall - offset) * 1000000000 + nsec))
        else .ok ((wall + offset) * 1000000000 + nsec)
      else .error (.foreign "parsing time: out of range")
    | _, _, _, _, _, _, _ => .error (.foreign "parsing time: cannot parse")
  | _ => .error (.foreign "parsing time: cannot parse")

/-- The stand-in library. -/
def goCursorLib : CursorLib :=
  { EncodeToString := goEncodeToString
    DecodeString := goDecodeString
    Format := goFormat
    Parse := goParse }

/-- The instant `time.Date(2024, 8, 22, 20, 30, 3, 0, time.UTC)` of the
repository test. -/
def testInstant : Nat := 1724358603000000000

/-! ## Concrete stores, users and dependencies for the witnesses -/

/-- An `ILIKE` for the witnesses: the pattern `%v%` matches the texts that
hold `v` (letters compared without case), any other pattern the text equal to
it without case. -/
def plainOps : SqlOps :=
  ⟨fun text pattern =>
    let t := text.toList.map Char.toLower
    let p := pattern.toList.map Char.toLower
    if p.head? = some '%' ∧ p.getLast? = some '%' ∧ 2 ≤ p.length then
      decide (p.tail.dropLast <:+: t)
    else decide (t = p)⟩

/-- The stored user of the tests with another id and time of update. -/
def userAt (id : String) (updatedAt : Nat) : User :=
  { storedUser with ID := ⟨id⟩, UpdatedAt := updatedAt }

/-- Five users with distinct `(updated_at, id)`, two of them updated at the
same instant, stored in no particular order. -/
def fiveUsers : List User :=
  [userAt "0f913f6a-497b-4305-b3d1-3f53657e3a21" 1724358603000000000,
   userAt "0f913f6a-497b-4305-b3d1-3f53657e3a25" 1724358605123456789,
   userAt "0f913f6a-497b-4305-b3d1-3f53657e3a23" 1724358604000000000,
   userAt "0f913f6a-497b-4305-b3d1-3f53657e3a24" 1724358604000000000,
   userAt "0f913f6a-497b-4305-b3d1-3f53657e3a22" 1724358603500000000]

/-- A world with the five users, an empty outbox and no call made. -/
def pagingWorld : World :=
  { committed := ⟨fiveUsers, []⟩, openTx := none, trace := [], userID := "" }

/-- A broker for the witnesses: a payload that starts with a brace is taken
for valid JSON and embedded as it is, any other is refused; every message is
acknowledged. -/
def quietBroker : BrokerEnv :=
  { rawJSON := fun s =>
      if s.toList.head? = some '\x7b' then .ok s
      else .error (.foreign "json: error calling MarshalJSON for type json.RawMessage")
    ack := fun _ _ => none }

/-- A broker that acknowledges nothing. -/
def deafBroker : BrokerEnv :=
  { quietBroker with ack := fun _ _ => some (.foreign "rpc error: code = Unavailable") }

/-- A dependency without state that answers `ping` to `Ping` and `enabled`
to `IsEnabled`, as the mocks of the repository tests do. -/
def fixedMonitor (ping enabled : Bool) : MonitoringRepoQueries Unit :=
  { Ping := fun _ s => (s, ping), IsEnabled := fun s => (s, enabled) }

/-- An outside world in which every statement fails with the error given. -/
def failingEnv (err : GoError) : Env := { quietEnv with stmtErr := fun _ => some err }

/-- The stored user of the tests with another id, first name, country and
time of update. -/
def namedUser (id first country : String) (updatedAt : Nat) : User :=
  { storedUser with ID := ⟨id⟩, FirstName := first, CountryISOCode := country,
                    UpdatedAt := updatedAt }

/-- Three users that differ in first name and country. -/
def threeUsers : List User :=
  [namedUser "0f913f6a-497b-4305-b3d1-3f53657e3a31" "Anna" "UK" 1,
   namedUser "0f913f6a-497b-4305-b3d1-3f53657e3a32" "Joanne" "pt" 2,
   namedUser "0f913f6a-497b-4305-b3d1-3f53657e3a33" "Hannah" "Uk" 3]

/-- A world with the three users, an empty outbox and no call made. -/
def namesWorld : World :=
  { committed := ⟨threeUsers, []⟩, openTx := none, trace := [], userID := "" }

/-! ## A stand-in for the `ILIKE` of the database

Written from the documentation of pattern matching in PostgreSQL: in a
pattern `%` stands for any run of characters, `_` for any one character, a
backslash makes the character after it stand for itself, and `ILIKE` is
`LIKE` made insensitive to case according to the locale of the database.  The
lower-casing of the locale is a parameter of the stand-in; two locales are
given: one that knows the letters A to Z only, as the `C` locale does, and one
that knows the letters of Latin-1. -/

/-- What a place of a `LIKE` pattern stands for. -/
inductive LikeToken where
  | anyRun
  | anyOne
  | literal (c : Char)
  deriving DecidableEq, Repr

/-- The places of a pattern; `escaped` says that the character before was
the escape character.  A pattern that ends in the escape character has
none. -/
def likeTokens : List Char → Bool → Option (List LikeToken)
  | [], false => some []
  | [], true => none
  | c :: rest, true => (likeTokens rest false).map (fun ts => .literal c :: ts)
  | c :: rest, false =>
    if c = likeEscape then likeTokens rest true
    else
      (likeTokens rest false).map (fun ts =>
        (if c = '%' then LikeToken.anyRun else if c = '_' then .anyOne else .literal c) :: ts)

/-- Does the whole text match the places of a pattern? -/
def likeMatchTokens : List LikeToken → List Char → Bool
  | [], text => text.isEmpty
  | .anyRun :: ts, text => text.tails.any (fun rest => likeMatchTokens ts rest)
  | .anyOne :: _, [] => false
  | .anyOne :: ts, _ :: rest => likeMatchTokens ts rest
  | .literal _ :: _, [] => false
  | .literal c :: ts, d :: rest => decide (c = d) && likeMatchTokens ts rest

/-- `LIKE` on character lists; a pattern that ends in the escape character
matches nothing. -/
def likeMatch (pattern text : List Char) : Bool :=
  match likeTokens pattern false with
  | some ts => likeMatchTokens ts text
  | none => false

/-- The lower case of a character in a locale of Latin-1: the letters A to Z
and the letters from U+00C0 to U+00DE (the multiplication sign U+00D7 is no
letter) have their lower case 32 places on. -/
def latin1Lower (c : Char) : Char :=
  if (65 ≤ c.toNat ∧ c.toNat ≤ 90) ∨ (192 ≤ c.toNat ∧ c.toNat ≤ 222 ∧ c.toNat ≠ 215) then
    Char.ofNat (c.toNat + 32)
  else c

/-- `lower(s)` in a locale that lowers character by character. -/
def lowerBy (fold : Char → Char) (s : String) : String := String.mk (s.toList.map fold)

/-- `text ILIKE pattern` in a locale whose lower-casing of a character is
`fold`: both sides are put in lower case, then matched as `LIKE`. -/
def sqlILike (fold : Char → Char) (text pattern : String) : Bool :=
  likeMatch (lowerBy fold pattern).toList (lowerBy fold text).toList

/-- The operators of a database whose locale lowers by `fold`, with the
stand-in for `ILIKE`. -/
def likeOps (fold : Char → Char) : SqlOps := ⟨sqlILike fold⟩

/-- A world with one user whose first name is written in capitals with an
accent, an empty outbox and no call made. -/
def accentWorld : World :=
  { committed := ⟨[namedUser "0f913f6a-497b-4305-b3d1-3f53657e3a34" "JOSÉ" "PT" 4], []⟩,
    openTx := none, trace := [], userID := "" }

/-! ## Runs of the scheduler for the witnesses -/

/-- The events of one tick that starts a worker. -/
def dispatchOne : List SchedulerEvent := [.tick, .send, .add, .spawn]

/-- Five ticks, each starting a worker. -/
def dispatchFive : List SchedulerEvent :=
  dispatchOne ++ dispatchOne ++ dispatchOne ++ dispatchOne ++ dispatchOne

/-! ## Errors: facts about `errors.Is` -/

theorem errorsIs_self (e : GoError) : errorsIs e e = true := by
  unfold errorsIs
  simp

/-- A single `%w` wrapper matches whatever the wrapped error matches. -/
theorem errorsIs_wrapf (msg : String) (e t : GoError) (h : errorsIs e t = true) :
    errorsIs (.wrapf msg e) t = true := by
  rw [errorsIs]
  split
  · rfl
  · exact h

/-- A double `%w` wrapper matches whatever its first error matches. -/
theorem errorsIs_wrap2_left (a b t : GoError) (h : errorsIs a t = true) :
    errorsIs (.wrap2 a b) t = true := by
  rw [errorsIs]
  split
  · rfl
  · simp [h]

/-- A double `%w` wrapper matches whatever its second error matches. -/
theorem errorsIs_wrap2_right (a b t : GoError) (h : errorsIs b t = true) :
    errorsIs (.wrap2 a b) t = true := by
  rw [errorsIs]
  split
  · rfl
  · simp [h]

/-- Joining a rollback error keeps what the original error matches. -/
theorem errorsIs_afterRollback (rb : Option GoError) (e t : GoError) (h : errorsIs e t = true) :
    errorsIs (afterRollback rb e) t = true := by
  cases rb with
  | none => exact h
  | some r => exact errorsIs_wrap2_right r e t h

/-! ## Transaction coordinator -/

/-- C8 (amended).  Once the transaction is begun, `BeginTx` follows what `fn`
does.  When `fn` returns nil it makes exactly one more call, `Commit`, never a
rollback, and returns what `Commit` returned; a successful commit applies the
pending statements, a failed one leaves the committed tables as `fn` left
them.  When `fn` returns an error it makes exactly one more call, `Rollback`,
never a commit, the committed tables stay as `fn` left them, and the error is
returned (joined with the rollback error if any).  When `fn` panics `BeginTx`
makes no further call at all: neither `Commit` nor `Rollback`. -/
theorem beginTx_commits_or_rolls_back (env : Env) (ctx : Context) (fn : TxFunc) (w : World)
    (hb : env.beginErr w.step = none) :
    (∀ w2, fn { ctx with txKey := some ⟨w.step⟩ }
          { w with openTx := some (⟨w.step⟩, []), trace := w.trace ++ [.Begin none] }
          = (w2, .returned none) →
        ∃ c, (transactionSupplier.BeginTx env ctx fn w).1.trace = w2.trace ++ [.Commit c] ∧
          (transactionSupplier.BeginTx env ctx fn w).2 = .returned c ∧
          (c = none → ∃ ps, w2.pendingOf ⟨w.step⟩ = some ps ∧
            (transactionSupplier.BeginTx env ctx fn w).1.committed = applyAll ps w2.committed) ∧
          (c ≠ none → (transactionSupplier.BeginTx env ctx fn w).1.committed = w2.committed)) ∧
    (∀ w2 e, fn { ctx with txKey := some ⟨w.step⟩ }
          { w with openTx := some (⟨w.step⟩, []), trace := w.trace ++ [.Begin none] }
          = (w2, .returned (some e)) →
        ∃ rb, (transactionSupplier.BeginTx env ctx fn w).1.trace = w2.trace ++ [.Rollback rb] ∧
          (transactionSupplier.BeginTx env ctx fn w).2 = .returned (some (afterRollback rb e)) ∧
          (transactionSupplier.BeginTx env ctx fn w).1.committed = w2.committed) ∧
    (∀ w2, fn { ctx with txKey := some ⟨w.step⟩ }
          { w with openTx := some (⟨w.step⟩, []), trace := w.trace ++ [.Begin none] }
          = (w2, .panicked) →
        transactionSupplier.BeginTx env ctx fn w = (w2, .panicked)) := by
  refine ⟨?_, ?_, ?_⟩
  · intro w2 hfn
    simp only [transactionSupplier.BeginTx, hb, hfn]
    cases hc : env.commitErr w2.step with
    | some err =>
      refine ⟨some err, ?_⟩
      simp [World.log, World.discard]
      cases hp : w2.pendingOf ⟨w.step⟩ <;> simp
    | none =>
      cases hp : w2.pendingOf ⟨w.step⟩ with
      | none => exact ⟨some (.foreign "tx is closed"), by simp [World.log]⟩
      | some ps => exact ⟨none, by simp⟩
  · intro w2 e hfn
    simp only [transactionSupplier.BeginTx, hb, hfn]
    cases hr : env.rollbackErr w2.step with
    | some err2 =>
      refine ⟨some err2, ?_⟩
      simp [World.log, World.discard, afterRollback]
      cases hp : w2.pendingOf ⟨w.step⟩ <;> simp
    | none =>
      refine ⟨none, ?_⟩
      simp [World.log, World.discard, afterRollback]
      cases hp : w2.pendingOf ⟨w.step⟩ <;> simp
  · intro w2 hfn
    simp only [transactionSupplier.BeginTx, hb, hfn]

/-- Witness for C8 (amended): on the empty world, with nothing failing, a
closure that returns nil is followed by one `Commit` and the result nil. -/
theorem beginTx_commits_or_rolls_back_witness :
    quietEnv.beginErr emptyWorld.step = none ∧
    ∃ c, (transactionSupplier.BeginTx quietEnv Context.Background idleFn emptyWorld).1.trace
          = [.Begin none] ++ [.Commit c] ∧
        (transactionSupplier.BeginTx quietEnv Context.Background idleFn emptyWorld).2
          = .returned c :=
  ⟨rfl,
    match (beginTx_commits_or_rolls_back quietEnv Context.Background idleFn emptyWorld rfl).1
      _ rfl with
    | ⟨c, h1, h2, _⟩ => ⟨c, h1, h2⟩⟩

/-- C8 (as stated) fails when `fn` panics: the transaction is begun, `fn`
panics, and `BeginTx` unwinds without any `Rollback` call, the transaction
still open. -/
theorem beginTx_panic_leaves_tx_open :
    (transactionSupplier.BeginTx quietEnv Context.Background panickingFn emptyWorld).2
        = .panicked ∧
    (transactionSupplier.BeginTx quietEnv Context.Background panickingFn emptyWorld).1.trace
        = [.Begin none] ∧
    (∀ rb, Call.Rollback rb ∉
      (transactionSupplier.BeginTx quietEnv Context.Background panickingFn emptyWorld).1.trace) ∧
    (transactionSupplier.BeginTx quietEnv Context.Background panickingFn emptyWorld).1.openTx
        = some (⟨0⟩, []) := by
  refine ⟨rfl, rfl, ?_, rfl⟩
  intro rb hmem
  have ht : (transactionSupplier.BeginTx quietEnv Context.Background panickingFn emptyWorld).1.trace
      = [.Begin none] := rfl
  rw [ht] at hmem
  simp at hmem

/-- C9.  When the transaction is begun and `fn` returns the error `e`: if
the rollback fails with `r`, `BeginTx` returns an error for which
`errors.Is` holds against both `e` and `r`; if the rollback succeeds,
`BeginTx` returns `e` itself. -/
theorem beginTx_keeps_both_errors (env : Env) (ctx : Context) (fn : TxFunc) (w w2 : World)
    (e : GoError) (hb : env.beginErr w.step = none)
    (hfn : fn { ctx with txKey := some ⟨w.step⟩ }
        { w with openTx := some (⟨w.step⟩, []), trace := w.trace ++ [.Begin none] }
        = (w2, .returned (some e))) :
    (∀ r, env.rollbackErr w2.step = some r →
      ∃ res, (transactionSupplier.BeginTx env ctx fn w).2 = .returned (some res) ∧
        errorsIs res e = true ∧ errorsIs res r = true) ∧
    (env.rollbackErr w2.step = none →
      (transactionSupplier.BeginTx env ctx fn w).2 = .returned (some e)) := by
  constructor
  · intro r hr
    refine ⟨.wrap2 r e, ?_, errorsIs_wrap2_right r e e (errorsIs_self e),
      errorsIs_wrap2_left r e r (errorsIs_self r)⟩
    simp only [transactionSupplier.BeginTx, hb, hfn, hr]
  · intro hr
    simp only [transactionSupplier.BeginTx, hb, hfn, hr]

/-- Witness for C9: the closure fails with `ErrUserNotFound` and the rollback
fails too; the result matches both errors. -/
theorem beginTx_keeps_both_errors_witness :
    brokenRollbackEnv.beginErr emptyWorld.step = none ∧
    ∃ res, (transactionSupplier.BeginTx brokenRollbackEnv Context.Background failingFn
          emptyWorld).2 = .returned (some res) ∧
      errorsIs res .ErrUserNotFound = true ∧ errorsIs res (.foreign "conn closed") = true :=
  ⟨rfl, (beginTx_keeps_both_errors brokenRollbackEnv Context.Background failingFn emptyWorld
      _ .ErrUserNotFound rfl rfl).1 (.foreign "conn closed") rfl⟩

/-! ## Outbox drain worker -/

theorem markAsProcessed_step (env : Env) (h : Tx) (id : String) (w : World) (ps : List Stmt)
    (hw : w.openTx = some (h, ps)) :
    (∃ u, env.uuidIn id = some u ∧
      outboxCommandsRepo.MarkAsProcessed env ⟨some h⟩ id w =
        ({ w with openTx := some (h, ps ++ [.markProcessed u (env.now w.step)]),
                  trace := w.trace ++ [.MarkAsProcessed (.tx h) id none] }, none)) ∨
    outboxCommandsRepo.MarkAsProcessed env ⟨some h⟩ id w =
      ({ w with trace := w.trace ++ [.MarkAsProcessed (.tx h) id (some .ErrInternal)] },
        some .ErrInternal) := by
  cases hs : env.stmtErr w.step with
  | some x =>
    right
    simp [outboxCommandsRepo.MarkAsProcessed, outboxCommandsRepo.db, driverFault, hs, World.log]
  | none =>
    cases hu : env.uuidIn id with
    | none =>
      right
      simp [outboxCommandsRepo.MarkAsProcessed, outboxCommandsRepo.db, driverFault, hs, hu,
        World.log, World.pendingOf, hw]
    | some u =>
      left
      refine ⟨u, rfl, ?_⟩
      simp [outboxCommandsRepo.MarkAsProcessed, outboxCommandsRepo.db, driverFault, hs, hu,
        World.log, World.pendingOf, World.write, hw]

/-- The loop of `ProcessOnce` on the open transaction: it only appends calls and pending marks,
each mark for the id of an event whose publish returned nil, and the calls have one of the
three shapes of `LoopShape`. -/
theorem processEvents_shape (env : Env) (h : Tx) (es : List Event) :
    ∀ (w : World) (ps : List Stmt), w.openTx = some (h, ps) →
      ∃ calls marks,
        ((NewProcessor env).processEvents ⟨some h⟩ es w).1 =
          { w with openTx := some (h, ps ++ marks), trace := w.trace ++ calls } ∧
        (∀ s ∈ marks, ∃ e u t, s = Stmt.markProcessed u t ∧ Call.Publish e none ∈ calls ∧
          env.uuidIn e.ID.String = some u) ∧
        LoopShape (.tx h) es calls ((NewProcessor env).processEvents ⟨some h⟩ es w).2 := by
  induction es with
  | nil =>
    intro w ps hw
    refine ⟨[], [], ?_, by simp, Or.inl ⟨rfl, rfl⟩⟩
    simp [outboxProcessor.processEvents, ← hw]
  | cons e es ih =>
    intro w ps hw
    cases hpub : env.publish w.step e with
    | some x =>
      refine ⟨[.Publish e (some x)], [], ?_, by simp, Or.inr (Or.inl ⟨[], e, es, x, rfl, rfl, ?_⟩)⟩
      · simp [outboxProcessor.processEvents, NewProcessor, notifierOf, hpub, World.log, hw]
      · simp [outboxProcessor.processEvents, NewProcessor, notifierOf, hpub]
    | none =>
      have hw1 : (w.log (.Publish e none)).openTx = some (h, ps) := by simp [World.log, hw]
      rcases markAsProcessed_step env h e.ID.String (w.log (.Publish e none)) ps hw1 with
        ⟨u, hu, hm⟩ | hm
      · have hw2 : ({ w.log (.Publish e none) with
            openTx := some (h, ps ++ [.markProcessed u (env.now (w.log (.Publish e none)).step)]),
            trace := (w.log (.Publish e none)).trace ++
              [.MarkAsProcessed (.tx h) e.ID.String none] } : World).openTx
            = some (h, ps ++ [.markProcessed u (env.now (w.log (.Publish e none)).step)]) := rfl
        obtain ⟨calls, marks, hworld, hmarks, hshape⟩ := ih _ _ hw2
        have hrun : (NewProcessor env).processEvents ⟨some h⟩ (e :: es) w =
            (NewProcessor env).processEvents ⟨some h⟩ es
              { w.log (.Publish e none) with
                openTx := some (h, ps ++ [.markProcessed u (env.now (w.log (.Publish e none)).step)]),
                trace := (w.log (.Publish e none)).trace ++
                  [.MarkAsProcessed (.tx h) e.ID.String none] } := by
          have hm' : (NewProcessor env).repo.MarkAsProcessed ⟨some h⟩ e.ID.String
              (w.log (.Publish e none)) = _ := hm
          have hp' : (NewProcessor env).notifier.Publish ⟨some h⟩ e w
              = (w.log (.Publish e none), none) := by
            simp [NewProcessor, notifierOf, hpub]
          rw [outboxProcessor.processEvents]
          simp only [hp', hm']
        refine ⟨.Publish e none :: .MarkAsProcessed (.tx h) e.ID.String none :: calls,
          .markProcessed u (env.now (w.log (.Publish e none)).step) :: marks, ?_, ?_, ?_⟩
        · rw [hrun, hworld]
          simp [World.log]
        · intro s hs
          rcases List.mem_cons.1 hs with rfl | hs
          · exact ⟨e, u, _, rfl, by simp, hu⟩
          · obtain ⟨e', u', t', h1, h2, h3⟩ := hmarks s hs
            exact ⟨e', u', t', h1, by simp [h2], h3⟩
        · rw [hrun]
          rcases hshape with ⟨h1, h2⟩ | ⟨pre, e', post, x, h1, h2, h3⟩ | ⟨pre, e', post, x, h1, h2, h3⟩
          · exact Or.inl ⟨h1, by simp [expectedCalls, h2]⟩
          · exact Or.inr (Or.inl ⟨e :: pre, e', post, x, by simp [h1], by simp [expectedCalls, h2], h3⟩)
          · exact Or.inr (Or.inr ⟨e :: pre, e', post, x, by simp [h1], by simp [expectedCalls, h2], h3⟩)
      · have hrun : (NewProcessor env).processEvents ⟨some h⟩ (e :: es) w =
            ({ w.log (.Publish e none) with trace := (w.log (.Publish e none)).trace ++
                [.MarkAsProcessed (.tx h) e.ID.String (some .ErrInternal)] },
              some (.wrapf "failed to mark as processed" .ErrInternal)) := by
          have hm' : (NewProcessor env).repo.MarkAsProcessed ⟨some h⟩ e.ID.String
              (w.log (.Publish e none)) = _ := hm
          have hp' : (NewProcessor env).notifier.Publish ⟨some h⟩ e w
              = (w.log (.Publish e none), none) := by
            simp [NewProcessor, notifierOf, hpub]
          rw [outboxProcessor.processEvents]
          simp only [hp', hm']
        refine ⟨[.Publish e none, .MarkAsProcessed (.tx h) e.ID.String (some .ErrInternal)], [],
          ?_, by simp, Or.inr (Or.inr ⟨[], e, es, .ErrInternal, rfl, rfl, ?_⟩)⟩
        · rw [hrun]; simp [World.log, hw]
        · rw [hrun]

/-- The closure of `ProcessOnce` on a freshly begun transaction: the claim fails, or a batch of
unprocessed committed rows is claimed and the loop runs on it. -/
theorem processTx_shape (env : Env) (limit : Int) (h : Tx) (w1 : World)
    (hw : w1.openTx = some (h, [])) :
    (∃ g, (NewProcessor env).processTx limit ⟨some h⟩ w1 =
        (w1.log (.GetUnprocessed (.tx h) limit [] (some g)),
          .returned (some (.wrapf "failed to get events" g)))) ∨
    (∃ batch calls marks res,
      (∀ e ∈ batch, ∃ row ∈ w1.committed.outbox, row.id = e.ID ∧ row.processedAt = none) ∧
      (NewProcessor env).processTx limit ⟨some h⟩ w1 =
        ({ w1 with openTx := some (h, marks),
                   trace := w1.trace ++ .GetUnprocessed (.tx h) limit batch none :: calls },
          .returned res) ∧
      (∀ s ∈ marks, ∃ e u t, s = Stmt.markProcessed u t ∧ Call.Publish e none ∈ calls ∧
          env.uuidIn e.ID.String = some u) ∧
      LoopShape (.tx h) batch calls res) := by
  have hpend : w1.pendingOf h = some [] := by simp [World.pendingOf, hw]
  cases hs : env.stmtErr w1.step with
  | some x =>
    left
    refine ⟨.ErrInternal, ?_⟩
    simp [outboxProcessor.processTx, NewProcessor, NewOutboxCommandsRepo,
      outboxCommandsRepo.GetUnprocessed, outboxCommandsRepo.db, driverFault, hs]
  | none =>
    cases hsc : env.scanErr w1.step with
    | some x =>
      left
      refine ⟨.ErrFailedToProcessData, ?_⟩
      simp [outboxProcessor.processTx, NewProcessor, NewOutboxCommandsRepo,
        outboxCommandsRepo.GetUnprocessed, outboxCommandsRepo.db, driverFault, hs, hsc, hpend]
    | none =>
      right
      have hbatch : ∀ e ∈ ((w1.committed.outbox.filter
            (fun r => r.processedAt.isNone && !env.lockedElsewhere w1.step r.id)).take
              limit.toNat).map
            (fun r => ({ ID := r.id, EventType := r.eventType, Payload := r.payload } : Event)),
          ∃ row ∈ w1.committed.outbox, row.id = e.ID ∧ row.processedAt = none := by
        intro e he
        simp only [List.mem_map] at he
        obtain ⟨row, hrow, rfl⟩ := he
        have hrow' := List.mem_of_mem_take hrow
        simp only [List.mem_filter, Bool.and_eq_true, Option.isNone_iff_eq_none] at hrow'
        exact ⟨row, hrow'.1, rfl, hrow'.2.1⟩
      have hget : (NewProcessor env).repo.GetUnprocessed ⟨some h⟩ limit w1 =
          (w1.log (.GetUnprocessed (.tx h) limit
              (((w1.committed.outbox.filter
                (fun r => r.processedAt.isNone && !env.lockedElsewhere w1.step r.id)).take
                  limit.toNat).map
                (fun r => ({ ID := r.id, EventType := r.eventType, Payload := r.payload } : Event)))
              none),
            ((((w1.committed.outbox.filter
                (fun r => r.processedAt.isNone && !env.lockedElsewhere w1.step r.id)).take
                  limit.toNat).map
                (fun r => ({ ID := r.id, EventType := r.eventType, Payload := r.payload } : Event))),
              none)) := by
        simp [NewProcessor, NewOutboxCommandsRepo, outboxCommandsRepo.GetUnprocessed,
          outboxCommandsRepo.db, driverFault, hs, hsc, hpend, World.view, applyAll]
      generalize ((w1.committed.outbox.filter
            (fun r => r.processedAt.isNone && !env.lockedElsewhere w1.step r.id)).take
              limit.toNat).map
            (fun r => ({ ID := r.id, EventType := r.eventType, Payload := r.payload } : Event))
          = batch at hbatch hget
      have hw2 : (w1.log (.GetUnprocessed (.tx h) limit batch none)).openTx = some (h, []) := by
        simp [World.log, hw]
      obtain ⟨calls, marks, hworld, hmarks, hshape⟩ := processEvents_shape env h batch _ _ hw2
      refine ⟨batch, calls, marks, _, hbatch, ?_, hmarks, hshape⟩
      rw [outboxProcessor.processTx]
      simp only [hget]
      rw [Prod.ext_iff]
      refine ⟨?_, rfl⟩
      simp only [hworld]
      simp [World.log]

/-- What `BeginTx` does after `fn` returned an error: one rollback, the error returned. -/
theorem beginTx_of_error (env : Env) (ctx : Context) (fn : TxFunc) (w w2 : World) (e : GoError)
    (hb : env.beginErr w.step = none)
    (hfn : fn ⟨some ⟨w.step⟩⟩
        { w with openTx := some (⟨w.step⟩, []), trace := w.trace ++ [.Begin none] }
        = (w2, .returned (some e))) :
    ∃ rb, transactionSupplier.BeginTx env ctx fn w =
      ((w2.discard ⟨w.step⟩).log (.Rollback rb), .returned (some (afterRollback rb e))) := by
  cases hr : env.rollbackErr w2.step with
  | some r => exact ⟨some r, by simp only [transactionSupplier.BeginTx, hb, hfn, hr, afterRollback]⟩
  | none => exact ⟨none, by simp only [transactionSupplier.BeginTx, hb, hfn, hr, afterRollback]⟩

/-- What `BeginTx` does after `fn` returned nil: one commit, its result returned. -/
theorem beginTx_of_nil (env : Env) (ctx : Context) (fn : TxFunc) (w w2 : World)
    (hb : env.beginErr w.step = none)
    (hfn : fn ⟨some ⟨w.step⟩⟩
        { w with openTx := some (⟨w.step⟩, []), trace := w.trace ++ [.Begin none] }
        = (w2, .returned none)) :
    ∃ c w3, transactionSupplier.BeginTx env ctx fn w = (w3, .returned c) ∧
      w3.trace = w2.trace ++ [.Commit c] ∧ w3.userID = w2.userID ∧
      (c = none → ∃ ps, w2.pendingOf ⟨w.step⟩ = some ps ∧ w3.committed = applyAll ps w2.committed) ∧
      (c ≠ none → w3.committed = w2.committed) := by
  cases hc : env.commitErr w2.step with
  | some err =>
    refine ⟨some err, (w2.discard ⟨w.step⟩).log (.Commit (some err)), ?_, ?_, ?_, by simp, ?_⟩
    · simp only [transactionSupplier.BeginTx, hb, hfn, hc]
    · simp only [World.log, World.discard]; cases w2.pendingOf ⟨w.step⟩ <;> rfl
    · simp only [World.log, World.discard]; cases w2.pendingOf ⟨w.step⟩ <;> rfl
    · intro _; simp only [World.log, World.discard]; cases w2.pendingOf ⟨w.step⟩ <;> rfl
  | none =>
    cases hp : w2.pendingOf ⟨w.step⟩ with
    | none =>
      refine ⟨some (.foreign "tx is closed"), w2.log (.Commit (some (.foreign "tx is closed"))),
        ?_, rfl, rfl, by simp, fun _ => rfl⟩
      simp only [transactionSupplier.BeginTx, hb, hfn, hc, hp]
    | some ps =>
      refine ⟨none, ⟨applyAll ps w2.committed, none, w2.trace ++ [.Commit none], w2.userID⟩,
        ?_, rfl, rfl, fun _ => ⟨ps, rfl, rfl⟩, by simp⟩
      simp only [transactionSupplier.BeginTx, hb, hfn, hc, hp]

/-- On the PostgreSQL supplier `ProcessOnce` is `BeginTx` on its closure. -/
theorem processOnce_eq_beginTx (env : Env) (ctx : Context) (limit : Int) (w : World) :
    (NewProcessor env).ProcessOnce ctx limit w =
      transactionSupplier.BeginTx env ctx ((NewProcessor env).processTx limit) w := by
  simp only [outboxProcessor.ProcessOnce, NewProcessor, NewTransactionSupplier]
  split <;> simp_all

/-- Every run of `ProcessOnce`: the begin fails; or the claim fails and the transaction is
rolled back; or a batch is claimed, the loop runs, and the transaction is rolled back (loop
error) or committed (no loop error). -/
theorem processOnce_shape (env : Env) (ctx : Context) (limit : Int) (w : World) :
    (∃ e, ((NewProcessor env).ProcessOnce ctx limit w).1.trace = w.trace ++ [.Begin (some e)] ∧
        ((NewProcessor env).ProcessOnce ctx limit w).2 = .returned (some e) ∧
        ((NewProcessor env).ProcessOnce ctx limit w).1.committed = w.committed) ∨
    (∃ g rb, ((NewProcessor env).ProcessOnce ctx limit w).1.trace =
          w.trace ++ [.Begin none, .GetUnprocessed (.tx ⟨w.step⟩) limit [] (some g), .Rollback rb] ∧
        ((NewProcessor env).ProcessOnce ctx limit w).2 =
          .returned (some (afterRollback rb (.wrapf "failed to get events" g))) ∧
        ((NewProcessor env).ProcessOnce ctx limit w).1.committed = w.committed) ∨
    (∃ batch calls marks res,
      (∀ e ∈ batch, ∃ row ∈ w.committed.outbox, row.id = e.ID ∧ row.processedAt = none) ∧
      (∀ s ∈ marks, ∃ e u t, s = Stmt.markProcessed u t ∧ Call.Publish e none ∈ calls ∧
          env.uuidIn e.ID.String = some u) ∧
      LoopShape (.tx ⟨w.step⟩) batch calls res ∧
      ((∃ err rb, res = some err ∧
          ((NewProcessor env).ProcessOnce ctx limit w).1.trace =
            w.trace ++ .Begin none :: .GetUnprocessed (.tx ⟨w.step⟩) limit batch none ::
              (calls ++ [.Rollback rb]) ∧
          ((NewProcessor env).ProcessOnce ctx limit w).2 =
            .returned (some (afterRollback rb err)) ∧
          ((NewProcessor env).ProcessOnce ctx limit w).1.committed = w.committed) ∨
       (res = none ∧ ∃ c,
          ((NewProcessor env).ProcessOnce ctx limit w).1.trace =
            w.trace ++ .Begin none :: .GetUnprocessed (.tx ⟨w.step⟩) limit batch none ::
              (calls ++ [.Commit c]) ∧
          ((NewProcessor env).ProcessOnce ctx limit w).2 = .returned c ∧
          (c = none →
            ((NewProcessor env).ProcessOnce ctx limit w).1.committed = applyAll marks w.committed) ∧
          (c ≠ none → ((NewProcessor env).ProcessOnce ctx limit w).1.committed = w.committed)))) := by
  cases hb : env.beginErr w.step with
  | some e =>
    left
    refine ⟨e, ?_⟩
    simp [outboxProcessor.ProcessOnce, NewProcessor, NewTransactionSupplier,
      transactionSupplier.BeginTx, hb, World.log]
  | none =>
    right
    have hw1 : ({ w with openTx := some (⟨w.step⟩, []), trace := w.trace ++ [.Begin none] }
        : World).openTx = some (⟨w.step⟩, []) := rfl
    rw [processOnce_eq_beginTx]
    rcases processTx_shape env limit ⟨w.step⟩ _ hw1 with
      ⟨g, hg⟩ | ⟨batch, calls, marks, res, hbatch, hr, hmarks, hshape⟩
    · left
      obtain ⟨rb, hrun⟩ := beginTx_of_error env ctx _ w _ _ hb hg
      refine ⟨g, rb, ?_⟩
      rw [hrun]
      simp [World.log, World.discard, World.pendingOf]
    · right
      refine ⟨batch, calls, marks, res, hbatch, hmarks, hshape, ?_⟩
      cases res with
      | some err =>
        left
        obtain ⟨rb, hrun⟩ := beginTx_of_error env ctx _ w _ _ hb hr
        refine ⟨err, rb, rfl, ?_⟩
        rw [hrun]
        simp [World.log, World.discard, World.pendingOf]
      | none =>
        right
        obtain ⟨c, w3, hrun, ht, _, hcn, hcs⟩ := beginTx_of_nil env ctx _ w _ hb hr
        refine ⟨rfl, c, ?_⟩
        rw [hrun]
        refine ⟨by simp [ht], rfl, ?_, ?_⟩
        · intro hc
          obtain ⟨ps, hps, hcm⟩ := hcn hc
          simp [World.pendingOf] at hps
          simp [hcm, hps]
        · intro hc
          simpa using hcs hc

/-- No call of the all-successful sequence is a failed delivery. -/
theorem expectedCalls_not_failed (p : DBProvider) (es : List Event) :
    ∀ c ∈ expectedCalls p es, c.isFailedDelivery = false := by
  induction es with
  | nil => intro c hc; simp [expectedCalls] at hc
  | cons e es ih =>
    intro c hc
    simp only [expectedCalls, List.mem_cons] at hc
    rcases hc with rfl | rfl | hc
    · rfl
    · rfl
    · exact ih c hc

/-- The all-successful sequence contains no `GetUnprocessed` call. -/
theorem expectedCalls_no_query (p : DBProvider) (es : List Event) (q : DBProvider) (limit : Int)
    (batch : List Event) (res : Option GoError) :
    Call.GetUnprocessed q limit batch res ∉ expectedCalls p es := by
  induction es with
  | nil => simp [expectedCalls]
  | cons e es ih => simp [expectedCalls, ih]

/-- The property that every mark follows a successful publish of that id is kept by
concatenation. -/
theorem marks_guarded_append (l1 l2 : List Call)
    (h1 : ∀ pre p id res post, l1 = pre ++ Call.MarkAsProcessed p id res :: post →
      ∃ e, Call.Publish e none ∈ pre ∧ e.ID.String = id)
    (h2 : ∀ pre p id res post, l2 = pre ++ Call.MarkAsProcessed p id res :: post →
      ∃ e, Call.Publish e none ∈ pre ∧ e.ID.String = id) :
    ∀ pre p id res post, l1 ++ l2 = pre ++ Call.MarkAsProcessed p id res :: post →
      ∃ e, Call.Publish e none ∈ pre ∧ e.ID.String = id := by
  intro pre p id res post h
  rcases List.append_eq_append_iff.1 h with ⟨a, hpre, hl2⟩ | ⟨c, hl1, hc⟩
  · obtain ⟨e, he, hid⟩ := h2 a p id res post hl2
    exact ⟨e, by simp [hpre, he], hid⟩
  · cases c with
    | nil =>
      obtain ⟨e, he, _⟩ := h2 [] p id res post (by simpa using hc.symm)
      simp at he
    | cons m c =>
      simp only [List.cons_append, List.cons.injEq] at hc
      obtain ⟨rfl, _⟩ := hc
      exact h1 pre p id res c hl1

/-- A single call that is no mark has the property trivially. -/
theorem marks_guarded_single (c : Call) (hc : c.isMark = false) :
    ∀ pre p id res post, [c] = pre ++ Call.MarkAsProcessed p id res :: post →
      ∃ e, Call.Publish e none ∈ pre ∧ e.ID.String = id := by
  intro pre p id res post h
  cases pre with
  | nil =>
    simp only [List.nil_append, List.cons.injEq] at h
    rw [h.1] at hc
    simp [Call.isMark] at hc
  | cons a pre =>
    simp at h

/-- A publish that returned nil followed by the mark of the same event has the property. -/
theorem marks_guarded_pair (q : DBProvider) (e : Event) (r : Option GoError) :
    ∀ pre p id res post,
      [Call.Publish e none, Call.MarkAsProcessed q e.ID.String r]
        = pre ++ Call.MarkAsProcessed p id res :: post →
      ∃ e, Call.Publish e none ∈ pre ∧ e.ID.String = id := by
  intro pre p id res post h
  cases pre with
  | nil => simp at h
  | cons a pre =>
    cases pre with
    | nil =>
      simp only [List.cons_append, List.nil_append, List.cons.injEq] at h
      obtain ⟨rfl, ⟨_, rfl, _⟩, _⟩ := h
      exact ⟨e, by simp, rfl⟩
    | cons b pre => simp at h

/-- The all-successful sequence has the property. -/
theorem marks_guarded_expected (q : DBProvider) (es : List Event) :
    ∀ pre p id res post, expectedCalls q es = pre ++ Call.MarkAsProcessed p id res :: post →
      ∃ e, Call.Publish e none ∈ pre ∧ e.ID.String = id := by
  induction es with
  | nil => intro pre p id res post h; simp [expectedCalls] at h
  | cons e es ih =>
    have := marks_guarded_append [Call.Publish e none, Call.MarkAsProcessed q e.ID.String none]
      (expectedCalls q es) (marks_guarded_pair q e none) ih
    simpa [expectedCalls] using this

/-- The calls of the loop have the property, whatever its shape. -/
theorem marks_guarded_loop (q : DBProvider) (es : List Event) (calls : List Call)
    (res : Option GoError) (h : LoopShape q es calls res) :
    ∀ pre p id r post, calls = pre ++ Call.MarkAsProcessed p id r :: post →
      ∃ e, Call.Publish e none ∈ pre ∧ e.ID.String = id := by
  rcases h with ⟨_, rfl⟩ | ⟨pre, e, post, x, _, rfl, _⟩ | ⟨pre, e, post, x, _, rfl, _⟩
  · exact marks_guarded_expected q es
  · exact marks_guarded_append _ _ (marks_guarded_expected q pre) (marks_guarded_single _ rfl)
  · exact marks_guarded_append _ _ (marks_guarded_expected q pre) (marks_guarded_pair q e (some x))

/-- A row of the outbox after a list of marks is a row from before, or carries a marked id. -/
theorem applyAll_marks_outbox (marks : List Stmt) :
    ∀ (d : Database) (row : OutboxRow),
      (∀ s ∈ marks, ∃ u t, s = Stmt.markProcessed u t) →
      row ∈ (applyAll marks d).outbox →
      row ∈ d.outbox ∨ ∃ u t, Stmt.markProcessed u t ∈ marks ∧ row.id = u := by
  induction marks with
  | nil => intro d row _ h; exact Or.inl h
  | cons s ms ih =>
    intro d row hall hrow
    have hrow' : row ∈ (applyAll ms (s.apply d)).outbox := hrow
    rcases ih (s.apply d) row (fun s' hs' => hall s' (List.mem_cons_of_mem _ hs')) hrow' with
      h | ⟨u, t, hm, hid⟩
    · obtain ⟨u, t, rfl⟩ := hall s (List.mem_cons_self _ _)
      simp only [Stmt.apply, List.mem_map] at h
      obtain ⟨r, hr, hrr⟩ := h
      by_cases hid : r.id = u
      · right
        refine ⟨u, t, List.mem_cons_self _ _, ?_⟩
        rw [if_pos hid] at hrr
        rw [← hrr]
        exact hid
      · left
        rw [if_neg hid] at hrr
        rw [← hrr]
        exact hr
    · exact Or.inr ⟨u, t, List.mem_cons_of_mem _ hm, hid⟩

/-- C1.  In every run of `ProcessOnce` (any outside world, any starting
state): each `MarkAsProcessed` call is preceded, in the same run, by a
`Publish` call that returned nil for an event with that id; and every outbox
row of the committed tables after the run whose `processed_at` is set either
was there unchanged before the run, or is the row denoted by the id of an
event whose `Publish` returned nil in this run. -/
theorem processOnce_marks_only_published (env : Env) (ctx : Context) (limit : Int) (w : World)
    (calls : List Call)
    (ht : ((NewProcessor env).ProcessOnce ctx limit w).1.trace = w.trace ++ calls) :
    (∀ pre p id res post, calls = pre ++ Call.MarkAsProcessed p id res :: post →
      ∃ e, Call.Publish e none ∈ pre ∧ e.ID.String = id) ∧
    (∀ row ∈ ((NewProcessor env).ProcessOnce ctx limit w).1.committed.outbox,
      row.processedAt ≠ none →
      row ∈ w.committed.outbox ∨
        ∃ e, Call.Publish e none ∈ calls ∧ env.uuidIn e.ID.String = some row.id) := by
  rcases processOnce_shape env ctx limit w with
    ⟨e, h1, _, h3⟩ | ⟨g, rb, h1, _, h3⟩ | ⟨batch, lc, marks, res, _, hmarks, hshape, hend⟩
  · have hcalls : calls = [.Begin (some e)] := (List.append_cancel_left (ht.symm.trans h1))
    subst hcalls
    refine ⟨marks_guarded_single _ rfl, ?_⟩
    intro row hrow _
    rw [h3] at hrow
    exact Or.inl hrow
  · have hcalls : calls = [.Begin none, .GetUnprocessed (.tx ⟨w.step⟩) limit [] (some g),
        .Rollback rb] := List.append_cancel_left (ht.symm.trans h1)
    subst hcalls
    refine ⟨?_, ?_⟩
    · exact marks_guarded_append [_] [_, _] (marks_guarded_single _ rfl)
        (marks_guarded_append [_] [_] (marks_guarded_single _ rfl) (marks_guarded_single _ rfl))
    · intro row hrow _
      rw [h3] at hrow
      exact Or.inl hrow
  · have hguard : ∀ (last : Call), last.isMark = false →
        ∀ pre p id r post,
          Call.Begin none :: Call.GetUnprocessed (.tx ⟨w.step⟩) limit batch none :: (lc ++ [last])
            = pre ++ Call.MarkAsProcessed p id r :: post →
          ∃ e, Call.Publish e none ∈ pre ∧ e.ID.String = id := by
      intro last hlast
      exact marks_guarded_append [_] (_ :: (lc ++ [last])) (marks_guarded_single _ rfl)
        (marks_guarded_append [_] (lc ++ [last]) (marks_guarded_single _ rfl)
          (marks_guarded_append lc [last] (marks_guarded_loop _ _ _ _ hshape)
            (marks_guarded_single _ hlast)))
    rcases hend with ⟨err, rb, _, h1, _, h3⟩ | ⟨_, c, h1, _, hc1, hc2⟩
    · have hcalls := List.append_cancel_left (ht.symm.trans h1)
      subst hcalls
      refine ⟨hguard _ rfl, ?_⟩
      intro row hrow _
      rw [h3] at hrow
      exact Or.inl hrow
    · have hcalls := List.append_cancel_left (ht.symm.trans h1)
      subst hcalls
      refine ⟨hguard _ rfl, ?_⟩
      intro row hrow _
      cases c with
      | some ce =>
        rw [hc2 (by simp)] at hrow
        exact Or.inl hrow
      | none =>
        rw [hc1 rfl] at hrow
        rcases applyAll_marks_outbox marks w.committed row
            (fun s hs => by
              obtain ⟨e, u, t, hs', _, _⟩ := hmarks s hs
              exact ⟨u, t, hs'⟩) hrow with h | ⟨u, t, hm, hid⟩
        · exact Or.inl h
        · right
          obtain ⟨e, u', t', hs', hpub, hu⟩ := hmarks _ hm
          simp only [Stmt.markProcessed.injEq] at hs'
          refine ⟨e, by simp [hpub], ?_⟩
          rw [hu, hid, hs'.1]

/-- C2.  In every run of `ProcessOnce`, when a `Publish` or a
`MarkAsProcessed` call `c` returns an error `x`: the batch claimed by
`GetUnprocessed` splits as `done ++ ek :: rest` with `c` the call for `ek`;
the calls of the run are exactly begin, claim, the publish/mark pairs of
`done`, the call(s) for `ek` ending in `c`, and one rollback, so nothing is
published or marked after `c`; the result is a non-nil error for which
`errors.Is` holds against `x`; the committed tables are what they were, and
every claimed event still has its row with `processed_at` unset. -/
theorem processOnce_aborts_on_failure (env : Env) (ctx : Context) (limit : Int) (w : World)
    (calls : List Call) (c : Call)
    (ht : ((NewProcessor env).ProcessOnce ctx limit w).1.trace = w.trace ++ calls)
    (hc : c ∈ calls) (hf : c.isFailedDelivery = true) :
    ∃ x batch done ek rest rb r,
      c.res = some x ∧ batch = done ++ ek :: rest ∧
      ((c = .Publish ek (some x) ∧
          calls = .Begin none :: .GetUnprocessed (.tx ⟨w.step⟩) limit batch none ::
            (expectedCalls (.tx ⟨w.step⟩) done ++ [c, .Rollback rb])) ∨
       (c = .MarkAsProcessed (.tx ⟨w.step⟩) ek.ID.String (some x) ∧
          calls = .Begin none :: .GetUnprocessed (.tx ⟨w.step⟩) limit batch none ::
            (expectedCalls (.tx ⟨w.step⟩) done ++ [.Publish ek none, c, .Rollback rb]))) ∧
      ((NewProcessor env).ProcessOnce ctx limit w).2 = .returned (some r) ∧
      errorsIs r x = true ∧
      ((NewProcessor env).ProcessOnce ctx limit w).1.committed = w.committed ∧
      (∀ e ∈ batch, ∃ row ∈ ((NewProcessor env).ProcessOnce ctx limit w).1.committed.outbox,
        row.id = e.ID ∧ row.processedAt = none) := by
  rcases processOnce_shape env ctx limit w with
    ⟨e, h1, _, _⟩ | ⟨g, rb, h1, _, _⟩ | ⟨batch, lc, marks, res, hbatch, _, hshape, hend⟩
  · have hcalls : calls = [.Begin (some e)] := (List.append_cancel_left (ht.symm.trans h1))
    subst hcalls
    simp only [List.mem_singleton] at hc
    subst hc
    simp [Call.isFailedDelivery] at hf
  · have hcalls : calls = [.Begin none, .GetUnprocessed (.tx ⟨w.step⟩) limit [] (some g),
        .Rollback rb] := List.append_cancel_left (ht.symm.trans h1)
    subst hcalls
    simp only [List.mem_cons, List.mem_singleton, List.not_mem_nil, or_false] at hc
    rcases hc with rfl | rfl | rfl <;> simp [Call.isFailedDelivery] at hf
  · rcases hend with ⟨err, rb, hres, h1, h2, h3⟩ | ⟨hres, cm, h1, _, _, _⟩
    · have hcalls := List.append_cancel_left (ht.symm.trans h1)
      subst hcalls
      subst hres
      rcases hshape with ⟨hn, _⟩ | ⟨pre, ek, post, x, hb, hlc, herr⟩ | ⟨pre, ek, post, x, hb, hlc, herr⟩
      · cases hn
      · subst hlc
        simp only [Option.some.injEq] at herr
        subst herr
        have hceq : c = .Publish ek (some x) := by
          simp only [List.mem_cons, List.mem_append, List.mem_singleton, List.not_mem_nil,
            or_false] at hc
          rcases hc with rfl | rfl | (hc | rfl) | rfl
          · simp [Call.isFailedDelivery] at hf
          · simp [Call.isFailedDelivery] at hf
          · rw [expectedCalls_not_failed _ _ c hc] at hf; cases hf
          · rfl
          · simp [Call.isFailedDelivery] at hf
        subst hceq
        refine ⟨x, batch, pre, ek, post, rb, _, rfl, hb, Or.inl ⟨rfl, by simp⟩, h2,
          errorsIs_afterRollback _ _ _ (errorsIs_wrapf _ _ _ (errorsIs_self x)), h3, ?_⟩
        rw [h3]
        exact hbatch
      · subst hlc
        simp only [Option.some.injEq] at herr
        subst herr
        have hceq : c = .MarkAsProcessed (.tx ⟨w.step⟩) ek.ID.String (some x) := by
          simp only [List.mem_cons, List.mem_append, List.mem_singleton, List.not_mem_nil,
            or_false] at hc
          rcases hc with rfl | rfl | (hc | rfl | rfl) | rfl
          · simp [Call.isFailedDelivery] at hf
          · simp [Call.isFailedDelivery] at hf
          · rw [expectedCalls_not_failed _ _ c hc] at hf; cases hf
          · simp [Call.isFailedDelivery] at hf
          · rfl
          · simp [Call.isFailedDelivery] at hf
        subst hceq
        refine ⟨x, batch, pre, ek, post, rb, _, rfl, hb, Or.inr ⟨rfl, by simp⟩, h2,
          errorsIs_afterRollback _ _ _ (errorsIs_wrapf _ _ _ (errorsIs_self x)), h3, ?_⟩
        rw [h3]
        exact hbatch
    · have hcalls := List.append_cancel_left (ht.symm.trans h1)
      subst hcalls
      subst hres
      rcases hshape with ⟨_, hlc⟩ | ⟨_, _, _, _, _, _, herr⟩ | ⟨_, _, _, _, _, _, herr⟩
      · subst hlc
        simp only [List.mem_cons, List.mem_append, List.mem_singleton, List.not_mem_nil,
          or_false] at hc
        rcases hc with rfl | rfl | hc | rfl
        · simp [Call.isFailedDelivery] at hf
        · simp [Call.isFailedDelivery] at hf
        · rw [expectedCalls_not_failed _ _ c hc] at hf; cases hf
        · simp [Call.isFailedDelivery] at hf
      · cases herr
      · cases herr

/-- C3 (amended).  In every run of `ProcessOnce` in which `GetUnprocessed`
returned the batch `batch` and no `Publish` or `MarkAsProcessed` call
returned an error: the calls of the run are exactly begin, claim,
`Publish(e1), MarkAsProcessed(e1.ID), ..., Publish(en), MarkAsProcessed(en.ID)`
in claim order, and one commit; the result is what `Commit` returned (nil
when the commit succeeds).  For the empty batch the pairs are none. -/
theorem processOnce_delivers_in_claim_order (env : Env) (ctx : Context) (limit : Int)
    (w : World) (calls : List Call) (p : DBProvider) (batch : List Event)
    (ht : ((NewProcessor env).ProcessOnce ctx limit w).1.trace = w.trace ++ calls)
    (hget : Call.GetUnprocessed p limit batch none ∈ calls)
    (hok : ∀ c ∈ calls, c.isFailedDelivery = false) :
    ∃ c, calls = .Begin none :: .GetUnprocessed (.tx ⟨w.step⟩) limit batch none ::
          (expectedCalls (.tx ⟨w.step⟩) batch ++ [.Commit c]) ∧
      ((NewProcessor env).ProcessOnce ctx limit w).2 = .returned c := by
  rcases processOnce_shape env ctx limit w with
    ⟨e, h1, _, _⟩ | ⟨g, rb, h1, _, _⟩ | ⟨batch', lc, marks, res, _, _, hshape, hend⟩
  · have hcalls : calls = [.Begin (some e)] := (List.append_cancel_left (ht.symm.trans h1))
    subst hcalls
    simp at hget
  · have hcalls : calls = [.Begin none, .GetUnprocessed (.tx ⟨w.step⟩) limit [] (some g),
        .Rollback rb] := List.append_cancel_left (ht.symm.trans h1)
    subst hcalls
    simp at hget
  · rcases hend with ⟨err, rb, hres, h1, _, _⟩ | ⟨hres, cm, h1, h2, _, _⟩
    · have hcalls := List.append_cancel_left (ht.symm.trans h1)
      subst hcalls
      subst hres
      exfalso
      rcases hshape with ⟨hn, _⟩ | ⟨pre, ek, post, x, _, hlc, _⟩ | ⟨pre, ek, post, x, _, hlc, _⟩
      · cases hn
      · have := hok (.Publish ek (some x)) (by simp [hlc])
        simp [Call.isFailedDelivery] at this
      · have := hok (.MarkAsProcessed (.tx ⟨w.step⟩) ek.ID.String (some x)) (by simp [hlc])
        simp [Call.isFailedDelivery] at this
    · have hcalls := List.append_cancel_left (ht.symm.trans h1)
      subst hcalls
      subst hres
      rcases hshape with ⟨_, hlc⟩ | ⟨_, _, _, _, _, _, herr⟩ | ⟨_, _, _, _, _, _, herr⟩
      · subst hlc
        have hb : batch = batch' := by
          simp only [List.mem_cons, List.mem_append, List.mem_singleton, List.not_mem_nil,
            or_false] at hget
          rcases hget with h | h | h | h
          · cases h
          · simp only [Call.GetUnprocessed.injEq] at h
            exact h.2.2.1
          · exact absurd h (expectedCalls_no_query _ _ _ _ _ _)
          · cases h
        subst hb
        exact ⟨cm, rfl, h2⟩
      · cases herr
      · cases herr

/-- Witness for C1: a drain of two rows in which nothing fails; the second
mark is preceded by the successful publish of the second event. -/
theorem processOnce_marks_only_published_witness :
    ((NewProcessor quietEnv).ProcessOnce Context.Background 10 outboxWorld).1.trace
        = outboxWorld.trace ++ quietDrainCalls ∧
    ∃ e, Call.Publish e none ∈
          [Call.Begin none, .GetUnprocessed (.tx ⟨0⟩) 10 [firstEvent, secondEvent] none,
           .Publish firstEvent none, .MarkAsProcessed (.tx ⟨0⟩) firstEvent.ID.String none,
           .Publish secondEvent none] ∧
        e.ID.String = secondEvent.ID.String :=
  ⟨rfl, (processOnce_marks_only_published quietEnv Context.Background 10 outboxWorld
      quietDrainCalls rfl).1 _ (.tx ⟨0⟩) secondEvent.ID.String none [.Commit none] rfl⟩

/-- Witness for C2: the publish of the second of two events fails; the
result wraps the failure and the committed tables are untouched. -/
theorem processOnce_aborts_on_failure_witness :
    ((NewProcessor brokerDownEnv).ProcessOnce Context.Background 10 outboxWorld).1.trace
        = outboxWorld.trace ++ brokerDownCalls ∧
    Call.Publish secondEvent (some (.foreign "broker down")) ∈ brokerDownCalls ∧
    (Call.Publish secondEvent (some (.foreign "broker down"))).isFailedDelivery = true ∧
    ∃ r, ((NewProcessor brokerDownEnv).ProcessOnce Context.Background 10 outboxWorld).2
          = .returned (some r) ∧
      errorsIs r (.foreign "broker down") = true ∧
      ((NewProcessor brokerDownEnv).ProcessOnce Context.Background 10 outboxWorld).1.committed
          = outboxWorld.committed := by
  refine ⟨rfl, by decide, rfl, ?_⟩
  obtain ⟨x, _, _, _, _, _, r, hx, _, _, hr, his, hcm, _⟩ :=
    processOnce_aborts_on_failure brokerDownEnv Context.Background 10 outboxWorld
      brokerDownCalls (.Publish secondEvent (some (.foreign "broker down"))) rfl (by decide) rfl
  cases hx
  exact ⟨r, hr, his, hcm⟩

/-- Witness for C3 (amended): a drain of two rows in which nothing fails
makes the two publish/mark pairs in claim order, commits, and returns nil. -/
theorem processOnce_delivers_in_claim_order_witness :
    ((NewProcessor quietEnv).ProcessOnce Context.Background 10 outboxWorld).1.trace
        = outboxWorld.trace ++ quietDrainCalls ∧
    Call.GetUnprocessed (.tx ⟨0⟩) 10 [firstEvent, secondEvent] none ∈ quietDrainCalls ∧
    (∀ c ∈ quietDrainCalls, c.isFailedDelivery = false) ∧
    ∃ c, quietDrainCalls = .Begin none ::
          .GetUnprocessed (.tx ⟨outboxWorld.step⟩) 10 [firstEvent, secondEvent] none ::
          (expectedCalls (.tx ⟨outboxWorld.step⟩) [firstEvent, secondEvent] ++ [.Commit c]) ∧
      ((NewProcessor quietEnv).ProcessOnce Context.Background 10 outboxWorld).2 = .returned c :=
  ⟨rfl, by decide, by decide,
    processOnce_delivers_in_claim_order quietEnv Context.Background 10 outboxWorld
      quietDrainCalls (.tx ⟨0⟩) [firstEvent, secondEvent] rfl (by decide) (by decide)⟩

/-- C3 (as stated) fails when the commit fails: every `Publish` and
`MarkAsProcessed` call of the run succeeds, the run ends with the `Commit`
call, and `ProcessOnce` returns the commit error, not nil; nothing is
marked. -/
theorem processOnce_commit_failure_is_returned :
    (∀ c ∈ ((NewProcessor brokenCommitEnv).ProcessOnce Context.Background 10 outboxWorld).1.trace,
      c.isFailedDelivery = false) ∧
    ((NewProcessor brokenCommitEnv).ProcessOnce Context.Background 10 outboxWorld).1.trace
      = [.Begin none, .GetUnprocessed (.tx ⟨0⟩) 10 [firstEvent, secondEvent] none,
         .Publish firstEvent none, .MarkAsProcessed (.tx ⟨0⟩) firstEvent.ID.String none,
         .Publish secondEvent none, .MarkAsProcessed (.tx ⟨0⟩) secondEvent.ID.String none,
         .Commit (some (.foreign "conn closed"))] ∧
    ((NewProcessor brokenCommitEnv).ProcessOnce Context.Background 10 outboxWorld).2
      = .returned (some (.foreign "conn closed")) ∧
    ((NewProcessor brokenCommitEnv).ProcessOnce Context.Background 10 outboxWorld).2
      ≠ .returned none ∧
    ((NewProcessor brokenCommitEnv).ProcessOnce Context.Background 10 outboxWorld).1.committed
      = outboxWorld.committed := by
  decide

/-! ## Command service -/

theorem validatePassword_error (lib : Lib) (password : String) (err : GoError)
    (h : validatePassword lib password = some err) : err = .ErrInvalidPW := by
  unfold validatePassword at h
  simp only at h
  split at h
  · simpa using h.symm
  · cases h

/-- C7 (amended).  For any transaction, stores and starting state, once the
input checks have passed: when the transaction returns an error `err`,
`CreateUser` returns `err` itself if `errors.Is(err, ErrUserAlreadyExists)`
and `ErrInternal` otherwise; `DeleteUser` and `UpdateUser` return `err`
itself if `errors.Is(err, ErrUserNotFound)` and `ErrInternal` otherwise. -/
theorem commands_error_policy (uc : userUseCaseCommands) (lib : Lib) (ctx : Context)
    (w w1 : World) (err : GoError) :
    (∀ req hashed, validatePassword lib req.Password = none →
      hashPassword lib req.Password = .ok hashed →
      uc.transaction.BeginTx ctx (uc.createTx lib req (req.toUser hashed)) { w with userID := "" }
        = (w1, .returned (some err)) →
      uc.CreateUser lib ctx req w =
        (w1, .returned ("", some (if errorsIs err .ErrUserAlreadyExists then err
          else .ErrInternal)))) ∧
    (∀ userID id, lib.uuidParse userID = some id →
      uc.transaction.BeginTx ctx (uc.deleteTx lib ctx userID) w = (w1, .returned (some err)) →
      uc.DeleteUser lib ctx userID w =
        (w1, .returned (some (if errorsIs err .ErrUserNotFound then err else .ErrInternal)))) ∧
    (∀ req id, lib.uuidParse req.ID = some id →
      uc.transaction.BeginTx ctx (uc.updateTx lib ctx req (req.toUser id)) w
        = (w1, .returned (some err)) →
      uc.UpdateUser lib ctx req w =
        (w1, .returned (some (if errorsIs err .ErrUserNotFound then err else .ErrInternal)))) := by
  refine ⟨?_, ?_, ?_⟩
  · intro req hashed hv hh htx
    simp only [userUseCaseCommands.CreateUser, hv, hh, htx]
    cases errorsIs err .ErrUserAlreadyExists <;> simp
  · intro userID id hp htx
    simp only [userUseCaseCommands.DeleteUser, hp, htx]
    cases errorsIs err .ErrUserNotFound <;> simp
  · intro req id hp htx
    simp only [userUseCaseCommands.UpdateUser, hp, htx]
    cases errorsIs err .ErrUserNotFound <;> simp

/-- Witness for C7 (amended): a transaction that returns `ErrUserNotFound`
makes `DeleteUser` return `ErrUserNotFound`. -/
theorem commands_error_policy_witness :
    plainLib.uuidParse expectedUserID = some ⟨expectedUserID⟩ ∧
    (stubbedCommands (some .ErrUserNotFound)).transaction.BeginTx Context.Background
        ((stubbedCommands (some .ErrUserNotFound)).deleteTx plainLib Context.Background
          expectedUserID) userWorld = (userWorld, .returned (some .ErrUserNotFound)) ∧
    (stubbedCommands (some .ErrUserNotFound)).DeleteUser plainLib Context.Background
        expectedUserID userWorld = (userWorld, .returned (some .ErrUserNotFound)) :=
  ⟨by decide, rfl,
    (commands_error_policy (stubbedCommands (some .ErrUserNotFound)) plainLib Context.Background
      userWorld userWorld .ErrUserNotFound).2.1 expectedUserID ⟨expectedUserID⟩ (by decide) rfl⟩

/-- C7 (as stated) fails: when the transaction returns `ErrUserNotFound`,
`CreateUser` returns `ErrInternal`; when it returns `ErrUserAlreadyExists`,
`UpdateUser` and `DeleteUser` return `ErrInternal`. -/
theorem commands_error_policy_is_per_command :
    (stubbedCommands (some .ErrUserNotFound)).CreateUser plainLib Context.Background
        exampleAddUserReq emptyWorld = (emptyWorld, .returned ("", some .ErrInternal)) ∧
    (stubbedCommands (some .ErrUserAlreadyExists)).UpdateUser plainLib Context.Background
        exampleUpdateUserReq userWorld = (userWorld, .returned (some .ErrInternal)) ∧
    (stubbedCommands (some .ErrUserAlreadyExists)).DeleteUser plainLib Context.Background
        expectedUserID userWorld = (userWorld, .returned (some .ErrInternal)) := by
  decide

/-- C10.  For any transaction, stores and starting state: when the password
fails `validatePassword`, or bcrypt returns an error for it, `CreateUser`
returns the empty id and `ErrInvalidPW` and leaves the world exactly as it
was: no transaction is begun and no store is called. -/
theorem createUser_rejects_bad_password (uc : userUseCaseCommands) (lib : Lib) (ctx : Context)
    (req : AddUserRequest) (w : World)
    (h : validatePassword lib req.Password ≠ none ∨
      ∃ err, lib.GenerateFromPassword req.Password = .error err) :
    uc.CreateUser lib ctx req w = (w, .returned ("", some .ErrInvalidPW)) := by
  cases hv : validatePassword lib req.Password with
  | some e =>
    have := validatePassword_error lib _ _ hv
    subst this
    simp only [userUseCaseCommands.CreateUser, hv]
  | none =>
    rcases h with h | ⟨err, h⟩
    · exact absurd hv h
    · simp only [userUseCaseCommands.CreateUser, hv, hashPassword, h]

set_option maxRecDepth 8192 in
/-- Witness for C10: the password `P` fails validation, and the password of
over 72 bytes of the repository tests passes validation but is rejected by
bcrypt; both give `ErrInvalidPW` on an untouched world. -/
theorem createUser_rejects_bad_password_witness :
    validatePassword plainLib "P" ≠ none ∧
    (NewUserUseCaseCommands quietEnv).CreateUser plainLib Context.Background
        { exampleAddUserReq with Password := "P" } emptyWorld
      = (emptyWorld, .returned ("", some .ErrInvalidPW)) ∧
    validatePassword plainLib longPassword = none ∧
    (NewUserUseCaseCommands quietEnv).CreateUser plainLib Context.Background
        { exampleAddUserReq with Password := longPassword } emptyWorld
      = (emptyWorld, .returned ("", some .ErrInvalidPW)) :=
  ⟨by decide,
    createUser_rejects_bad_password _ plainLib _ { exampleAddUserReq with Password := "P" } _
      (Or.inl (by decide)),
    rfl,
    createUser_rejects_bad_password _ plainLib _
      { exampleAddUserReq with Password := longPassword } _
      (Or.inr ⟨.foreign "bcrypt: password length exceeds 72 bytes", rfl⟩)⟩

/-- One `AddEvent` on the open transaction: `ErrInternal` and only the trace grows, or the
insert is added to the pending statements. -/
theorem addEvent_step (env : Env) (h : Tx) (ev : Event) (w : World) (ps : List Stmt)
    (hw : w.openTx = some (h, ps)) :
    outboxCommandsRepo.AddEvent env ⟨some h⟩ ev w =
        ({ w with trace := w.trace ++ [.AddEvent (.tx h) ev "" (some .ErrInternal)] },
          ("", some .ErrInternal)) ∨
    ∃ id, outboxCommandsRepo.AddEvent env ⟨some h⟩ ev w =
        ({ w with openTx := some (h, ps ++ [.insertEvent ⟨id, ev.EventType, ev.Payload, none⟩]),
                  trace := w.trace ++ [.AddEvent (.tx h) ev id.String none] },
          (id.String, none)) := by
  cases hs : env.stmtErr w.step with
  | some x =>
    left
    simp [outboxCommandsRepo.AddEvent, outboxCommandsRepo.db, driverFault, hs, World.log]
  | none =>
    right
    refine ⟨env.newID w.step, ?_⟩
    simp [outboxCommandsRepo.AddEvent, outboxCommandsRepo.db, driverFault, hs, World.log,
      World.pendingOf, World.write, hw]

/-- One `SaveUser` on the open transaction: an error and only the trace grows, or the insert
is added to the pending statements. -/
theorem saveUser_step (env : Env) (h : Tx) (u : User) (w : World) (ps : List Stmt)
    (hw : w.openTx = some (h, ps)) :
    (∃ e, userCommandsRepo.SaveUser env ⟨some h⟩ u w =
        ({ w with trace := w.trace ++ [.SaveUser (.tx h) u "" (some e)] }, ("", some e))) ∨
    ∃ id row, userCommandsRepo.SaveUser env ⟨some h⟩ u w =
        ({ w with openTx := some (h, ps ++ [.insertUser row]),
                  trace := w.trace ++ [.SaveUser (.tx h) u id none] },
          (id, none)) := by
  cases hs : env.stmtErr w.step with
  | some x =>
    left
    by_cases hx : IsConflictErr x = true
    · exact ⟨.ErrUserAlreadyExists, by
        simp [userCommandsRepo.SaveUser, userCommandsRepo.db, driverFault, hs, World.log, hx]⟩
    · exact ⟨.ErrInternal, by
        simp [userCommandsRepo.SaveUser, userCommandsRepo.db, driverFault, hs, World.log, hx]⟩
  | none =>
    right
    refine ⟨(env.newID w.step).String,
      { u with ID := env.newID w.step, CreatedAt := env.now w.step, UpdatedAt := env.now w.step },
      ?_⟩
    simp [userCommandsRepo.SaveUser, userCommandsRepo.db, driverFault, hs, World.log,
      World.pendingOf, World.write, hw]

/-- A statement run on any provider leaves the open transaction open. -/
theorem write_keeps_open (w : World) (p : DBProvider) (s : Stmt) (h : Tx) (ps : List Stmt)
    (hw : w.openTx = some (h, ps)) :
    ∃ ps', (w.write p s).openTx = some (h, ps') := by
  cases p with
  | pool => exact ⟨ps, by simp [World.write, hw]⟩
  | tx h' =>
    by_cases hh : h = h'
    · subst hh
      exact ⟨ps ++ [s], by simp [World.write, World.pendingOf, hw]⟩
    · exact ⟨ps, by simp [World.write, World.pendingOf, hw, hh]⟩

/-- One `DeleteUser` of the store while a transaction is open: an error and only the trace
grows, or nil with the transaction still open. -/
theorem deleteUser_step (env : Env) (ctx : Context) (userID : String) (w : World) (h : Tx)
    (ps : List Stmt) (hw : w.openTx = some (h, ps)) :
    (∃ e, userCommandsRepo.DeleteUser env ctx userID w =
        ({ w with trace := w.trace ++ [.DeleteUser (userCommandsRepo.db ctx) userID (some e)] },
          some e)) ∨
    ∃ w2 ps', userCommandsRepo.DeleteUser env ctx userID w = (w2, none) ∧
      w2.trace = w.trace ++ [.DeleteUser (userCommandsRepo.db ctx) userID none] ∧
      w2.openTx = some (h, ps') ∧ w2.userID = w.userID := by
  cases hd : driverFault env (userCommandsRepo.db ctx) w with
  | some x =>
    left
    exact ⟨.ErrInternal, by simp only [userCommandsRepo.DeleteUser, hd]; rfl⟩
  | none =>
    cases hu : env.uuidIn userID with
    | none =>
      left
      exact ⟨.ErrInternal, by simp only [userCommandsRepo.DeleteUser, hd, hu]; rfl⟩
    | some u =>
      by_cases hz : (((w.view (userCommandsRepo.db ctx)).users.filter
          (fun r => decide (r.ID = u))).length = 0)
      · left
        exact ⟨.ErrUserNotFound, by simp only [userCommandsRepo.DeleteUser, hd, hu, hz]; rfl⟩
      · right
        obtain ⟨ps', hps'⟩ := write_keeps_open w (userCommandsRepo.db ctx) (.deleteUser u) h ps hw
        refine ⟨(w.write (userCommandsRepo.db ctx) (.deleteUser u)).log
          (.DeleteUser (userCommandsRepo.db ctx) userID none), ps', ?_, ?_, ?_, ?_⟩
        · simp only [userCommandsRepo.DeleteUser, hd, hu, hz]; rfl
        · simp only [World.log, World.write]; split <;> (try split) <;> rfl
        · simpa [World.log] using hps'
        · simp only [World.log, World.write]; split <;> (try split) <;> rfl

/-- One `UpdateUser` of the store while a transaction is open: an error and only the trace
grows, or nil with the transaction still open. -/
theorem updateUser_step (env : Env) (ctx : Context) (u : User) (w : World) (h : Tx)
    (ps : List Stmt) (hw : w.openTx = some (h, ps)) :
    (∃ e, userCommandsRepo.UpdateUser env ctx u w =
        ({ w with trace := w.trace ++ [.UpdateUser (userCommandsRepo.db ctx) u (some e)] },
          some e)) ∨
    ∃ w2 ps', userCommandsRepo.UpdateUser env ctx u w = (w2, none) ∧
      w2.trace = w.trace ++ [.UpdateUser (userCommandsRepo.db ctx) u none] ∧
      w2.openTx = some (h, ps') ∧ w2.userID = w.userID := by
  cases hd : driverFault env (userCommandsRepo.db ctx) w with
  | some x =>
    left
    exact ⟨.ErrInternal, by simp only [userCommandsRepo.UpdateUser, hd]; rfl⟩
  | none =>
    by_cases hz : (((w.view (userCommandsRepo.db ctx)).users.filter
        (fun r => decide (r.ID = u.ID))).length = 0)
    · left
      exact ⟨.ErrUserNotFound, by simp only [userCommandsRepo.UpdateUser, hd, hz]; rfl⟩
    · right
      obtain ⟨ps', hps'⟩ := write_keeps_open w (userCommandsRepo.db ctx) (.updateUser u) h ps hw
      refine ⟨(w.write (userCommandsRepo.db ctx) (.updateUser u)).log
        (.UpdateUser (userCommandsRepo.db ctx) u none), ps', ?_, ?_, ?_, ?_⟩
      · simp only [userCommandsRepo.UpdateUser, hd, hz]; rfl
      · simp only [World.log, World.write]; split <;> (try split) <;> rfl
      · simpa [World.log] using hps'
      · simp only [World.log, World.write]; split <;> (try split) <;> rfl

/-- The closure of `CreateUser` on a freshly begun transaction: `SaveUser` fails; or it
succeeds and `AddEvent` fails; or both succeed, both pending on the transaction. -/
theorem createTx_shape (env : Env) (lib : Lib) (req : AddUserRequest) (u : User) (h : Tx)
    (w1 : World) (hw : w1.openTx = some (h, [])) :
    (∃ e, (NewUserUseCaseCommands env).createTx lib req u ⟨some h⟩ w1 =
        ({ w1 with trace := w1.trace ++ [.SaveUser (.tx h) u "" (some e)], userID := "" },
          .returned (some e))) ∨
    (∃ id row, (NewUserUseCaseCommands env).createTx lib req u ⟨some h⟩ w1 =
        ({ w1 with openTx := some (h, [.insertUser row]),
                   trace := w1.trace ++ [.SaveUser (.tx h) u id none,
                     .AddEvent (.tx h) ⟨UUID.Nil, "CreateUser", req.Marshal lib⟩ ""
                       (some .ErrInternal)],
                   userID := id },
          .returned (some .ErrInternal))) ∨
    (∃ id row eid, (NewUserUseCaseCommands env).createTx lib req u ⟨some h⟩ w1 =
        ({ w1 with openTx := some (h, [.insertUser row,
                     .insertEvent ⟨eid, "CreateUser", req.Marshal lib, none⟩]),
                   trace := w1.trace ++ [.SaveUser (.tx h) u id none,
                     .AddEvent (.tx h) ⟨UUID.Nil, "CreateUser", req.Marshal lib⟩ eid.String none],
                   userID := id },
          .returned none)) := by
  rcases saveUser_step env h u w1 [] hw with ⟨e, hs⟩ | ⟨id, row, hs⟩
  · left
    refine ⟨e, ?_⟩
    have hs' : (NewUserUseCaseCommands env).repo.SaveUser ⟨some h⟩ u w1 = _ := hs
    simp only [userUseCaseCommands.createTx, hs']
  · right
    have hs' : (NewUserUseCaseCommands env).repo.SaveUser ⟨some h⟩ u w1 = _ := hs
    have hw2 : (⟨w1.committed, some (h, [] ++ [.insertUser row]),
          w1.trace ++ [.SaveUser (.tx h) u id none], id⟩ : World).openTx
        = some (h, [.insertUser row]) := rfl
    rcases addEvent_step env h ⟨UUID.Nil, "CreateUser", req.Marshal lib⟩ _ _ hw2 with ha | ⟨eid, ha⟩
    · left
      refine ⟨id, row, ?_⟩
      have ha' : (NewUserUseCaseCommands env).outboxRepo.AddEvent ⟨some h⟩
          ⟨UUID.Nil, "CreateUser", req.Marshal lib⟩ _ = _ := ha
      simp only [userUseCaseCommands.createTx, hs', ha']
      simp
    · right
      refine ⟨id, row, eid, ?_⟩
      have ha' : (NewUserUseCaseCommands env).outboxRepo.AddEvent ⟨some h⟩
          ⟨UUID.Nil, "CreateUser", req.Marshal lib⟩ _ = _ := ha
      simp only [userUseCaseCommands.createTx, hs', ha']
      simp

/-- The closure of `DeleteUser` on a freshly begun transaction, by its calls. -/
theorem deleteTx_shape (env : Env) (lib : Lib) (ctx : Context) (userID : String) (h : Tx)
    (w1 : World) (hw : w1.openTx = some (h, [])) :
    (∃ e, (NewUserUseCaseCommands env).deleteTx lib ctx userID ⟨some h⟩ w1 =
        ({ w1 with trace := w1.trace ++ [.DeleteUser (userCommandsRepo.db ctx) userID (some e)] },
          .returned (some e))) ∨
    (∃ w2, (NewUserUseCaseCommands env).deleteTx lib ctx userID ⟨some h⟩ w1 =
        (w2, .returned (some .ErrInternal)) ∧
      w2.trace = w1.trace ++ [.DeleteUser (userCommandsRepo.db ctx) userID none,
        .AddEvent (.tx h) ⟨UUID.Nil, "DeleteUser", jsonObject lib [("ID", userID)]⟩ ""
          (some .ErrInternal)]) ∨
    (∃ w2 eid, (NewUserUseCaseCommands env).deleteTx lib ctx userID ⟨some h⟩ w1 =
        (w2, .returned none) ∧
      w2.trace = w1.trace ++ [.DeleteUser (userCommandsRepo.db ctx) userID none,
        .AddEvent (.tx h) ⟨UUID.Nil, "DeleteUser", jsonObject lib [("ID", userID)]⟩ eid none]) := by
  rcases deleteUser_step env ctx userID w1 h [] hw with ⟨e, hs⟩ | ⟨w2, ps', hs, ht, ho, _⟩
  · left
    refine ⟨e, ?_⟩
    have hs' : (NewUserUseCaseCommands env).repo.DeleteUser ctx userID w1 = _ := hs
    simp only [userUseCaseCommands.deleteTx, hs']
  · right
    have hs' : (NewUserUseCaseCommands env).repo.DeleteUser ctx userID w1 = _ := hs
    rcases addEvent_step env h ⟨UUID.Nil, "DeleteUser", jsonObject lib [("ID", userID)]⟩ w2 ps' ho
      with ha | ⟨eid, ha⟩
    · left
      have ha' : (NewUserUseCaseCommands env).outboxRepo.AddEvent ⟨some h⟩
          ⟨UUID.Nil, "DeleteUser", jsonObject lib [("ID", userID)]⟩ w2 = _ := ha
      refine ⟨(outboxCommandsRepo.AddEvent env ⟨some h⟩ ⟨UUID.Nil, "DeleteUser", jsonObject lib [("ID", userID)]⟩ w2).1, ?_, ?_⟩
      · simp only [userUseCaseCommands.deleteTx, hs', ha']
        rw [ha]
      · rw [ha]; simp [ht]
    · right
      have ha' : (NewUserUseCaseCommands env).outboxRepo.AddEvent ⟨some h⟩
          ⟨UUID.Nil, "DeleteUser", jsonObject lib [("ID", userID)]⟩ w2 = _ := ha
      refine ⟨(outboxCommandsRepo.AddEvent env ⟨some h⟩ ⟨UUID.Nil, "DeleteUser", jsonObject lib [("ID", userID)]⟩ w2).1, eid.String, ?_, ?_⟩
      · simp only [userUseCaseCommands.deleteTx, hs', ha']
        rw [ha]
      · rw [ha]; simp [ht]

/-- The closure of `UpdateUser` on a freshly begun transaction, by its calls. -/
theorem updateTx_shape (env : Env) (lib : Lib) (ctx : Context) (req : UpdateUserRequest)
    (u : User) (h : Tx) (w1 : World) (hw : w1.openTx = some (h, [])) :
    (∃ e, (NewUserUseCaseCommands env).updateTx lib ctx req u ⟨some h⟩ w1 =
        ({ w1 with trace := w1.trace ++ [.UpdateUser (userCommandsRepo.db ctx) u (some e)] },
          .returned (some e))) ∨
    (∃ w2, (NewUserUseCaseCommands env).updateTx lib ctx req u ⟨some h⟩ w1 =
        (w2, .returned (some .ErrInternal)) ∧
      w2.trace = w1.trace ++ [.UpdateUser (userCommandsRepo.db ctx) u none,
        .AddEvent (.tx h) ⟨UUID.Nil, "UpdateUser", req.Marshal lib⟩ "" (some .ErrInternal)]) ∨
    (∃ w2 eid, (NewUserUseCaseCommands env).updateTx lib ctx req u ⟨some h⟩ w1 =
        (w2, .returned none) ∧
      w2.trace = w1.trace ++ [.UpdateUser (userCommandsRepo.db ctx) u none,
        .AddEvent (.tx h) ⟨UUID.Nil, "UpdateUser", req.Marshal lib⟩ eid none]) := by
  rcases updateUser_step env ctx u w1 h [] hw with ⟨e, hs⟩ | ⟨w2, ps', hs, ht, ho, _⟩
  · left
    refine ⟨e, ?_⟩
    have hs' : (NewUserUseCaseCommands env).repo.UpdateUser ctx u w1 = _ := hs
    simp only [userUseCaseCommands.updateTx, hs']
  · right
    have hs' : (NewUserUseCaseCommands env).repo.UpdateUser ctx u w1 = _ := hs
    rcases addEvent_step env h ⟨UUID.Nil, "UpdateUser", req.Marshal lib⟩ w2 ps' ho
      with ha | ⟨eid, ha⟩
    · left
      have ha' : (NewUserUseCaseCommands env).outboxRepo.AddEvent ⟨some h⟩
          ⟨UUID.Nil, "UpdateUser", req.Marshal lib⟩ w2 = _ := ha
      refine ⟨(outboxCommandsRepo.AddEvent env ⟨some h⟩ ⟨UUID.Nil, "UpdateUser", req.Marshal lib⟩ w2).1, ?_, ?_⟩
      · simp only [userUseCaseCommands.updateTx, hs', ha']
        rw [ha]
      · rw [ha]; simp [ht]
    · right
      have ha' : (NewUserUseCaseCommands env).outboxRepo.AddEvent ⟨some h⟩
          ⟨UUID.Nil, "UpdateUser", req.Marshal lib⟩ w2 = _ := ha
      refine ⟨(outboxCommandsRepo.AddEvent env ⟨some h⟩ ⟨UUID.Nil, "UpdateUser", req.Marshal lib⟩ w2).1, eid.String, ?_, ?_⟩
      · simp only [userUseCaseCommands.updateTx, hs', ha']
        rw [ha]
      · rw [ha]; simp [ht]

/-- Every run of `DeleteUser` on a parsed id, by its calls and result. -/
theorem deleteUser_run (env : Env) (lib : Lib) (ctx : Context) (userID : String) (w : World)
    (id : UUID) (hp : lib.uuidParse userID = some id) :
    (∃ e r, ((NewUserUseCaseCommands env).DeleteUser lib ctx userID w).1.trace
          = w.trace ++ [.Begin (some e)] ∧
        ((NewUserUseCaseCommands env).DeleteUser lib ctx userID w).2 = .returned (some r)) ∨
    (∃ e rb, ((NewUserUseCaseCommands env).DeleteUser lib ctx userID w).1.trace
          = w.trace ++ [.Begin none, .DeleteUser (userCommandsRepo.db ctx) userID (some e),
              .Rollback rb] ∧
        ((NewUserUseCaseCommands env).DeleteUser lib ctx userID w).2
          = .returned (some (if errorsIs (afterRollback rb e) .ErrUserNotFound
              then afterRollback rb e else .ErrInternal))) ∨
    (∃ rb r, ((NewUserUseCaseCommands env).DeleteUser lib ctx userID w).1.trace
          = w.trace ++ [.Begin none, .DeleteUser (userCommandsRepo.db ctx) userID none,
              .AddEvent (.tx ⟨w.step⟩)
                ⟨UUID.Nil, "DeleteUser", jsonObject lib [("ID", userID)]⟩ "" (some .ErrInternal),
              .Rollback rb] ∧
        ((NewUserUseCaseCommands env).DeleteUser lib ctx userID w).2 = .returned (some r)) ∨
    (∃ eid c, ((NewUserUseCaseCommands env).DeleteUser lib ctx userID w).1.trace
          = w.trace ++ [.Begin none, .DeleteUser (userCommandsRepo.db ctx) userID none,
              .AddEvent (.tx ⟨w.step⟩)
                ⟨UUID.Nil, "DeleteUser", jsonObject lib [("ID", userID)]⟩ eid none,
              .Commit c] ∧
        ((c = none ∧
            ((NewUserUseCaseCommands env).DeleteUser lib ctx userID w).2 = .returned none) ∨
          (c ≠ none ∧ ∃ r,
            ((NewUserUseCaseCommands env).DeleteUser lib ctx userID w).2
              = .returned (some r)))) := by
  have hcmd : (NewUserUseCaseCommands env).DeleteUser lib ctx userID w =
      match transactionSupplier.BeginTx env ctx
          ((NewUserUseCaseCommands env).deleteTx lib ctx userID) w with
      | (w1, .returned (some err)) =>
        if !errorsIs err .ErrUserNotFound then (w1, .returned (some .ErrInternal))
        else (w1, .returned (some err))
      | (w1, .returned none) => (w1, .returned none)
      | (w1, .panicked) => (w1, .panicked) := by
    simp only [userUseCaseCommands.DeleteUser, hp]
    rfl
  rw [hcmd]
  cases hb : env.beginErr w.step with
  | some e =>
    left
    have hrun : transactionSupplier.BeginTx env ctx
        ((NewUserUseCaseCommands env).deleteTx lib ctx userID) w
        = (w.log (.Begin (some e)), .returned (some e)) := by
      simp only [transactionSupplier.BeginTx, hb]
    rw [hrun]
    simp only
    cases errorsIs e .ErrUserNotFound
    · exact ⟨e, .ErrInternal, by simp [World.log]⟩
    · exact ⟨e, e, by simp [World.log]⟩
  | none =>
    right
    have hw1 : ({ w with openTx := some (⟨w.step⟩, []), trace := w.trace ++ [.Begin none] }
        : World).openTx = some (⟨w.step⟩, []) := rfl
    rcases deleteTx_shape env lib ctx userID ⟨w.step⟩ _ hw1 with
      ⟨e, hr⟩ | ⟨w2, hr, ht⟩ | ⟨w2, eid, hr, ht⟩
    · left
      obtain ⟨rb, hrun⟩ := beginTx_of_error env ctx _ w _ _ hb hr
      refine ⟨e, rb, ?_⟩
      rw [hrun]
      simp only
      cases errorsIs (afterRollback rb e) .ErrUserNotFound <;>
        simp [World.log, World.discard, World.pendingOf]
    · right; left
      obtain ⟨rb, hrun⟩ := beginTx_of_error env ctx _ w _ _ hb hr
      rw [hrun]
      simp only
      cases errorsIs (afterRollback rb .ErrInternal) .ErrUserNotFound
      · refine ⟨rb, .ErrInternal, ?_⟩
        simp only [World.log, World.discard]
        cases w2.pendingOf ⟨w.step⟩ <;> simp [ht]
      · refine ⟨rb, afterRollback rb .ErrInternal, ?_⟩
        simp only [World.log, World.discard]
        cases w2.pendingOf ⟨w.step⟩ <;> simp [ht]
    · right; right
      obtain ⟨c, w3, hrun, ht3, _, _, _⟩ := beginTx_of_nil env ctx _ w _ hb hr
      rw [hrun]
      refine ⟨eid, c, ?_, ?_⟩
      · cases c with
        | none => simp [ht3, ht]
        | some ce =>
          simp only
          cases errorsIs ce .ErrUserNotFound <;> simp [ht3, ht]
      · cases c with
        | none => left; exact ⟨rfl, rfl⟩
        | some ce =>
          right
          refine ⟨by simp, ?_⟩
          simp only
          cases errorsIs ce .ErrUserNotFound
          · exact ⟨.ErrInternal, by simp⟩
          · exact ⟨ce, by simp⟩

/-- Every run of `UpdateUser` on a parsed id, by its calls and result. -/
theorem updateUser_run (env : Env) (lib : Lib) (ctx : Context) (req : UpdateUserRequest)
    (w : World) (id : UUID) (hp : lib.uuidParse req.ID = some id) :
    (∃ e r, ((NewUserUseCaseCommands env).UpdateUser lib ctx req w).1.trace
          = w.trace ++ [.Begin (some e)] ∧
        ((NewUserUseCaseCommands env).UpdateUser lib ctx req w).2 = .returned (some r)) ∨
    (∃ e rb, ((NewUserUseCaseCommands env).UpdateUser lib ctx req w).1.trace
          = w.trace ++ [.Begin none, .UpdateUser (userCommandsRepo.db ctx) (req.toUser id) (some e),
              .Rollback rb] ∧
        ((NewUserUseCaseCommands env).UpdateUser lib ctx req w).2
          = .returned (some (if errorsIs (afterRollback rb e) .ErrUserNotFound
              then afterRollback rb e else .ErrInternal))) ∨
    (∃ rb r, ((NewUserUseCaseCommands env).UpdateUser lib ctx req w).1.trace
          = w.trace ++ [.Begin none, .UpdateUser (userCommandsRepo.db ctx) (req.toUser id) none,
              .AddEvent (.tx ⟨w.step⟩)
                ⟨UUID.Nil, "UpdateUser", req.Marshal lib⟩ "" (some .ErrInternal),
              .Rollback rb] ∧
        ((NewUserUseCaseCommands env).UpdateUser lib ctx req w).2 = .returned (some r)) ∨
    (∃ eid c, ((NewUserUseCaseCommands env).UpdateUser lib ctx req w).1.trace
          = w.trace ++ [.Begin none, .UpdateUser (userCommandsRepo.db ctx) (req.toUser id) none,
              .AddEvent (.tx ⟨w.step⟩)
                ⟨UUID.Nil, "UpdateUser", req.Marshal lib⟩ eid none,
              .Commit c] ∧
        ((c = none ∧
            ((NewUserUseCaseCommands env).UpdateUser lib ctx req w).2 = .returned none) ∨
          (c ≠ none ∧ ∃ r,
            ((NewUserUseCaseCommands env).UpdateUser lib ctx req w).2
              = .returned (some r)))) := by
  have hcmd : (NewUserUseCaseCommands env).UpdateUser lib ctx req w =
      match transactionSupplier.BeginTx env ctx
          ((NewUserUseCaseCommands env).updateTx lib ctx req (req.toUser id)) w with
      | (w1, .returned (some err)) =>
        if !errorsIs err .ErrUserNotFound then (w1, .returned (some .ErrInternal))
        else (w1, .returned (some err))
      | (w1, .returned none) => (w1, .returned none)
      | (w1, .panicked) => (w1, .panicked) := by
    simp only [userUseCaseCommands.UpdateUser, hp]
    rfl
  rw [hcmd]
  cases hb : env.beginErr w.step with
  | some e =>
    left
    have hrun : transactionSupplier.BeginTx env ctx
        ((NewUserUseCaseCommands env).updateTx lib ctx req (req.toUser id)) w
        = (w.log (.Begin (some e)), .returned (some e)) := by
      simp only [transactionSupplier.BeginTx, hb]
    rw [hrun]
    simp only
    cases errorsIs e .ErrUserNotFound
    · exact ⟨e, .ErrInternal, by simp [World.log]⟩
    · exact ⟨e, e, by simp [World.log]⟩
  | none =>
    right
    have hw1 : ({ w with openTx := some (⟨w.step⟩, []), trace := w.trace ++ [.Begin none] }
        : World).openTx = some (⟨w.step⟩, []) := rfl
    rcases updateTx_shape env lib ctx req (req.toUser id) ⟨w.step⟩ _ hw1 with
      ⟨e, hr⟩ | ⟨w2, hr, ht⟩ | ⟨w2, eid, hr, ht⟩
    · left
      obtain ⟨rb, hrun⟩ := beginTx_of_error env ctx _ w _ _ hb hr
      refine ⟨e, rb, ?_⟩
      rw [hrun]
      simp only
      cases errorsIs (afterRollback rb e) .ErrUserNotFound <;>
        simp [World.log, World.discard, World.pendingOf]
    · right; left
      obtain ⟨rb, hrun⟩ := beginTx_of_error env ctx _ w _ _ hb hr
      rw [hrun]
      simp only
      cases errorsIs (afterRollback rb .ErrInternal) .ErrUserNotFound
      · refine ⟨rb, .ErrInternal, ?_⟩
        simp only [World.log, World.discard]
        cases w2.pendingOf ⟨w.step⟩ <;> simp [ht]
      · refine ⟨rb, afterRollback rb .ErrInternal, ?_⟩
        simp only [World.log, World.discard]
        cases w2.pendingOf ⟨w.step⟩ <;> simp [ht]
    · right; right
      obtain ⟨c, w3, hrun, ht3, _, _, _⟩ := beginTx_of_nil env ctx _ w _ hb hr
      rw [hrun]
      refine ⟨eid, c, ?_, ?_⟩
      · cases c with
        | none => simp [ht3, ht]
        | some ce =>
          simp only
          cases errorsIs ce .ErrUserNotFound <;> simp [ht3, ht]
      · cases c with
        | none => left; exact ⟨rfl, rfl⟩
        | some ce =>
          right
          refine ⟨by simp, ?_⟩
          simp only
          cases errorsIs ce .ErrUserNotFound
          · exact ⟨.ErrInternal, by simp⟩
          · exact ⟨ce, by simp⟩

/-- Every run of `CreateUser` on an accepted password, by its calls and result. -/
theorem createUser_run (env : Env) (lib : Lib) (ctx : Context) (req : AddUserRequest)
    (w : World) (hashed : String) (hv : validatePassword lib req.Password = none)
    (hh : hashPassword lib req.Password = .ok hashed) :
    (∃ e r, ((NewUserUseCaseCommands env).CreateUser lib ctx req w).1.trace
          = w.trace ++ [.Begin (some e)] ∧
        ((NewUserUseCaseCommands env).CreateUser lib ctx req w).2 = .returned ("", some r) ∧
        ((NewUserUseCaseCommands env).CreateUser lib ctx req w).1.committed = w.committed) ∨
    (∃ e rb r, ((NewUserUseCaseCommands env).CreateUser lib ctx req w).1.trace
          = w.trace ++ [.Begin none, .SaveUser (.tx ⟨w.step⟩) (req.toUser hashed) "" (some e),
              .Rollback rb] ∧
        ((NewUserUseCaseCommands env).CreateUser lib ctx req w).2 = .returned ("", some r) ∧
        ((NewUserUseCaseCommands env).CreateUser lib ctx req w).1.committed = w.committed) ∨
    (∃ id rb r, ((NewUserUseCaseCommands env).CreateUser lib ctx req w).1.trace
          = w.trace ++ [.Begin none, .SaveUser (.tx ⟨w.step⟩) (req.toUser hashed) id none,
              .AddEvent (.tx ⟨w.step⟩) ⟨UUID.Nil, "CreateUser", req.Marshal lib⟩ ""
                (some .ErrInternal),
              .Rollback rb] ∧
        ((NewUserUseCaseCommands env).CreateUser lib ctx req w).2 = .returned ("", some r) ∧
        ((NewUserUseCaseCommands env).CreateUser lib ctx req w).1.committed = w.committed) ∨
    (∃ id eid c, ((NewUserUseCaseCommands env).CreateUser lib ctx req w).1.trace
          = w.trace ++ [.Begin none, .SaveUser (.tx ⟨w.step⟩) (req.toUser hashed) id none,
              .AddEvent (.tx ⟨w.step⟩) ⟨UUID.Nil, "CreateUser", req.Marshal lib⟩ eid none,
              .Commit c] ∧
        ((c = none ∧
            ((NewUserUseCaseCommands env).CreateUser lib ctx req w).2 = .returned (id, none)) ∨
          (c ≠ none ∧ ∃ r,
            ((NewUserUseCaseCommands env).CreateUser lib ctx req w).2 = .returned ("", some r) ∧
            ((NewUserUseCaseCommands env).CreateUser lib ctx req w).1.committed
              = w.committed))) := by
  have hcmd : (NewUserUseCaseCommands env).CreateUser lib ctx req w =
      match transactionSupplier.BeginTx env ctx
          ((NewUserUseCaseCommands env).createTx lib req (req.toUser hashed))
          { w with userID := "" } with
      | (w1, .returned (some err)) =>
        if !errorsIs err .ErrUserAlreadyExists then (w1, .returned ("", some .ErrInternal))
        else (w1, .returned ("", some err))
      | (w1, .returned none) => (w1, .returned (w1.userID, none))
      | (w1, .panicked) => (w1, .panicked) := by
    simp only [userUseCaseCommands.CreateUser, hv, hh]
    rfl
  rw [hcmd]
  have hstep : ({ w with userID := "" } : World).step = w.step := rfl
  cases hb : env.beginErr w.step with
  | some e =>
    left
    have hrun : transactionSupplier.BeginTx env ctx
        ((NewUserUseCaseCommands env).createTx lib req (req.toUser hashed))
        { w with userID := "" }
        = (({ w with userID := "" } : World).log (.Begin (some e)), .returned (some e)) := by
      simp only [transactionSupplier.BeginTx, hstep, hb]
    rw [hrun]
    simp only
    cases errorsIs e .ErrUserAlreadyExists
    · exact ⟨e, .ErrInternal, by simp [World.log]⟩
    · exact ⟨e, e, by simp [World.log]⟩
  | none =>
    right
    have hb' : env.beginErr ({ w with userID := "" } : World).step = none := hb
    have hw1 : ({ ({ w with userID := "" } : World) with
        openTx := some (⟨({ w with userID := "" } : World).step⟩, []),
        trace := ({ w with userID := "" } : World).trace ++ [.Begin none] }
        : World).openTx = some (⟨w.step⟩, []) := rfl
    rcases createTx_shape env lib req (req.toUser hashed) ⟨w.step⟩ _ hw1 with
      ⟨e, hr⟩ | ⟨id, row, hr⟩ | ⟨id, row, eid, hr⟩
    · left
      obtain ⟨rb, hrun⟩ := beginTx_of_error env ctx _ _ _ _ hb' hr
      rw [hrun]
      simp only
      cases errorsIs (afterRollback rb e) .ErrUserAlreadyExists
      · exact ⟨e, rb, .ErrInternal, by simp [World.log, World.discard, World.pendingOf, hstep]⟩
      · exact ⟨e, rb, afterRollback rb e,
          by simp [World.log, World.discard, World.pendingOf, hstep]⟩
    · right; left
      obtain ⟨rb, hrun⟩ := beginTx_of_error env ctx _ _ _ _ hb' hr
      rw [hrun]
      simp only
      cases errorsIs (afterRollback rb .ErrInternal) .ErrUserAlreadyExists
      · exact ⟨id, rb, .ErrInternal, by simp [World.log, World.discard, World.pendingOf, hstep]⟩
      · exact ⟨id, rb, afterRollback rb .ErrInternal,
          by simp [World.log, World.discard, World.pendingOf, hstep]⟩
    · right; right
      obtain ⟨c, w3, hrun, ht3, hu3, _, hcs⟩ := beginTx_of_nil env ctx _ _ _ hb' hr
      rw [hrun]
      refine ⟨id, eid.String, c, ?_, ?_⟩
      · cases c with
        | none => simp [ht3]
        | some ce =>
          simp only
          cases errorsIs ce .ErrUserAlreadyExists <;> simp [ht3]
      · cases c with
        | none => left; exact ⟨rfl, by simp [hu3]⟩
        | some ce =>
          right
          refine ⟨by simp, ?_⟩
          have hcm := hcs (by simp)
          simp only
          cases errorsIs ce .ErrUserAlreadyExists
          · exact ⟨.ErrInternal, by simp, by simpa using hcm⟩
          · exact ⟨ce, by simp, by simpa using hcm⟩

/-- `BeginTx` returns nil exactly when the transaction begins, the closure
returns nil and the commit succeeds on the transaction still open. -/
theorem beginTx_nil_iff (env : Env) (ctx : Context) (fn : TxFunc) (w : World) :
    (transactionSupplier.BeginTx env ctx fn w).2 = .returned none ↔
      env.beginErr w.step = none ∧
      ∃ w2, fn ⟨some ⟨w.step⟩⟩
          { w with openTx := some (⟨w.step⟩, []), trace := w.trace ++ [.Begin none] }
          = (w2, .returned none) ∧
        env.commitErr w2.step = none ∧ (w2.pendingOf ⟨w.step⟩).isSome = true := by
  unfold transactionSupplier.BeginTx
  cases hb : env.beginErr w.step with
  | some e => simp
  | none =>
    simp only [true_and]
    cases hfn : fn ⟨some ⟨w.step⟩⟩
        { w with openTx := some (⟨w.step⟩, []), trace := w.trace ++ [.Begin none] } with
    | mk w2 r =>
      cases r with
      | panicked => simp
      | returned res =>
        cases res with
        | some e =>
          simp only
          cases env.rollbackErr w2.step <;> simp
        | none =>
          simp only
          cases hc : env.commitErr w2.step with
          | some e => simp [hc]
          | none =>
            cases hpd : w2.pendingOf ⟨w.step⟩ with
            | none => simp [hc, hpd]
            | some ps => simp [hc, hpd]

/-- The closure of `DeleteUser`, run outside any other transaction right
after the begin: it returns nil exactly when the `DELETE` executes, the id is a
uuid that a row carries, and the `INSERT INTO outbox` executes; the world it
leaves has two more calls and the transaction still open. -/
theorem deleteTx_nil_iff (env : Env) (lib : Lib) (ctx : Context) (userID : String)
    (w : World) (hctx : ctx.txKey = none) :
    ((∃ w2, (NewUserUseCaseCommands env).deleteTx lib ctx userID ⟨some ⟨w.step⟩⟩
        { w with openTx := some (⟨w.step⟩, []), trace := w.trace ++ [.Begin none] }
        = (w2, .returned none)) ↔
      (env.stmtErr (w.step + 1) = none ∧
        (∃ u, env.uuidIn userID = some u ∧ ∃ r ∈ w.committed.users, r.ID = u) ∧
        env.stmtErr (w.step + 2) = none)) ∧
    (∀ w2, (NewUserUseCaseCommands env).deleteTx lib ctx userID ⟨some ⟨w.step⟩⟩
        { w with openTx := some (⟨w.step⟩, []), trace := w.trace ++ [.Begin none] }
        = (w2, .returned none) →
      w2.step = w.step + 3 ∧ (w2.pendingOf ⟨w.step⟩).isSome = true) := by
  have hdb : userCommandsRepo.db ctx = .pool := by simp [userCommandsRepo.db, hctx]
  simp only [userUseCaseCommands.deleteTx, NewUserUseCaseCommands, NewUserCommandsRepo,
    NewOutboxCommandsRepo, userCommandsRepo.DeleteUser, hdb, driverFault,
    World.step, List.length_append, List.length_singleton]
  cases hs1 : env.stmtErr (w.trace.length + 1) with
  | some e => simp
  | none =>
    cases hu : env.uuidIn userID with
    | none => simp
    | some u =>
      simp only [World.view]
      by_cases hrow : ((w.committed.users.filter (fun r => decide (r.ID = u))).length = 0)
      · simp only [hrow, if_true]
        have hno : ¬ ∃ r ∈ w.committed.users, r.ID = u := by
          rw [List.length_eq_zero, List.filter_eq_nil_iff] at hrow
          rintro ⟨r, hr, rfl⟩
          simpa using hrow r hr
        simp [hno]
      · simp only [hrow, if_false]
        have hyes : ∃ r ∈ w.committed.users, r.ID = u := by
          by_contra hno
          apply hrow
          rw [List.length_eq_zero, List.filter_eq_nil_iff]
          intro r hr
          simpa using fun e : r.ID = u => hno ⟨r, hr, e⟩
        simp only [outboxCommandsRepo.AddEvent, outboxCommandsRepo.db, driverFault, World.step,
          World.log, World.write, World.pendingOf]
        cases hs2 : env.stmtErr (w.trace.length + 2) with
        | some e => simp [hs2]
        | none => simp [hs2, hyes]

/-- `DeleteUser`, called outside a transaction, returns nil exactly when the
id parses, the transaction begins, the `DELETE` executes on an id that a row
carries, the `INSERT INTO outbox` executes and the commit succeeds. -/
theorem deleteUser_nil_iff (env : Env) (lib : Lib) (ctx : Context) (userID : String)
    (w : World) (hctx : ctx.txKey = none) :
    ((NewUserUseCaseCommands env).DeleteUser lib ctx userID w).2 = .returned none ↔
      ((∃ id, lib.uuidParse userID = some id) ∧ env.beginErr w.step = none ∧
        env.stmtErr (w.step + 1) = none ∧
        (∃ u, env.uuidIn userID = some u ∧ ∃ r ∈ w.committed.users, r.ID = u) ∧
        env.stmtErr (w.step + 2) = none ∧ env.commitErr (w.step + 3) = none) := by
  cases hp : lib.uuidParse userID with
  | none => simp [userUseCaseCommands.DeleteUser, hp]
  | some id =>
    have hcmd : ((NewUserUseCaseCommands env).DeleteUser lib ctx userID w).2 = .returned none ↔
        (transactionSupplier.BeginTx env ctx
          ((NewUserUseCaseCommands env).deleteTx lib ctx userID) w).2 = .returned none := by
      have hrun : (NewUserUseCaseCommands env).transaction.BeginTx ctx
          ((NewUserUseCaseCommands env).deleteTx lib ctx userID) w =
          transactionSupplier.BeginTx env ctx
            ((NewUserUseCaseCommands env).deleteTx lib ctx userID) w := rfl
      simp only [userUseCaseCommands.DeleteUser, hp, hrun]
      cases transactionSupplier.BeginTx env ctx
          ((NewUserUseCaseCommands env).deleteTx lib ctx userID) w with
      | mk w1 r =>
        cases r with
        | panicked => simp
        | returned res =>
          cases res with
          | none => simp
          | some e => cases he : errorsIs e .ErrUserNotFound <;> simp [he]
    obtain ⟨hiff, hstep⟩ := deleteTx_nil_iff env lib ctx userID w hctx
    rw [hcmd, beginTx_nil_iff]
    constructor
    · rintro ⟨hb, w2, hfn, hc, _⟩
      obtain ⟨h1, h2, h3⟩ := hiff.mp ⟨w2, hfn⟩
      rw [(hstep w2 hfn).1] at hc
      exact ⟨⟨id, rfl⟩, hb, h1, h2, h3, hc⟩
    · rintro ⟨_, hb, h1, h2, h3, hc⟩
      obtain ⟨w2, hfn⟩ := hiff.mpr ⟨h1, h2, h3⟩
      refine ⟨hb, w2, hfn, ?_, (hstep w2 hfn).2⟩
      rw [(hstep w2 hfn).1]
      exact hc

/-- The closure of `UpdateUser`, run outside any other transaction right
after the begin: it returns nil exactly when the `UPDATE` executes on an id
that a row carries and the `INSERT INTO outbox` executes; the world it leaves
has two more calls and the transaction still open. -/
theorem updateTx_nil_iff (env : Env) (lib : Lib) (ctx : Context) (req : UpdateUserRequest)
    (u : User) (w : World) (hctx : ctx.txKey = none) :
    ((∃ w2, (NewUserUseCaseCommands env).updateTx lib ctx req u ⟨some ⟨w.step⟩⟩
        { w with openTx := some (⟨w.step⟩, []), trace := w.trace ++ [.Begin none] }
        = (w2, .returned none)) ↔
      (env.stmtErr (w.step + 1) = none ∧ (∃ r ∈ w.committed.users, r.ID = u.ID) ∧
        env.stmtErr (w.step + 2) = none)) ∧
    (∀ w2, (NewUserUseCaseCommands env).updateTx lib ctx req u ⟨some ⟨w.step⟩⟩
        { w with openTx := some (⟨w.step⟩, []), trace := w.trace ++ [.Begin none] }
        = (w2, .returned none) →
      w2.step = w.step + 3 ∧ (w2.pendingOf ⟨w.step⟩).isSome = true) := by
  have hdb : userCommandsRepo.db ctx = .pool := by simp [userCommandsRepo.db, hctx]
  simp only [userUseCaseCommands.updateTx, NewUserUseCaseCommands, NewUserCommandsRepo,
    NewOutboxCommandsRepo, userCommandsRepo.UpdateUser, hdb, driverFault,
    World.step, List.length_append, List.length_singleton]
  cases hs1 : env.stmtErr (w.trace.length + 1) with
  | some e => simp
  | none =>
    simp only [World.view]
    by_cases hrow : ((w.committed.users.filter (fun r => decide (r.ID = u.ID))).length = 0)
    · simp only [hrow, if_true]
      have hno : ¬ ∃ r ∈ w.committed.users, r.ID = u.ID := by
        rw [List.length_eq_zero, List.filter_eq_nil_iff] at hrow
        rintro ⟨r, hr, he⟩
        simpa [he] using hrow r hr
      simp [hno]
    · simp only [hrow, if_false]
      have hyes : ∃ r ∈ w.committed.users, r.ID = u.ID := by
        by_contra hno
        apply hrow
        rw [List.length_eq_zero, List.filter_eq_nil_iff]
        intro r hr
        simpa using fun e : r.ID = u.ID => hno ⟨r, hr, e⟩
      simp only [outboxCommandsRepo.AddEvent, outboxCommandsRepo.db, driverFault, World.step,
        World.log, World.write, World.pendingOf]
      cases hs2 : env.stmtErr (w.trace.length + 2) with
      | some e => simp [hs2]
      | none => simp [hs2, hyes]

/-- `UpdateUser`, called outside a transaction, returns nil exactly when the
id parses, the transaction begins, the `UPDATE` executes on an id that a row
carries, the `INSERT INTO outbox` executes and the commit succeeds. -/
theorem updateUser_nil_iff (env : Env) (lib : Lib) (ctx : Context) (req : UpdateUserRequest)
    (w : World) (hctx : ctx.txKey = none) :
    ((NewUserUseCaseCommands env).UpdateUser lib ctx req w).2 = .returned none ↔
      ((∃ id, lib.uuidParse req.ID = some id ∧ ∃ r ∈ w.committed.users, r.ID = id) ∧
        env.beginErr w.step = none ∧ env.stmtErr (w.step + 1) = none ∧
        env.stmtErr (w.step + 2) = none ∧ env.commitErr (w.step + 3) = none) := by
  cases hp : lib.uuidParse req.ID with
  | none => simp [userUseCaseCommands.UpdateUser, hp]
  | some id =>
    have hcmd : ((NewUserUseCaseCommands env).UpdateUser lib ctx req w).2 = .returned none ↔
        (transactionSupplier.BeginTx env ctx
          ((NewUserUseCaseCommands env).updateTx lib ctx req (req.toUser id)) w).2
            = .returned none := by
      have hrun : (NewUserUseCaseCommands env).transaction.BeginTx ctx
          ((NewUserUseCaseCommands env).updateTx lib ctx req (req.toUser id)) w =
          transactionSupplier.BeginTx env ctx
            ((NewUserUseCaseCommands env).updateTx lib ctx req (req.toUser id)) w := rfl
      simp only [userUseCaseCommands.UpdateUser, hp, hrun]
      cases transactionSupplier.BeginTx env ctx
          ((NewUserUseCaseCommands env).updateTx lib ctx req (req.toUser id)) w with
      | mk w1 r =>
        cases r with
        | panicked => simp
        | returned res =>
          cases res with
          | none => simp
          | some e => cases he : errorsIs e .ErrUserNotFound <;> simp [he]
    obtain ⟨hiff, hstep⟩ := updateTx_nil_iff env lib ctx req (req.toUser id) w hctx
    have hid : (req.toUser id).ID = id := rfl
    rw [hid] at hiff
    rw [hcmd, beginTx_nil_iff]
    constructor
    · rintro ⟨hb, w2, hfn, hc, _⟩
      obtain ⟨h1, h2, h3⟩ := hiff.mp ⟨w2, hfn⟩
      rw [(hstep w2 hfn).1] at hc
      exact ⟨⟨id, rfl, h2⟩, hb, h1, h3, hc⟩
    · rintro ⟨⟨id', hid', h2⟩, hb, h1, h3, hc⟩
      cases hid'
      obtain ⟨w2, hfn⟩ := hiff.mpr ⟨h1, h2, h3⟩
      refine ⟨hb, w2, hfn, ?_, (hstep w2 hfn).2⟩
      rw [(hstep w2 hfn).1]
      exact hc

/-- The closure of `CreateUser` right after the begin: it returns nil exactly
when the `INSERT INTO users` and the `INSERT INTO outbox` execute; the world it
leaves has two more calls, the transaction still open and the generated id in
`userID`. -/
theorem createTx_nil_iff (env : Env) (lib : Lib) (req : AddUserRequest) (u : User) (w : World) :
    ((∃ w2, (NewUserUseCaseCommands env).createTx lib req u ⟨some ⟨w.step⟩⟩
        { w with openTx := some (⟨w.step⟩, []), trace := w.trace ++ [.Begin none] }
        = (w2, .returned none)) ↔
      (env.stmtErr (w.step + 1) = none ∧ env.stmtErr (w.step + 2) = none)) ∧
    (∀ w2, (NewUserUseCaseCommands env).createTx lib req u ⟨some ⟨w.step⟩⟩
        { w with openTx := some (⟨w.step⟩, []), trace := w.trace ++ [.Begin none] }
        = (w2, .returned none) →
      w2.step = w.step + 3 ∧ (w2.pendingOf ⟨w.step⟩).isSome = true) := by
  simp only [userUseCaseCommands.createTx, NewUserUseCaseCommands, NewUserCommandsRepo,
    NewOutboxCommandsRepo, userCommandsRepo.SaveUser, userCommandsRepo.db, driverFault,
    World.step, List.length_append, List.length_singleton, World.pendingOf]
  cases hs1 : env.stmtErr (w.trace.length + 1) with
  | some e => cases hce : IsConflictErr e <;> simp [World.log, hce]
  | none =>
    simp only [outboxCommandsRepo.AddEvent, outboxCommandsRepo.db, driverFault, World.step,
      World.log, World.write, World.pendingOf]
    cases hs2 : env.stmtErr (w.trace.length + 2) with
    | some e => simp [hs2]
    | none => simp [hs2]

/-- `CreateUser` returns an id and nil exactly when the password is accepted
and hashed, the transaction begins, the `INSERT INTO users` and the
`INSERT INTO outbox` execute and the commit succeeds. -/
theorem createUser_nil_iff (env : Env) (lib : Lib) (ctx : Context) (req : AddUserRequest)
    (w : World) :
    (∃ id, ((NewUserUseCaseCommands env).CreateUser lib ctx req w).2 = .returned (id, none)) ↔
      (validatePassword lib req.Password = none ∧
        (∃ hashed, hashPassword lib req.Password = .ok hashed) ∧
        env.beginErr w.step = none ∧ env.stmtErr (w.step + 1) = none ∧
        env.stmtErr (w.step + 2) = none ∧ env.commitErr (w.step + 3) = none) := by
  cases hv : validatePassword lib req.Password with
  | some e => simp [userUseCaseCommands.CreateUser, hv]
  | none =>
    cases hh : hashPassword lib req.Password with
    | error e => simp [userUseCaseCommands.CreateUser, hv, hh]
    | ok hashed =>
      have hcmd : (∃ id, ((NewUserUseCaseCommands env).CreateUser lib ctx req w).2
            = .returned (id, none)) ↔
          (transactionSupplier.BeginTx env ctx
            ((NewUserUseCaseCommands env).createTx lib req (req.toUser hashed))
            { w with userID := "" }).2 = .returned none := by
        have hrun : (NewUserUseCaseCommands env).transaction.BeginTx ctx
            ((NewUserUseCaseCommands env).createTx lib req (req.toUser hashed))
            { w with userID := "" } =
            transactionSupplier.BeginTx env ctx
              ((NewUserUseCaseCommands env).createTx lib req (req.toUser hashed))
              { w with userID := "" } := rfl
        simp only [userUseCaseCommands.CreateUser, hv, hh, hrun]
        cases transactionSupplier.BeginTx env ctx
            ((NewUserUseCaseCommands env).createTx lib req (req.toUser hashed))
            { w with userID := "" } with
        | mk w1 r =>
          cases r with
          | panicked => simp
          | returned res =>
            cases res with
            | none => simp
            | some e => cases he : errorsIs e .ErrUserAlreadyExists <;> simp [he]
      obtain ⟨hiff, hstep⟩ :=
        createTx_nil_iff env lib req (req.toUser hashed) { w with userID := "" }
      have hst : ({ w with userID := "" } : World).step = w.step := rfl
      rw [hcmd, beginTx_nil_iff]
      simp only [hst] at hiff hstep ⊢
      constructor
      · rintro ⟨hb, w2, hfn, hc, _⟩
        obtain ⟨h1, h2⟩ := hiff.mp ⟨w2, hfn⟩
        rw [(hstep w2 hfn).1] at hc
        exact ⟨trivial, ⟨hashed, rfl⟩, hb, h1, h2, hc⟩
      · rintro ⟨_, _, hb, h1, h2, hc⟩
        obtain ⟨w2, hfn⟩ := hiff.mpr ⟨h1, h2⟩
        refine ⟨hb, w2, hfn, ?_, (hstep w2 hfn).2⟩
        rw [(hstep w2 hfn).1]
        exact hc

/-- C5.  On the PostgreSQL stores and transaction supplier, for every outside
world and starting state.  `CreateUser` returns success exactly when the
password is accepted and hashed, the transaction begins, the two `INSERT`s
execute and the commit succeeds; `UpdateUser` and `DeleteUser`, called outside
a transaction, return success exactly when the id parses and a row carries it,
the transaction begins, the `UPDATE` or `DELETE` and the `INSERT INTO outbox`
execute and the commit succeeds.  A call that returns success, in any
context, made exactly the calls begin, the user-store mutation, one
`AddEvent`, commit; the event given to that one `AddEvent` has type
`CreateUser`, `UpdateUser` or `DeleteUser` and for payload the JSON object
with the keys `first_name, last_name, nickname, email, country` (create),
`id, first_name, last_name, nickname, email, country` (update) or `ID`
(delete) and the values of the request. -/
theorem commands_emit_one_event (env : Env) (lib : Lib) (ctx : Context) (w : World) :
    (∀ req,
      ((∃ id, ((NewUserUseCaseCommands env).CreateUser lib ctx req w).2 = .returned (id, none)) ↔
        (validatePassword lib req.Password = none ∧
          (∃ hashed, hashPassword lib req.Password = .ok hashed) ∧
          env.beginErr w.step = none ∧ env.stmtErr (w.step + 1) = none ∧
          env.stmtErr (w.step + 2) = none ∧ env.commitErr (w.step + 3) = none)) ∧
      (∀ id, ((NewUserUseCaseCommands env).CreateUser lib ctx req w).2 = .returned (id, none) →
        ∃ u eid calls,
          ((NewUserUseCaseCommands env).CreateUser lib ctx req w).1.trace = w.trace ++ calls ∧
          calls = [.Begin none, .SaveUser (.tx ⟨w.step⟩) u id none,
            .AddEvent (.tx ⟨w.step⟩) ⟨UUID.Nil, "CreateUser",
              jsonObject lib [("first_name", req.FirstName), ("last_name", req.LastName),
                ("nickname", req.NickName), ("email", req.Email),
                ("country", req.CountryISOCode)]⟩ eid none,
            .Commit none] ∧
          calls.filter Call.isAddEvent =
            [.AddEvent (.tx ⟨w.step⟩) ⟨UUID.Nil, "CreateUser",
              jsonObject lib [("first_name", req.FirstName), ("last_name", req.LastName),
                ("nickname", req.NickName), ("email", req.Email),
                ("country", req.CountryISOCode)]⟩ eid none])) ∧
    (∀ req,
      (ctx.txKey = none →
        (((NewUserUseCaseCommands env).UpdateUser lib ctx req w).2 = .returned none ↔
          ((∃ id, lib.uuidParse req.ID = some id ∧ ∃ r ∈ w.committed.users, r.ID = id) ∧
            env.beginErr w.step = none ∧ env.stmtErr (w.step + 1) = none ∧
            env.stmtErr (w.step + 2) = none ∧ env.commitErr (w.step + 3) = none))) ∧
      (((NewUserUseCaseCommands env).UpdateUser lib ctx req w).2 = .returned none →
        ∃ u eid calls,
          ((NewUserUseCaseCommands env).UpdateUser lib ctx req w).1.trace = w.trace ++ calls ∧
          calls = [.Begin none, .UpdateUser (userCommandsRepo.db ctx) u none,
            .AddEvent (.tx ⟨w.step⟩) ⟨UUID.Nil, "UpdateUser",
              jsonObject lib [("id", req.ID), ("first_name", req.FirstName),
                ("last_name", req.LastName), ("nickname", req.NickName), ("email", req.Email),
                ("country", req.CountryISOCode)]⟩ eid none,
            .Commit none] ∧
          calls.filter Call.isAddEvent =
            [.AddEvent (.tx ⟨w.step⟩) ⟨UUID.Nil, "UpdateUser",
              jsonObject lib [("id", req.ID), ("first_name", req.FirstName),
                ("last_name", req.LastName), ("nickname", req.NickName), ("email", req.Email),
                ("country", req.CountryISOCode)]⟩ eid none])) ∧
    (∀ userID,
      (ctx.txKey = none →
        (((NewUserUseCaseCommands env).DeleteUser lib ctx userID w).2 = .returned none ↔
          ((∃ id, lib.uuidParse userID = some id) ∧ env.beginErr w.step = none ∧
            env.stmtErr (w.step + 1) = none ∧
            (∃ u, env.uuidIn userID = some u ∧ ∃ r ∈ w.committed.users, r.ID = u) ∧
            env.stmtErr (w.step + 2) = none ∧ env.commitErr (w.step + 3) = none))) ∧
      (((NewUserUseCaseCommands env).DeleteUser lib ctx userID w).2 = .returned none →
        ∃ eid calls,
          ((NewUserUseCaseCommands env).DeleteUser lib ctx userID w).1.trace = w.trace ++ calls ∧
          calls = [.Begin none, .DeleteUser (userCommandsRepo.db ctx) userID none,
            .AddEvent (.tx ⟨w.step⟩) ⟨UUID.Nil, "DeleteUser", jsonObject lib [("ID", userID)]⟩
              eid none,
            .Commit none] ∧
          calls.filter Call.isAddEvent =
            [.AddEvent (.tx ⟨w.step⟩) ⟨UUID.Nil, "DeleteUser", jsonObject lib [("ID", userID)]⟩
              eid none])) := by
  refine ⟨?_, ?_, ?_⟩
  · intro req
    refine ⟨createUser_nil_iff env lib ctx req w, ?_⟩
    intro id hrun
    cases hv : validatePassword lib req.Password with
    | some e =>
      simp only [userUseCaseCommands.CreateUser, hv] at hrun
      simp at hrun
    | none =>
      cases hh : hashPassword lib req.Password with
      | error e =>
        simp only [userUseCaseCommands.CreateUser, hv, hh] at hrun
        simp at hrun
      | ok hashed =>
        rcases createUser_run env lib ctx req w hashed hv hh with
          ⟨e, r, _, h2, _⟩ | ⟨e, rb, r, _, h2, _⟩ | ⟨i, rb, r, _, h2, _⟩ | ⟨i, eid, c, h1, hc⟩
        · rw [hrun] at h2; simp at h2
        · rw [hrun] at h2; simp at h2
        · rw [hrun] at h2; simp at h2
        · rcases hc with ⟨rfl, h2⟩ | ⟨_, r, h2, _⟩
          · rw [hrun] at h2
            simp only [Outcome.returned.injEq, Prod.mk.injEq, and_true] at h2
            subst h2
            exact ⟨_, eid, _, h1, rfl, rfl⟩
          · rw [hrun] at h2; simp at h2
  · intro req
    refine ⟨updateUser_nil_iff env lib ctx req w, ?_⟩
    intro hrun
    cases hp : lib.uuidParse req.ID with
    | none =>
      simp only [userUseCaseCommands.UpdateUser, hp] at hrun
      simp at hrun
    | some id =>
      rcases updateUser_run env lib ctx req w id hp with
        ⟨e, r, _, h2⟩ | ⟨e, rb, _, h2⟩ | ⟨rb, r, _, h2⟩ | ⟨eid, c, h1, hc⟩
      · rw [hrun] at h2; simp at h2
      · rw [hrun] at h2; simp at h2
      · rw [hrun] at h2; simp at h2
      · rcases hc with ⟨rfl, _⟩ | ⟨_, r, h2⟩
        · exact ⟨_, eid, _, h1, rfl, rfl⟩
        · rw [hrun] at h2; simp at h2
  · intro userID
    refine ⟨deleteUser_nil_iff env lib ctx userID w, ?_⟩
    intro hrun
    cases hp : lib.uuidParse userID with
    | none =>
      simp only [userUseCaseCommands.DeleteUser, hp] at hrun
      simp at hrun
    | some id =>
      rcases deleteUser_run env lib ctx userID w id hp with
        ⟨e, r, _, h2⟩ | ⟨e, rb, _, h2⟩ | ⟨rb, r, _, h2⟩ | ⟨eid, c, h1, hc⟩
      · rw [hrun] at h2; simp at h2
      · rw [hrun] at h2; simp at h2
      · rw [hrun] at h2; simp at h2
      · rcases hc with ⟨rfl, _⟩ | ⟨_, r, h2⟩
        · exact ⟨eid, _, h1, rfl, rfl⟩
        · rw [hrun] at h2; simp at h2

/-- C6.  On the PostgreSQL stores and transaction supplier, for every outside
world and starting state: in a run of `CreateUser`, `UpdateUser` or
`DeleteUser` in which the user-store mutation (`SaveUser`, `UpdateUser`,
`DeleteUser`) returned an error, no `AddEvent` call is made.  In particular,
for `UpdateUser` on an id that parses and that no user row carries, called
outside a transaction, once the transaction is begun and the `UPDATE`
statement executes: the calls are begin, the store's `UpdateUser` returning
`ErrUserNotFound`, and rollback; the result is `ErrUserNotFound` itself when
the rollback succeeds and an error that `errors.Is` `ErrUserNotFound` when it
fails; the committed tables are unchanged, so no outbox row is appended. -/
theorem failed_mutation_adds_no_event (env : Env) (lib : Lib) (ctx : Context) (w : World)
    (calls : List Call) :
    (∀ req, ((NewUserUseCaseCommands env).CreateUser lib ctx req w).1.trace = w.trace ++ calls →
      (∃ c ∈ calls, c.isUserMutation = true ∧ c.res ≠ none) →
      ∀ c ∈ calls, c.isAddEvent = false) ∧
    (∀ req, ((NewUserUseCaseCommands env).UpdateUser lib ctx req w).1.trace = w.trace ++ calls →
      (∃ c ∈ calls, c.isUserMutation = true ∧ c.res ≠ none) →
      ∀ c ∈ calls, c.isAddEvent = false) ∧
    (∀ userID,
      ((NewUserUseCaseCommands env).DeleteUser lib ctx userID w).1.trace = w.trace ++ calls →
      (∃ c ∈ calls, c.isUserMutation = true ∧ c.res ≠ none) →
      ∀ c ∈ calls, c.isAddEvent = false) ∧
    (∀ req id, lib.uuidParse req.ID = some id → ctx.txKey = none →
      (∀ r ∈ w.committed.users, r.ID ≠ id) →
      env.beginErr w.step = none → env.stmtErr (w.step + 1) = none →
      ∃ rb,
        ((NewUserUseCaseCommands env).UpdateUser lib ctx req w).1.trace =
          w.trace ++ [.Begin none, .UpdateUser .pool (req.toUser id) (some .ErrUserNotFound),
            .Rollback rb] ∧
        ((NewUserUseCaseCommands env).UpdateUser lib ctx req w).2 =
          .returned (some (afterRollback rb .ErrUserNotFound)) ∧
        errorsIs (afterRollback rb .ErrUserNotFound) .ErrUserNotFound = true ∧
        ((NewUserUseCaseCommands env).UpdateUser lib ctx req w).1.committed = w.committed) := by
  refine ⟨?_, ?_, ?_, ?_⟩
  · intro req ht hfail
    obtain ⟨cf, hcf, hmut, hres⟩ := hfail
    cases hv : validatePassword lib req.Password with
    | some e =>
      simp only [userUseCaseCommands.CreateUser, hv] at ht
      have : calls = [] := by simpa using ht
      subst this
      simp at hcf
    | none =>
      cases hh : hashPassword lib req.Password with
      | error e =>
        simp only [userUseCaseCommands.CreateUser, hv, hh] at ht
        have : calls = [] := by simpa using ht
        subst this
        simp at hcf
      | ok hashed =>
        rcases createUser_run env lib ctx req w hashed hv hh with
          ⟨e, r, h1, _, _⟩ | ⟨e, rb, r, h1, _, _⟩ | ⟨i, rb, r, h1, _, _⟩ | ⟨i, eid, c, h1, _⟩
        all_goals
          have hcalls := List.append_cancel_left (ht.symm.trans h1)
          subst hcalls
          simp only [List.mem_cons, List.mem_singleton, List.not_mem_nil, or_false] at hcf
        · intro c hc
          simp only [List.mem_singleton] at hc
          subst hc; rfl
        · intro c hc
          simp only [List.mem_cons, List.mem_singleton, List.not_mem_nil, or_false] at hc
          rcases hc with rfl | rfl | rfl <;> rfl
        · rcases hcf with rfl | rfl | rfl | rfl <;>
            simp [Call.isUserMutation, Call.res] at hmut hres
        · rcases hcf with rfl | rfl | rfl | rfl <;>
            simp [Call.isUserMutation, Call.res] at hmut hres
  · intro req ht hfail
    obtain ⟨cf, hcf, hmut, hres⟩ := hfail
    cases hp : lib.uuidParse req.ID with
    | none =>
      simp only [userUseCaseCommands.UpdateUser, hp] at ht
      have : calls = [] := by simpa using ht
      subst this
      simp at hcf
    | some id =>
      rcases updateUser_run env lib ctx req w id hp with
        ⟨e, r, h1, _⟩ | ⟨e, rb, h1, _⟩ | ⟨rb, r, h1, _⟩ | ⟨eid, c, h1, _⟩
      all_goals
        have hcalls := List.append_cancel_left (ht.symm.trans h1)
        subst hcalls
        simp only [List.mem_cons, List.mem_singleton, List.not_mem_nil, or_false] at hcf
      · intro c hc
        simp only [List.mem_singleton] at hc
        subst hc; rfl
      · intro c hc
        simp only [List.mem_cons, List.mem_singleton, List.not_mem_nil, or_false] at hc
        rcases hc with rfl | rfl | rfl <;> rfl
      · rcases hcf with rfl | rfl | rfl | rfl <;>
          simp [Call.isUserMutation, Call.res] at hmut hres
      · rcases hcf with rfl | rfl | rfl | rfl <;>
          simp [Call.isUserMutation, Call.res] at hmut hres
  · intro userID ht hfail
    obtain ⟨cf, hcf, hmut, hres⟩ := hfail
    cases hp : lib.uuidParse userID with
    | none =>
      simp only [userUseCaseCommands.DeleteUser, hp] at ht
      have : calls = [] := by simpa using ht
      subst this
      simp at hcf
    | some id =>
      rcases deleteUser_run env lib ctx userID w id hp with
        ⟨e, r, h1, _⟩ | ⟨e, rb, h1, _⟩ | ⟨rb, r, h1, _⟩ | ⟨eid, c, h1, _⟩
      all_goals
        have hcalls := List.append_cancel_left (ht.symm.trans h1)
        subst hcalls
        simp only [List.mem_cons, List.mem_singleton, List.not_mem_nil, or_false] at hcf
      · intro c hc
        simp only [List.mem_singleton] at hc
        subst hc; rfl
      · intro c hc
        simp only [List.mem_cons, List.mem_singleton, List.not_mem_nil, or_false] at hc
        rcases hc with rfl | rfl | rfl <;> rfl
      · rcases hcf with rfl | rfl | rfl | rfl <;>
          simp [Call.isUserMutation, Call.res] at hmut hres
      · rcases hcf with rfl | rfl | rfl | rfl <;>
          simp [Call.isUserMutation, Call.res] at hmut hres
  · intro req id hp hctx habsent hb hs
    have hdb : userCommandsRepo.db ctx = .pool := by simp [userCommandsRepo.db, hctx]
    have hzero : ((w.committed.users.filter (fun r => decide (r.ID = id))).length = 0) := by
      rw [List.length_eq_zero, List.filter_eq_nil_iff]
      intro r hr
      simpa using habsent r hr
    have hr : (NewUserUseCaseCommands env).updateTx lib ctx req (req.toUser id) ⟨some ⟨w.step⟩⟩
        { w with openTx := some (⟨w.step⟩, []), trace := w.trace ++ [.Begin none] } =
        (({ w with openTx := some (⟨w.step⟩, []), trace := w.trace ++ [.Begin none] } : World).log
            (.UpdateUser .pool (req.toUser id) (some .ErrUserNotFound)),
          .returned (some .ErrUserNotFound)) := by
      have hstore : (NewUserUseCaseCommands env).repo.UpdateUser ctx (req.toUser id)
          { w with openTx := some (⟨w.step⟩, []), trace := w.trace ++ [.Begin none] } =
          (({ w with openTx := some (⟨w.step⟩, []), trace := w.trace ++ [.Begin none] }
              : World).log (.UpdateUser .pool (req.toUser id) (some .ErrUserNotFound)),
            some .ErrUserNotFound) := by
        have hs' : env.stmtErr (w.trace.length + 1) = none := hs
        have hid : (req.toUser id).ID = id := rfl
        simp [NewUserUseCaseCommands, NewUserCommandsRepo, userCommandsRepo.UpdateUser, hdb,
          driverFault, World.step, hs', World.view, hid, hzero]
      simp only [userUseCaseCommands.updateTx, hstore]
    obtain ⟨rb, hrun⟩ := beginTx_of_error env ctx _ w _ _ hb hr
    have his : errorsIs (afterRollback rb .ErrUserNotFound) .ErrUserNotFound = true :=
      errorsIs_afterRollback rb _ _ (errorsIs_self _)
    have hcmd : (NewUserUseCaseCommands env).UpdateUser lib ctx req w =
        ((({ w with openTx := some (⟨w.step⟩, []), trace := w.trace ++ [.Begin none] }
            : World).log (.UpdateUser .pool (req.toUser id) (some .ErrUserNotFound))).discard
              ⟨w.step⟩ |>.log (.Rollback rb),
          .returned (some (afterRollback rb .ErrUserNotFound))) := by
      have hrun' : (NewUserUseCaseCommands env).transaction.BeginTx ctx
          ((NewUserUseCaseCommands env).updateTx lib ctx req (req.toUser id)) w = _ := hrun
      simp only [userUseCaseCommands.UpdateUser, hp, hrun', his]
      simp
    refine ⟨rb, ?_, ?_, his, ?_⟩
    · rw [hcmd]; simp [World.log, World.discard, World.pendingOf]
    · rw [hcmd]
    · rw [hcmd]; simp [World.log, World.discard, World.pendingOf]

/-- Witness for C5: with nothing failing, on the world that holds the stored
user, each of the three commands returns success after begin, its mutation, one
`AddEvent` with its type and payload, and commit: `CreateUser` on the create
request of the tests, `UpdateUser` on the rename of the stored user,
`DeleteUser` on the id of the stored user. -/
theorem commands_emit_one_event_witness :
    ((NewUserUseCaseCommands quietEnv).CreateUser plainLib Context.Background exampleAddUserReq
        userWorld).2 = .returned ("0d913f6a-497b-4305-b3d1-3f53657e3a27", none) ∧
    (∃ id, ((NewUserUseCaseCommands quietEnv).CreateUser plainLib Context.Background
        exampleAddUserReq userWorld).2 = .returned (id, none)) ∧
    (∃ u eid calls,
      ((NewUserUseCaseCommands quietEnv).CreateUser plainLib Context.Background exampleAddUserReq
        userWorld).1.trace = userWorld.trace ++ calls ∧
      calls = [.Begin none,
          .SaveUser (.tx ⟨userWorld.step⟩) u "0d913f6a-497b-4305-b3d1-3f53657e3a27" none,
          .AddEvent (.tx ⟨userWorld.step⟩) ⟨UUID.Nil, "CreateUser",
            jsonObject plainLib [("first_name", "first"), ("last_name", "last"),
              ("nickname", "nick"), ("email", "email@email.pt"), ("country", "UK")]⟩ eid none,
          .Commit none] ∧
      calls.filter Call.isAddEvent =
        [.AddEvent (.tx ⟨userWorld.step⟩) ⟨UUID.Nil, "CreateUser",
          jsonObject plainLib [("first_name", "first"), ("last_name", "last"),
            ("nickname", "nick"), ("email", "email@email.pt"), ("country", "UK")]⟩ eid none]) ∧
    ((NewUserUseCaseCommands quietEnv).UpdateUser plainLib Context.Background renameReq
        userWorld).2 = .returned none ∧
    (∃ u eid calls,
      ((NewUserUseCaseCommands quietEnv).UpdateUser plainLib Context.Background renameReq
        userWorld).1.trace = userWorld.trace ++ calls ∧
      calls = [.Begin none, .UpdateUser (userCommandsRepo.db Context.Background) u none,
          .AddEvent (.tx ⟨userWorld.step⟩) ⟨UUID.Nil, "UpdateUser",
            jsonObject plainLib [("id", expectedUserID), ("first_name", "renamed"),
              ("last_name", "last"), ("nickname", "nick"), ("email", "email@email.pt"),
              ("country", "UK")]⟩ eid none,
          .Commit none] ∧
      calls.filter Call.isAddEvent =
        [.AddEvent (.tx ⟨userWorld.step⟩) ⟨UUID.Nil, "UpdateUser",
          jsonObject plainLib [("id", expectedUserID), ("first_name", "renamed"),
            ("last_name", "last"), ("nickname", "nick"), ("email", "email@email.pt"),
            ("country", "UK")]⟩ eid none]) ∧
    ((NewUserUseCaseCommands quietEnv).DeleteUser plainLib Context.Background expectedUserID
        userWorld).2 = .returned none ∧
    ∃ eid calls,
      ((NewUserUseCaseCommands quietEnv).DeleteUser plainLib Context.Background expectedUserID
        userWorld).1.trace = userWorld.trace ++ calls ∧
      calls = [.Begin none, .DeleteUser (userCommandsRepo.db Context.Background) expectedUserID none,
          .AddEvent (.tx ⟨userWorld.step⟩)
            ⟨UUID.Nil, "DeleteUser", jsonObject plainLib [("ID", expectedUserID)]⟩ eid none,
          .Commit none] ∧
      calls.filter Call.isAddEvent =
        [.AddEvent (.tx ⟨userWorld.step⟩)
          ⟨UUID.Nil, "DeleteUser", jsonObject plainLib [("ID", expectedUserID)]⟩ eid none] :=
  have h := commands_emit_one_event quietEnv plainLib Context.Background userWorld
  ⟨rfl,
    ((h.1 exampleAddUserReq).1).mpr ⟨by decide, ⟨_, rfl⟩, rfl, rfl, rfl, rfl⟩,
    (h.1 exampleAddUserReq).2 _ rfl,
    ((h.2.1 renameReq).1 rfl).mpr
      ⟨⟨⟨expectedUserID⟩, by decide, storedUser, by decide, rfl⟩, rfl, rfl, rfl, rfl⟩,
    (h.2.1 renameReq).2 (((h.2.1 renameReq).1 rfl).mpr
      ⟨⟨⟨expectedUserID⟩, by decide, storedUser, by decide, rfl⟩, rfl, rfl, rfl, rfl⟩),
    ((h.2.2 expectedUserID).1 rfl).mpr
      ⟨⟨⟨expectedUserID⟩, by decide⟩, rfl, rfl, ⟨⟨expectedUserID⟩, rfl, storedUser, by decide, rfl⟩,
        rfl, rfl⟩,
    (h.2.2 expectedUserID).2 (((h.2.2 expectedUserID).1 rfl).mpr
      ⟨⟨⟨expectedUserID⟩, by decide⟩, rfl, rfl, ⟨⟨expectedUserID⟩, rfl, storedUser, by decide, rfl⟩,
        rfl, rfl⟩)⟩

/-- Witness for C6: updating an id that no row carries, with nothing failing,
returns `ErrUserNotFound` after begin, the store's `UpdateUser` and rollback,
the tables unchanged. -/
theorem failed_mutation_adds_no_event_witness :
    plainLib.uuidParse exampleUpdateUserReq.ID = some ⟨expectedUserID⟩ ∧
    Context.Background.txKey = none ∧
    (∀ r ∈ emptyWorld.committed.users, r.ID ≠ ⟨expectedUserID⟩) ∧
    quietEnv.beginErr emptyWorld.step = none ∧
    quietEnv.stmtErr (emptyWorld.step + 1) = none ∧
    ∃ rb,
      ((NewUserUseCaseCommands quietEnv).UpdateUser plainLib Context.Background
          exampleUpdateUserReq emptyWorld).1.trace =
        emptyWorld.trace ++ [.Begin none,
          .UpdateUser .pool (exampleUpdateUserReq.toUser ⟨expectedUserID⟩)
            (some .ErrUserNotFound),
          .Rollback rb] ∧
      ((NewUserUseCaseCommands quietEnv).UpdateUser plainLib Context.Background
          exampleUpdateUserReq emptyWorld).2 =
        .returned (some (afterRollback rb .ErrUserNotFound)) ∧
      errorsIs (afterRollback rb .ErrUserNotFound) .ErrUserNotFound = true ∧
      ((NewUserUseCaseCommands quietEnv).UpdateUser plainLib Context.Background
          exampleUpdateUserReq emptyWorld).1.committed = emptyWorld.committed :=
  ⟨by decide, rfl, by decide, rfl, rfl,
    (failed_mutation_adds_no_event quietEnv plainLib Context.Background emptyWorld []).2.2.2
      exampleUpdateUserReq ⟨expectedUserID⟩ (by decide) rfl (by decide) rfl rfl⟩

/-- C4 fails on the code for `DeleteUser` and `UpdateUser`.  With the stored
user present and the insert into the outbox failing: the store's mutation
runs on the pool, not on the transaction handle that `AddEvent` uses; the
command returns `ErrInternal` after a rollback; and the committed user table
is changed all the same (the user is deleted, respectively renamed) while the
outbox has no row.  The same happens to `DeleteUser` when the commit
fails. -/
theorem mutation_runs_outside_transaction :
    ((NewUserUseCaseCommands eventFailsEnv).DeleteUser plainLib Context.Background
        expectedUserID userWorld).1.trace =
      [.Begin none, .DeleteUser .pool expectedUserID none,
       .AddEvent (.tx ⟨0⟩) deleteEvent "" (some .ErrInternal), .Rollback none] ∧
    ((NewUserUseCaseCommands eventFailsEnv).DeleteUser plainLib Context.Background
        expectedUserID userWorld).2 = .returned (some .ErrInternal) ∧
    userWorld.committed = ⟨[storedUser], []⟩ ∧
    ((NewUserUseCaseCommands eventFailsEnv).DeleteUser plainLib Context.Background
        expectedUserID userWorld).1.committed = ⟨[], []⟩ ∧
    ((NewUserUseCaseCommands eventFailsEnv).UpdateUser plainLib Context.Background
        renameReq userWorld).1.trace =
      [.Begin none, .UpdateUser .pool (renameReq.toUser ⟨expectedUserID⟩) none,
       .AddEvent (.tx ⟨0⟩) renameEvent "" (some .ErrInternal), .Rollback none] ∧
    ((NewUserUseCaseCommands eventFailsEnv).UpdateUser plainLib Context.Background
        renameReq userWorld).2 = .returned (some .ErrInternal) ∧
    ((NewUserUseCaseCommands eventFailsEnv).UpdateUser plainLib Context.Background
        renameReq userWorld).1.committed = ⟨[{ storedUser with FirstName := "renamed" }], []⟩ ∧
    ((NewUserUseCaseCommands brokenCommitEnv).DeleteUser plainLib Context.Background
        expectedUserID userWorld).2 = .returned (some .ErrInternal) ∧
    ((NewUserUseCaseCommands brokenCommitEnv).DeleteUser plainLib Context.Background
        expectedUserID userWorld).1.committed = ⟨[], []⟩ := by
  decide

/-- The part of C4 that holds.  On the PostgreSQL stores and transaction
supplier, `CreateUser` runs `SaveUser` and `AddEvent` on the handle of the
transaction it began (see the calls in `commands_emit_one_event`), and
whenever it returns an error (a failed begin, `SaveUser`, `AddEvent`, commit
or a rejected password) the committed tables are what they were. -/
theorem createUser_failure_leaves_tables (env : Env) (lib : Lib) (ctx : Context)
    (req : AddUserRequest) (w : World) (id : String) (r : GoError)
    (hres : ((NewUserUseCaseCommands env).CreateUser lib ctx req w).2
      = .returned (id, some r)) :
    ((NewUserUseCaseCommands env).CreateUser lib ctx req w).1.committed = w.committed := by
  cases hv : validatePassword lib req.Password with
  | some e => simp only [userUseCaseCommands.CreateUser, hv]
  | none =>
    cases hh : hashPassword lib req.Password with
    | error e => simp only [userUseCaseCommands.CreateUser, hv, hh]
    | ok hashed =>
      rcases createUser_run env lib ctx req w hashed hv hh with
        ⟨_, _, _, _, h3⟩ | ⟨_, _, _, _, _, h3⟩ | ⟨_, _, _, _, _, h3⟩ | ⟨_, _, c, _, hc⟩
      · exact h3
      · exact h3
      · exact h3
      · rcases hc with ⟨_, h2⟩ | ⟨_, _, _, h3⟩
        · rw [hres] at h2; simp at h2
        · exact h3

/-- An instance of `createUser_failure_leaves_tables`: the insert into the
outbox fails and the user table stays empty. -/
theorem createUser_failure_leaves_tables_witness :
    ((NewUserUseCaseCommands eventFailsEnv).CreateUser plainLib Context.Background
        exampleAddUserReq emptyWorld).2 = .returned ("", some .ErrInternal) ∧
    ((NewUserUseCaseCommands eventFailsEnv).CreateUser plainLib Context.Background
        exampleAddUserReq emptyWorld).1.committed = emptyWorld.committed :=
  ⟨rfl, createUser_failure_leaves_tables eventFailsEnv plainLib Context.Background
    exampleAddUserReq emptyWorld "" .ErrInternal rfl⟩

/-! ## Input validation: user ids and passwords -/

/-- C11.  For any transaction, stores and starting state: when `uuid.Parse`
rejects the id, `DeleteUser` and `UpdateUser` return `ErrInvalidUserID` and
leave the world exactly as it was: no transaction is begun, no store is
called. -/
theorem invalid_id_is_rejected (uc : userUseCaseCommands) (lib : Lib) (ctx : Context)
    (w : World) :
    (∀ userID, lib.uuidParse userID = none →
      uc.DeleteUser lib ctx userID w = (w, .returned (some .ErrInvalidUserID))) ∧
    (∀ req : UpdateUserRequest, lib.uuidParse req.ID = none →
      uc.UpdateUser lib ctx req w = (w, .returned (some .ErrInvalidUserID))) := by
  constructor
  · intro userID h
    simp only [userUseCaseCommands.DeleteUser, h]
  · intro req h
    simp only [userUseCaseCommands.UpdateUser, h]

/-- Witness for C11: the ids `expectedUserID` and `invalid` of the repository
tests do not parse and are rejected on an untouched world. -/
theorem invalid_id_is_rejected_witness :
    plainLib.uuidParse "expectedUserID" = none ∧
    (NewUserUseCaseCommands quietEnv).DeleteUser plainLib Context.Background "expectedUserID"
        userWorld = (userWorld, .returned (some .ErrInvalidUserID)) ∧
    (NewUserUseCaseCommands quietEnv).UpdateUser plainLib Context.Background
        { exampleUpdateUserReq with ID := "invalid" } userWorld
      = (userWorld, .returned (some .ErrInvalidUserID)) :=
  ⟨by decide,
    (invalid_id_is_rejected (NewUserUseCaseCommands quietEnv) plainLib Context.Background
      userWorld).1 "expectedUserID" (by decide),
    (invalid_id_is_rejected (NewUserUseCaseCommands quietEnv) plainLib Context.Background
      userWorld).2 { exampleUpdateUserReq with ID := "invalid" } (by decide)⟩

/-- The two flags of `validatePassword` after the loop, from any starting
values. -/
theorem validatePassword_flags (lib : Lib) (l : List Char) :
    ∀ acc : Bool × Bool,
      l.foldl
        (fun (acc : Bool × Bool) char =>
          if lib.IsLetter char then (true, acc.2)
          else if lib.IsDigit char then (acc.1, true)
          else acc) acc =
      (acc.1 || l.any lib.IsLetter,
        acc.2 || l.any (fun c => !lib.IsLetter c && lib.IsDigit c)) := by
  induction l with
  | nil => intro acc; simp
  | cons c cs ih =>
    intro acc
    simp only [List.foldl_cons, List.any_cons]
    rw [ih]
    cases hl : lib.IsLetter c <;> cases hd : lib.IsDigit c <;> simp

/-- C12.  With letters and digits disjoint, as the Unicode categories behind
`unicode.IsLetter` and `unicode.IsDigit` are: `validatePassword` returns nil
if and only if the password has at least six bytes (`len`), contains a letter
and contains a digit; in every other case it returns `ErrInvalidPW`. -/
theorem validatePassword_spec (lib : Lib) (password : String)
    (hdisj : ∀ c, lib.IsLetter c = true → lib.IsDigit c = false) :
    (validatePassword lib password = none ↔
      6 ≤ password.utf8ByteSize ∧ (∃ c ∈ password.toList, lib.IsLetter c = true) ∧
        (∃ c ∈ password.toList, lib.IsDigit c = true)) ∧
    (validatePassword lib password ≠ none →
      validatePassword lib password = some .ErrInvalidPW) := by
  have hdig : password.toList.any (fun c => !lib.IsLetter c && lib.IsDigit c) = true ↔
      ∃ c ∈ password.toList, lib.IsDigit c = true := by
    simp only [List.any_eq_true, Bool.and_eq_true, Bool.not_eq_true']
    constructor
    · rintro ⟨c, hc, _, hd⟩; exact ⟨c, hc, hd⟩
    · rintro ⟨c, hc, hd⟩
      refine ⟨c, hc, ?_, hd⟩
      cases hl : lib.IsLetter c
      · rfl
      · rw [hdisj c hl] at hd; cases hd
  have hlet : password.toList.any lib.IsLetter = true ↔
      ∃ c ∈ password.toList, lib.IsLetter c = true := by
    simp only [List.any_eq_true]
  constructor
  · unfold validatePassword
    simp only [validatePassword_flags, Bool.false_or]
    rw [← hlet, ← hdig]
    cases password.toList.any lib.IsLetter <;>
      cases password.toList.any (fun c => !lib.IsLetter c && lib.IsDigit c) <;>
      simp
  · intro h
    cases hv : validatePassword lib password with
    | none => exact absurd hv h
    | some e => rw [validatePassword_error lib password e hv]

/-- ASCII letters are not ASCII digits. -/
theorem plainLib_disjoint (c : Char) (h : plainLib.IsLetter c = true) :
    plainLib.IsDigit c = false := by
  simp only [plainLib, Char.isAlpha, Char.isUpper, Char.isLower, Char.isDigit, Bool.or_eq_true,
    Bool.and_eq_true, decide_eq_true_eq] at h ⊢
  simp only [Bool.and_eq_false_imp, decide_eq_true_eq, decide_eq_false_iff_not]
  intro _ h2
  rcases h with ⟨h, _⟩ | ⟨h, _⟩
  · exact absurd (UInt32.le_trans h h2) (by decide)
  · exact absurd (UInt32.le_trans h h2) (by decide)

/-- Witness for C12: the four passwords of the repository test. -/
theorem validatePassword_spec_witness :
    (∀ c, plainLib.IsLetter c = true → plainLib.IsDigit c = false) ∧
    validatePassword plainLib "Password1!" = none ∧
    validatePassword plainLib "P1234" = some .ErrInvalidPW ∧
    validatePassword plainLib "Password!" = some .ErrInvalidPW ∧
    validatePassword plainLib "1234567" = some .ErrInvalidPW ∧
    (6 ≤ "Password1!".utf8ByteSize ∧ (∃ c ∈ "Password1!".toList, plainLib.IsLetter c = true) ∧
      (∃ c ∈ "Password1!".toList, plainLib.IsDigit c = true)) :=
  ⟨plainLib_disjoint, by decide, by decide, by decide, by decide,
    (validatePassword_spec plainLib "Password1!" plainLib_disjoint).1.1 (by decide)⟩

/-! ## Pagination cursors -/

/-- A text without the separator is a single piece. -/
theorem splitChars_of_not_mem (sep : Char) (cs : List Char) (h : sep ∉ cs) :
    splitChars sep cs = [cs] := by
  induction cs with
  | nil => rfl
  | cons c cs ih =>
    have hc : c ≠ sep := fun e => h (by simp [e])
    have hcs : sep ∉ cs := fun e => h (by simp [e])
    simp only [splitChars, hc, if_false, ih hcs]

/-- Splitting `a`, the separator, `b`, when `a` holds no separator: `a`
first, then the pieces of `b`. -/
theorem splitChars_append (sep : Char) (a b : List Char) (h : sep ∉ a) :
    splitChars sep (a ++ sep :: b) = a :: splitChars sep b := by
  induction a with
  | nil => simp [splitChars]
  | cons c cs ih =>
    have hc : c ≠ sep := fun e => h (by simp [e])
    have hcs : sep ∉ cs := fun e => h (by simp [e])
    rw [List.cons_append]
    simp only [splitChars, hc, if_false]
    rw [ih hcs]

/-- No piece of a split holds the separator. -/
theorem splitChars_pieces (sep : Char) (cs : List Char) :
    ∀ piece ∈ splitChars sep cs, sep ∉ piece := by
  induction cs with
  | nil => intro piece hp; simp [splitChars] at hp; simp [hp]
  | cons c cs ih =>
    intro piece hp
    by_cases hc : c = sep
    · simp only [splitChars, hc, if_true, List.mem_cons] at hp
      rcases hp with rfl | hp
      · simp
      · exact ih piece hp
    · simp only [splitChars, hc, if_false] at hp
      cases hsp : splitChars sep cs with
      | nil =>
        rw [hsp] at hp
        simp only [List.mem_singleton] at hp
        subst hp
        simpa using fun e : sep = c => hc e.symm
      | cons p ps =>
        rw [hsp] at hp ih
        simp only [List.mem_cons] at hp
        rcases hp with rfl | hp
        · have := ih p (by simp)
          simp only [List.mem_cons, not_or]
          exact ⟨fun e => hc e.symm, this⟩
        · exact ih piece (by simp [hp])

/-- The text `a|b` with no bar in `a` or `b` splits into `a` and `b`. -/
theorem stringsSplit_pair (a b : String) (ha : '|' ∉ a.toList) (hb : '|' ∉ b.toList) :
    stringsSplit (a ++ "|" ++ b) '|' = [a, b] := by
  have hl : (a ++ "|" ++ b).toList = a.toList ++ '|' :: b.toList := by
    simp [String.toList]
  simp only [stringsSplit, hl, splitChars_append _ _ _ ha, splitChars_of_not_mem _ _ hb,
    List.map_cons, List.map_nil]
  rfl

/-- A string has byte length zero only when it is empty. -/
theorem utf8ByteSize_pos_of_ne_empty (s : String) (h : s ≠ "") : s.utf8ByteSize > 0 := by
  cases s with
  | mk cs =>
    have hcs : cs ≠ [] := by
      intro hc
      apply h
      rw [hc]
    have : String.utf8Len cs ≠ 0 := by
      rw [Ne, String.utf8Len_eq_zero]
      exact hcs
    simp only [String.utf8ByteSize_mk]
    omega

/-- C13.  On the PostgreSQL stores and transaction supplier, for every
outside world and starting state: take a `CreateUser` request and the same
request with another password.  Whatever event either run hands to
`AddEvent`, its payload is the JSON object with exactly the keys
`first_name`, `last_name`, `nickname`, `email`, `country` and the values of
the request: the same text in both runs, with no password key. -/
theorem createUser_payload_ignores_password (env env' : Env) (lib : Lib) (ctx ctx' : Context)
    (w w' : World) (req : AddUserRequest) (password' : String) (calls calls' : List Call)
    (p p' : DBProvider) (ev ev' : Event) (id id' : String) (res res' : Option GoError)
    (ht : ((NewUserUseCaseCommands env).CreateUser lib ctx req w).1.trace = w.trace ++ calls)
    (ht' : ((NewUserUseCaseCommands env').CreateUser lib ctx'
      { req with Password := password' } w').1.trace = w'.trace ++ calls')
    (hev : Call.AddEvent p ev id res ∈ calls) (hev' : Call.AddEvent p' ev' id' res' ∈ calls') :
    ev.Payload = ev'.Payload ∧
    ev.Payload = jsonObject lib [("first_name", req.FirstName), ("last_name", req.LastName),
      ("nickname", req.NickName), ("email", req.Email), ("country", req.CountryISOCode)] ∧
    "password" ∉ ["first_name", "last_name", "nickname", "email", "country"] := by
  have key : ∀ (env : Env) (ctx : Context) (w : World) (req : AddUserRequest)
      (calls : List Call) (p : DBProvider) (ev : Event) (id : String) (res : Option GoError),
      ((NewUserUseCaseCommands env).CreateUser lib ctx req w).1.trace = w.trace ++ calls →
      Call.AddEvent p ev id res ∈ calls →
      ev.Payload = req.Marshal lib := by
    intro env ctx w req calls p ev id res ht hev
    cases hv : validatePassword lib req.Password with
    | some e =>
      simp only [userUseCaseCommands.CreateUser, hv] at ht
      have : calls = [] := by simpa using ht
      subst this
      simp at hev
    | none =>
      cases hh : hashPassword lib req.Password with
      | error e =>
        simp only [userUseCaseCommands.CreateUser, hv, hh] at ht
        have : calls = [] := by simpa using ht
        subst this
        simp at hev
      | ok hashed =>
        rcases createUser_run env lib ctx req w hashed hv hh with
          ⟨e, r, h1, _, _⟩ | ⟨e, rb, r, h1, _, _⟩ | ⟨i, rb, r, h1, _, _⟩ | ⟨i, eid, c, h1, _⟩
        all_goals
          have hcalls := List.append_cancel_left (ht.symm.trans h1)
          subst hcalls
          simp only [List.mem_cons, List.mem_singleton, List.not_mem_nil, or_false] at hev
        · cases hev
        · rcases hev with h | h | h <;> cases h
        · rcases hev with h | h | h | h <;> cases h
          rfl
        · rcases hev with h | h | h | h <;> cases h
          rfl
  have h1 := key env ctx w req calls p ev id res ht hev
  have h2 := key env' ctx' w' { req with Password := password' } calls' p' ev' id' res' ht' hev'
  refine ⟨h1.trans h2.symm, h1, by decide⟩

/-- C16.  For any store and starting state: when the cursor is not empty and
base64 rejects it, or its decoded text does not split into exactly two parts
on `|`, or the first part does not parse as a timestamp, `decodeCursor`
returns an error and `ListUsers` returns no users, the empty next cursor and
`ErrInvalidPaginationCursor`, leaving the world exactly as it was: the store
is not called. -/
theorem listUsers_rejects_bad_cursor (uc : userUseCaseQueries) (cl : CursorLib) (ctx : Context)
    (req : ListUsersRequest) (w : World) (hne : req.Cursor ≠ "")
    (hbad : (∃ e, cl.DecodeString req.Cursor = .error e) ∨
      (∃ s, cl.DecodeString req.Cursor = .ok s ∧ (stringsSplit s '|').length ≠ 2) ∨
      (∃ s first second e, cl.DecodeString req.Cursor = .ok s ∧
        stringsSplit s '|' = [first, second] ∧ cl.Parse first = .error e)) :
    (∃ e, decodeCursor cl req.Cursor = .error e) ∧
    uc.ListUsers cl ctx req w = (w, .returned ([], "", some .ErrInvalidPaginationCursor)) := by
  have hdec : ∃ e, decodeCursor cl req.Cursor = .error e := by
    rcases hbad with ⟨e, h⟩ | ⟨s, h, hlen⟩ | ⟨s, first, second, e, h, hs, hp⟩
    · exact ⟨e, by simp only [decodeCursor, h]⟩
    · refine ⟨.foreign "cursor is invalid", ?_⟩
      simp only [decodeCursor, h]
      split
      · rename_i first second heq
        rw [heq] at hlen
        simp at hlen
      · rfl
    · exact ⟨.foreign "cursor is invalid: timestamp", by simp only [decodeCursor, h, hs, hp]⟩
  refine ⟨hdec, ?_⟩
  obtain ⟨e, he⟩ := hdec
  have hpos := utf8ByteSize_pos_of_ne_empty req.Cursor hne
  simp only [userUseCaseQueries.ListUsers, hpos, if_true, he]

/-- C17.  For any store and starting state, when `ListUsers` returns
successfully: the store was called once, with the decoded cursor (or with the
empty id and nil time when there is no cursor), the limit and the filters of
the request; the users returned are the store's list as it is; the next
cursor is `encodeCursor(last.UpdatedAt, last.ID)` of the last user when the
number of users equals the limit, and the empty string otherwise. -/
theorem listUsers_next_cursor (uc : userUseCaseQueries) (cl : CursorLib) (ctx : Context)
    (req : ListUsersRequest) (w w1 : World) (users : List User) (next : String)
    (h : uc.ListUsers cl ctx req w = (w1, .returned (users, next, none))) :
    ∃ userIDCur updatedAtCur,
      ((req.Cursor = "" ∧ userIDCur = "" ∧ updatedAtCur = none) ∨
        (req.Cursor ≠ "" ∧ ∃ ts, decodeCursor cl req.Cursor = .ok (ts, userIDCur) ∧
          updatedAtCur = some ts)) ∧
      uc.repo.ListUsers ctx userIDCur updatedAtCur req.Limit req.Filters w = (w1, (users, none)) ∧
      ((users.length : Int) = req.Limit →
        ∃ last, users.getLast? = some last ∧
          next = encodeCursor cl last.UpdatedAt last.ID.String) ∧
      ((users.length : Int) ≠ req.Limit → next = "") := by
  have tail : ∀ userIDCur updatedAtCur,
      uc.listFrom cl ctx req userIDCur updatedAtCur w = (w1, .returned (users, next, none)) →
      uc.repo.ListUsers ctx userIDCur updatedAtCur req.Limit req.Filters w = (w1, (users, none)) ∧
      ((users.length : Int) = req.Limit →
        ∃ last, users.getLast? = some last ∧
          next = encodeCursor cl last.UpdatedAt last.ID.String) ∧
      ((users.length : Int) ≠ req.Limit → next = "") := by
    intro userIDCur updatedAtCur hl
    unfold userUseCaseQueries.listFrom at hl
    rcases hrepo : uc.repo.ListUsers ctx userIDCur updatedAtCur req.Limit req.Filters w with
      ⟨w2, us, err⟩
    rw [hrepo] at hl
    cases err with
    | some e => simp at hl
    | none =>
      simp only at hl
      by_cases hlen : (us.length : Int) = req.Limit
      · rw [if_pos hlen] at hl
        cases hlast : us.getLast? with
        | none => rw [hlast] at hl; simp at hl
        | some last =>
          rw [hlast] at hl
          simp only [Prod.mk.injEq, Outcome.returned.injEq, and_true] at hl
          obtain ⟨rfl, rfl, rfl⟩ := hl
          exact ⟨rfl, fun _ => ⟨last, hlast, rfl⟩, fun hne => absurd hlen hne⟩
      · rw [if_neg hlen] at hl
        simp only [Prod.mk.injEq, Outcome.returned.injEq, and_true] at hl
        obtain ⟨rfl, rfl, rfl⟩ := hl
        exact ⟨rfl, fun heq => absurd heq hlen, fun _ => rfl⟩
  unfold userUseCaseQueries.ListUsers at h
  by_cases hc : req.Cursor.utf8ByteSize > 0
  · rw [if_pos hc] at h
    have hne : req.Cursor ≠ "" := by
      intro he
      rw [he] at hc
      exact absurd hc (by decide)
    cases hd : decodeCursor cl req.Cursor with
    | error e => rw [hd] at h; simp at h
    | ok r =>
      obtain ⟨ts, uid⟩ := r
      rw [hd] at h
      exact ⟨uid, some ts, Or.inr ⟨hne, ts, rfl, rfl⟩, tail uid (some ts) h⟩
  · rw [if_neg hc] at h
    have he : req.Cursor = "" := by
      by_contra hne
      exact hc (utf8ByteSize_pos_of_ne_empty _ hne)
    exact ⟨"", none, Or.inl ⟨he, rfl, rfl⟩, tail "" none h⟩

/-- C19.  For any store and starting state: `GetUser` on an id that
`uuid.Parse` rejects returns `ErrInvalidUserID` with the world untouched (the
store is not called); on an id that parses it returns the store's user when
the store succeeds, the store's error itself when that matches
`ErrUserNotFound`, and `ErrInternal` for every other store error. -/
theorem getUser_error_policy (uc : userUseCaseQueries) (lib : Lib) (ctx : Context)
    (userID : String) (w : World) :
    (lib.uuidParse userID = none →
      uc.GetUser lib ctx userID w = (w, (none, some .ErrInvalidUserID))) ∧
    (∀ id, lib.uuidParse userID = some id →
      (∀ w1 du, uc.repo.GetUser ctx userID w = (w1, (du, none)) →
        uc.GetUser lib ctx userID w = (w1, (du, none))) ∧
      (∀ w1 du err, uc.repo.GetUser ctx userID w = (w1, (du, some err)) →
        errorsIs err .ErrUserNotFound = true →
        uc.GetUser lib ctx userID w = (w1, (du, some err))) ∧
      (∀ w1 du err, uc.repo.GetUser ctx userID w = (w1, (du, some err)) →
        errorsIs err .ErrUserNotFound = false →
        uc.GetUser lib ctx userID w = (w1, (du, some .ErrInternal)))) := by
  refine ⟨?_, ?_⟩
  · intro h
    simp only [userUseCaseQueries.GetUser, h]
  · intro id h
    refine ⟨?_, ?_, ?_⟩
    · intro w1 du hr
      simp only [userUseCaseQueries.GetUser, h, hr]
    · intro w1 du err hr he
      simp only [userUseCaseQueries.GetUser, h, hr, he]
      simp
    · intro w1 du err hr he
      simp only [userUseCaseQueries.GetUser, h, hr, he]
      simp

/-- C20.  For every event and starting state, `Publish` of the broker
notifier returns nil, `ErrNotificationNotSent` or `ErrFailedToProcessData`,
by the first of these cases that applies: the type is not `CreateUser`,
`UpdateUser` or `DeleteUser`: `ErrNotificationNotSent`, nothing sent; the
body cannot be marshalled: `ErrFailedToProcessData`, nothing sent; the
message is published on the users topic with the two constant attributes and
the acknowledgement fails: `ErrNotificationNotSent`; it is acknowledged:
nil. -/
theorem brokerPublish_results (n : gcpPubSubNotifier) (lib : Lib) (b : BrokerEnv)
    (ctx : Context) (event : Event) (w : World) :
    (¬ (event.EventType = "CreateUser" ∨ event.EventType = "UpdateUser" ∨
        event.EventType = "DeleteUser") ∧
      n.Publish lib b ctx event w = (w, some .ErrNotificationNotSent)) ∨
    ((event.EventType = "CreateUser" ∨ event.EventType = "UpdateUser" ∨
        event.EventType = "DeleteUser") ∧
      ((∃ e, marshalPubsubEvent lib b event = .error e ∧
          n.Publish lib b ctx event w = (w, some .ErrFailedToProcessData)) ∨
        (∃ data, marshalPubsubEvent lib b event = .ok data ∧
          ((∃ e, b.ack w.step data = some e ∧
              n.Publish lib b ctx event w =
                (w.log (.TopicPublish n.usersTopic data attributes (some e)),
                  some .ErrNotificationNotSent)) ∨
            (b.ack w.step data = none ∧
              n.Publish lib b ctx event w =
                (w.log (.TopicPublish n.usersTopic data attributes none), none)))))) := by
  by_cases ht : event.EventType = "CreateUser" ∨ event.EventType = "UpdateUser" ∨
      event.EventType = "DeleteUser"
  · right
    refine ⟨ht, ?_⟩
    cases hm : marshalPubsubEvent lib b event with
    | error e =>
      left
      exact ⟨e, rfl, by simp only [gcpPubSubNotifier.Publish, gcpPubSubNotifier.getTopic, ht,
        if_true, hm]⟩
    | ok data =>
      right
      refine ⟨data, rfl, ?_⟩
      cases ha : b.ack w.step data with
      | some e =>
        left
        exact ⟨e, rfl, by simp only [gcpPubSubNotifier.Publish, gcpPubSubNotifier.getTopic, ht,
          if_true, hm, ha]⟩
      | none =>
        right
        exact ⟨rfl, by simp only [gcpPubSubNotifier.Publish, gcpPubSubNotifier.getTopic, ht,
          if_true, hm, ha]⟩
  · left
    exact ⟨ht, by simp only [gcpPubSubNotifier.Publish, gcpPubSubNotifier.getTopic, ht,
      if_false]⟩

/-! ## Paging through the list of users -/

/-- `decodeCursor` on a cursor whose base64 text is `first|second`. -/
theorem decodeCursor_of_key (cl : CursorLib) (c first second : String)
    (hd : cl.DecodeString c = .ok (first ++ "|" ++ second))
    (h1 : '|' ∉ first.toList) (h2 : '|' ∉ second.toList) :
    decodeCursor cl c = (match cl.Parse first with
      | .error _ => .error (.foreign "cursor is invalid: timestamp")
      | .ok ts => .ok (ts, second)) := by
  unfold decodeCursor
  rw [hd]
  simp only [stringsSplit_pair _ _ h1 h2]

/-- Of two rows, one may stand before the other. -/
theorem listOrder_total (a b : User) : listOrder a b ∨ listOrder b a := by
  unfold listOrder
  rcases lt_trichotomy a.UpdatedAt b.UpdatedAt with h | h | h
  · right; left; exact h
  · rcases le_total a.ID.text.toList b.ID.text.toList with h2 | h2
    · right; right; exact ⟨h.symm, h2⟩
    · left; right; exact ⟨h, h2⟩
  · left; left; exact h

/-- The order of the list query is transitive. -/
theorem listOrder_trans (a b c : User) (h1 : listOrder a b) (h2 : listOrder b c) :
    listOrder a c := by
  unfold listOrder at *
  rcases h1 with h1 | ⟨e1, h1⟩ <;> rcases h2 with h2 | ⟨e2, h2⟩
  · left; omega
  · left; omega
  · left; omega
  · right; exact ⟨e1.trans e2, le_trans h2 h1⟩

/-- Rows in order with different keys are in strict order. -/
theorem listBefore_of_listOrder (a b : User) (h : listOrder a b) (hk : ¬ sameKey a b) :
    listBefore a b := by
  unfold listOrder at h
  unfold listBefore
  rcases h with h | ⟨e, h⟩
  · left; exact h
  · right
    refine ⟨e, lt_of_le_of_ne h ?_⟩
    intro heq
    apply hk
    refine ⟨e, ?_⟩
    have hu : ∀ x y : UUID, x.text.toList = y.text.toList → x = y := by
      intro x y hxy
      cases x with
      | mk tx =>
        cases y with
        | mk ty =>
          have : tx = ty := String.ext hxy
          rw [this]
    exact hu _ _ heq.symm

/-- The strict order is asymmetric. -/
theorem listBefore_asymm (a b : User) (h1 : listBefore a b) (h2 : listBefore b a) : False := by
  unfold listBefore at *
  rcases h1 with h1 | ⟨e1, h1⟩ <;> rcases h2 with h2 | ⟨e2, h2⟩
  · omega
  · omega
  · omega
  · exact lt_asymm h1 h2

/-- The keyset clause made from a row selects the rows strictly after it. -/
theorem keysetClause_iff (a row : User) :
    keysetClause a.UpdatedAt a.ID row = true ↔ listBefore a row := by
  unfold keysetClause listBefore
  simp only [Bool.or_eq_true, Bool.and_eq_true, decide_eq_true_eq]
  constructor
  · rintro (h | ⟨e, h⟩)
    · exact Or.inl h
    · exact Or.inr ⟨e.symm, h⟩
  · rintro (h | ⟨e, h⟩)
    · exact Or.inl h
    · exact Or.inr ⟨e.symm, h⟩

/-- Sorting rows with pairwise different keys puts them in strict order. -/
theorem sorted_listBefore (l : List User) (hd : l.Pairwise (fun a b => ¬ sameKey a b)) :
    (l.insertionSort listOrder).Pairwise listBefore := by
  haveI : IsTotal User listOrder := ⟨listOrder_total⟩
  haveI : IsTrans User listOrder := ⟨listOrder_trans⟩
  have hs : (l.insertionSort listOrder).Pairwise listOrder := List.sorted_insertionSort listOrder l
  have hsym : Symmetric (fun a b : User => ¬ sameKey a b) := by
    intro a b h hba
    exact h ⟨hba.1.symm, hba.2.symm⟩
  have hd2 : (l.insertionSort listOrder).Pairwise (fun a b => ¬ sameKey a b) :=
    ((List.perm_insertionSort listOrder l).pairwise_iff (@hsym)).mpr hd
  exact (hs.and hd2).imp (fun h => listBefore_of_listOrder _ _ h.1 h.2)

/-- Selecting rows and sorting them is sorting the rows and selecting. -/
theorem insertionSort_filter (l : List User) (p : User → Bool)
    (hd : l.Pairwise (fun a b => ¬ sameKey a b)) :
    (l.filter p).insertionSort listOrder = (l.insertionSort listOrder).filter p := by
  haveI : IsAntisymm User listBefore := ⟨fun a b h1 h2 => (listBefore_asymm a b h1 h2).elim⟩
  apply List.eq_of_perm_of_sorted (r := listBefore)
  · exact (List.perm_insertionSort listOrder _).trans
      ((List.perm_insertionSort listOrder l).filter p).symm
  · exact sorted_listBefore _ (hd.sublist (List.filter_sublist l))
  · exact (sorted_listBefore l hd).filter p

/-- In a strictly ordered list the keyset clause made from a row selects
exactly the rows that follow it. -/
theorem filter_keyset_suffix (pre post : List User) (last : User)
    (hs : (pre ++ last :: post).Pairwise listBefore) :
    (pre ++ last :: post).filter (keysetClause last.UpdatedAt last.ID) = post := by
  rw [List.pairwise_append] at hs
  obtain ⟨_, hlp, hcross⟩ := hs
  rw [List.pairwise_cons] at hlp
  obtain ⟨hpost, _⟩ := hlp
  rw [List.filter_append]
  have h1 : pre.filter (keysetClause last.UpdatedAt last.ID) = [] := by
    rw [List.filter_eq_nil_iff]
    intro x hx hk
    exact listBefore_asymm _ _ (hcross x hx last (by simp)) ((keysetClause_iff last x).mp hk)
  have h2 : keysetClause last.UpdatedAt last.ID last = false := by
    cases h : keysetClause last.UpdatedAt last.ID last
    · rfl
    · exact (listBefore_asymm _ _ ((keysetClause_iff last last).mp h)
        ((keysetClause_iff last last).mp h)).elim
  have h3 : post.filter (keysetClause last.UpdatedAt last.ID) = post := by
    rw [List.filter_eq_self]
    intro x hx
    exact (keysetClause_iff last x).mpr (hpost x hx)
  rw [h1, List.filter_cons, h2, h3]
  simp

/-- The list query without cursor and filters, nothing failing: the first
`limit` rows in order. -/
theorem repoListUsers_first (env : Env) (ops : SqlOps) (ctx : Context) (limit : Int) (w : World)
    (hctx : ctx.txKey = none) (hq : env.stmtErr w.step = none) (hs : env.scanErr w.step = none)
    (hl : 0 ≤ limit) :
    userQueriesRepo.ListUsers env ops ctx "" none limit noFilters w =
      (w.log (.ListUsers .pool "" none limit
          (((w.committed.users.insertionSort listOrder).take limit.toNat).map User.selected)
          none),
        (((w.committed.users.insertionSort listOrder).take limit.toNat).map
          User.selected, none)) := by
  have hnl : ¬ limit < 0 := not_lt.mpr hl
  simp only [userQueriesRepo.ListUsers, userQueriesRepo.db, hctx, driverFault, hq, hs,
    World.view, hnl, if_false, filterClauses, noFilters, Bool.and_self, List.filter_true]

/-- The list query with a cursor and no filters, nothing failing: the first
`limit` rows, in order, of those the keyset clause selects. -/
theorem repoListUsers_after (env : Env) (ops : SqlOps) (ctx : Context) (limit : Int) (w : World)
    (uid : String) (id : UUID) (ts : Nat)
    (hctx : ctx.txKey = none) (hq : env.stmtErr w.step = none) (hs : env.scanErr w.step = none)
    (hl : 0 ≤ limit) (hne : uid ≠ "") (hid : env.uuidIn uid = some id) :
    userQueriesRepo.ListUsers env ops ctx uid (some ts) limit noFilters w =
      (w.log (.ListUsers .pool uid (some ts) limit
          ((((w.committed.users.filter (keysetClause ts id)).insertionSort
            listOrder).take limit.toNat).map User.selected) none),
        ((((w.committed.users.filter (keysetClause ts id)).insertionSort
          listOrder).take limit.toNat).map User.selected, none)) := by
  have hnl : ¬ limit < 0 := not_lt.mpr hl
  simp only [userQueriesRepo.ListUsers, userQueriesRepo.db, hctx, driverFault, hq, hs,
    World.view, hnl, if_false, filterClauses, noFilters, Bool.and_self, Bool.and_true, hne, hid,
    ne_eq, not_false_eq_true, if_true, Option.map_some']

/-- The second half of `ListUsers` when the store returns the first `limit`
rows of `rest`: the page is returned with the cursor of its last row when it
is full, and with no cursor otherwise. -/
theorem listFrom_page (uc : userUseCaseQueries) (cl : CursorLib) (ctx : Context)
    (req : ListUsersRequest) (uid : String) (ts : Option Nat) (w w1 : World) (rest : List User)
    (hlimit : 1 ≤ req.Limit)
    (hrepo : uc.repo.ListUsers ctx uid ts req.Limit req.Filters w =
      (w1, ((rest.take req.Limit.toNat).map User.selected, none))) :
    ∃ next, uc.listFrom cl ctx req uid ts w =
        (w1, .returned ((rest.take req.Limit.toNat).map User.selected, next, none)) ∧
      (req.Limit.toNat ≤ rest.length →
        ∃ last, (rest.take req.Limit.toNat).getLast? = some last ∧
          next = encodeCursor cl last.UpdatedAt last.ID.String) ∧
      (rest.length < req.Limit.toNat → next = "") := by
  have hn : ((req.Limit.toNat : Nat) : Int) = req.Limit := Int.toNat_of_nonneg (by omega)
  unfold userUseCaseQueries.listFrom
  rw [hrepo]
  simp only
  by_cases hfull : req.Limit.toNat ≤ rest.length
  · have hlen : (rest.take req.Limit.toNat).length = req.Limit.toNat := by
      rw [List.length_take]
      omega
    have hlenI : (((rest.take req.Limit.toNat).map User.selected).length : Int) = req.Limit := by
      rw [List.length_map, hlen, hn]
    rw [if_pos hlenI]
    cases hlast : (rest.take req.Limit.toNat).getLast? with
    | none =>
      rw [List.getLast?_eq_none_iff] at hlast
      rw [hlast] at hlen
      simp only [List.length_nil] at hlen
      omega
    | some last =>
      have hm : ((rest.take req.Limit.toNat).map User.selected).getLast? = some last.selected := by
        rw [List.getLast?_map, hlast]
        rfl
      rw [hm]
      exact ⟨_, rfl, fun _ => ⟨last, rfl, rfl⟩, fun h => absurd hfull (by omega)⟩
  · have hlen : (rest.take req.Limit.toNat).length = rest.length := by
      rw [List.length_take]
      omega
    have hlenI : ¬ (((rest.take req.Limit.toNat).map User.selected).length : Int) = req.Limit := by
      rw [List.length_map, hlen, ← hn]
      omega
    rw [if_neg hlenI]
    exact ⟨_, rfl, fun h => absurd h hfull, fun _ => rfl⟩

/-- One call of the paging client on the PostgreSQL store, nothing failing:
with the rows in order split into those already returned and the rest, and the
cursor that of the last row returned (none at the start), the call returns the
first `limit` rows of the rest, with the cursor of the last of them when the
page is full and no cursor otherwise. -/
theorem listUsers_page (env : Env) (ops : SqlOps) (cl : CursorLib) (ctx : Context)
    (limit : Int) (w : World) (done rest : List User) (cursor : String)
    (hctx : ctx.txKey = none) (hq : ∀ n, env.stmtErr n = none) (hs : ∀ n, env.scanErr n = none)
    (hlimit : 1 ≤ limit)
    (hd : w.committed.users.Pairwise (fun a b => ¬ sameKey a b))
    (hids : ∀ u ∈ w.committed.users, u.ID.String ≠ "" ∧ '|' ∉ u.ID.String.toList ∧
      env.uuidIn u.ID.String = some u.ID)
    (hlib : ∀ u ∈ w.committed.users,
      cl.DecodeString (encodeCursor cl u.UpdatedAt u.ID.String) =
        .ok (cl.Format u.UpdatedAt ++ "|" ++ u.ID.String) ∧
      encodeCursor cl u.UpdatedAt u.ID.String ≠ "" ∧
      cl.Parse (cl.Format u.UpdatedAt) = .ok u.UpdatedAt ∧
      '|' ∉ (cl.Format u.UpdatedAt).toList)
    (hsplit : w.committed.users.insertionSort listOrder = done ++ rest)
    (hcur : (done = [] ∧ cursor = "") ∨
      ∃ last, done.getLast? = some last ∧
        cursor = encodeCursor cl last.UpdatedAt last.ID.String) :
    ∃ w1 next, (NewUserUseCaseQueries env ops).ListUsers cl ctx ⟨cursor, limit, noFilters⟩ w =
        (w1, .returned ((rest.take limit.toNat).map User.selected, next, none)) ∧
      w1.committed = w.committed ∧
      (limit.toNat ≤ rest.length →
        ∃ last, (rest.take limit.toNat).getLast? = some last ∧
          next = encodeCursor cl last.UpdatedAt last.ID.String) ∧
      (rest.length < limit.toNat → next = "") := by
  have hl0 : 0 ≤ limit := by omega
  rcases hcur with ⟨hdone, hc⟩ | ⟨last, hlast, hc⟩
  · subst hdone hc
    rw [List.nil_append] at hsplit
    have hrepo := repoListUsers_first env ops ctx limit w hctx (hq _) (hs _) hl0
    rw [hsplit] at hrepo
    obtain ⟨next, hfrom, hnext⟩ := listFrom_page (NewUserUseCaseQueries env ops) cl ctx
      ⟨"", limit, noFilters⟩ "" none w _ rest hlimit hrepo
    have h0 : ¬ ("" : String).utf8ByteSize > 0 := by decide
    have hcall : (NewUserUseCaseQueries env ops).ListUsers cl ctx ⟨"", limit, noFilters⟩ w =
        (w.log (.ListUsers .pool "" none limit ((rest.take limit.toNat).map User.selected) none),
          .returned ((rest.take limit.toNat).map User.selected, next, none)) := by
      simp only [userUseCaseQueries.ListUsers, h0, if_false]
      exact hfrom
    exact ⟨_, next, hcall, rfl, hnext⟩
  · subst hc
    obtain ⟨pre, rfl⟩ : ∃ pre, done = pre ++ [last] := by
      rw [List.getLast?_eq_some_iff] at hlast
      exact hlast
    have hmem : last ∈ w.committed.users := by
      have : last ∈ w.committed.users.insertionSort listOrder := by
        rw [hsplit]
        simp
      exact (List.perm_insertionSort listOrder _).mem_iff.mp this
    obtain ⟨hidne, hidbar, hiduuid⟩ := hids last hmem
    obtain ⟨h64, hne, hparse, htbar⟩ := hlib last hmem
    have hdec : decodeCursor cl (encodeCursor cl last.UpdatedAt last.ID.String) =
        .ok (last.UpdatedAt, last.ID.String) := by
      rw [decodeCursor_of_key cl _ _ _ h64 htbar hidbar, hparse]
    have hrows : (w.committed.users.filter (keysetClause last.UpdatedAt last.ID)).insertionSort
        listOrder = rest := by
      rw [insertionSort_filter _ _ hd, hsplit]
      have hsorted := sorted_listBefore _ hd
      rw [hsplit] at hsorted
      rw [List.append_assoc, List.singleton_append] at hsorted ⊢
      exact filter_keyset_suffix pre rest last hsorted
    have hrepo := repoListUsers_after env ops ctx limit w last.ID.String last.ID last.UpdatedAt
      hctx (hq _) (hs _) hl0 hidne hiduuid
    rw [hrows] at hrepo
    obtain ⟨next, hfrom, hnext⟩ := listFrom_page (NewUserUseCaseQueries env ops) cl ctx
      ⟨encodeCursor cl last.UpdatedAt last.ID.String, limit, noFilters⟩ last.ID.String
      (some last.UpdatedAt) w _ rest hlimit hrepo
    have hpos := utf8ByteSize_pos_of_ne_empty _ hne
    have hcall : (NewUserUseCaseQueries env ops).ListUsers cl ctx
        ⟨encodeCursor cl last.UpdatedAt last.ID.String, limit, noFilters⟩ w =
        (w.log (.ListUsers .pool last.ID.String (some last.UpdatedAt) limit
            ((rest.take limit.toNat).map User.selected) none),
          .returned ((rest.take limit.toNat).map User.selected, next, none)) := by
      simp only [userUseCaseQueries.ListUsers, hpos, if_true, hdec]
      exact hfrom
    exact ⟨_, next, hcall, rfl, hnext⟩

/-- A page before the last one is the first page or a page before the last
of the rest. -/
theorem mem_dropLast_cons (a x : List User) (l : List (List User))
    (h : x ∈ (a :: l).dropLast) : l ≠ [] ∧ (x = a ∨ x ∈ l.dropLast) := by
  cases l with
  | nil => simp at h
  | cons b l2 =>
    rw [List.dropLast_cons₂, List.mem_cons] at h
    exact ⟨by simp, h⟩

/-- The paging client from any point of the list, nothing failing: with
enough fuel it returns pages that together are the rest of the rows in order,
every page but the last full. -/
theorem listAllPages_from (env : Env) (ops : SqlOps) (cl : CursorLib) (ctx : Context)
    (limit : Int) (users : List User)
    (hctx : ctx.txKey = none) (hq : ∀ n, env.stmtErr n = none) (hs : ∀ n, env.scanErr n = none)
    (hlimit : 1 ≤ limit)
    (hd : users.Pairwise (fun a b => ¬ sameKey a b))
    (hids : ∀ u ∈ users, u.ID.String ≠ "" ∧ '|' ∉ u.ID.String.toList ∧
      env.uuidIn u.ID.String = some u.ID)
    (hlib : ∀ u ∈ users,
      cl.DecodeString (encodeCursor cl u.UpdatedAt u.ID.String) =
        .ok (cl.Format u.UpdatedAt ++ "|" ++ u.ID.String) ∧
      encodeCursor cl u.UpdatedAt u.ID.String ≠ "" ∧
      cl.Parse (cl.Format u.UpdatedAt) = .ok u.UpdatedAt ∧
      '|' ∉ (cl.Format u.UpdatedAt).toList) :
    ∀ (fuel : Nat) (done rest : List User) (cursor : String) (w : World),
      w.committed.users = users →
      users.insertionSort listOrder = done ++ rest →
      rest.length < fuel →
      ((done = [] ∧ cursor = "") ∨
        ∃ last, done.getLast? = some last ∧
          cursor = encodeCursor cl last.UpdatedAt last.ID.String) →
      ∃ pages, listAllPages (NewUserUseCaseQueries env ops) cl ctx limit noFilters fuel cursor w
          = some pages ∧
        pages.flatten = rest.map User.selected ∧
        (∀ page ∈ pages.dropLast, (page.length : Int) = limit) ∧
        (∀ page ∈ pages, (page.length : Int) ≤ limit) := by
  have hn : ((limit.toNat : Nat) : Int) = limit := Int.toNat_of_nonneg (by omega)
  intro fuel
  induction fuel with
  | zero => intro done rest cursor w _ _ hfuel; omega
  | succ fuel ih =>
    intro done rest cursor w hw hsplit hfuel hcur
    subst hw
    obtain ⟨w1, next, hcall, hw1, hfull, hshort⟩ := listUsers_page env ops cl ctx limit w done
      rest cursor hctx hq hs hlimit hd hids hlib hsplit hcur
    have hpagelen : (((rest.take limit.toNat).map User.selected).length : Int) ≤ limit := by
      rw [List.length_map, List.length_take, ← hn]
      omega
    by_cases hcase : limit.toNat ≤ rest.length
    · obtain ⟨last, hlast, hnext⟩ := hfull hcase
      have hmem : last ∈ w.committed.users := by
        have h1 : last ∈ rest.take limit.toNat := List.mem_of_getLast?_eq_some hlast
        have h2 : last ∈ w.committed.users.insertionSort listOrder := by
          rw [hsplit]
          exact List.mem_append_right _ (List.mem_of_mem_take h1)
        exact (List.perm_insertionSort listOrder _).mem_iff.mp h2
      have hne : next ≠ "" := by
        rw [hnext]
        exact (hlib last hmem).2.1
      have hsplit2 : w.committed.users.insertionSort listOrder =
          (done ++ rest.take limit.toNat) ++ rest.drop limit.toNat := by
        rw [List.append_assoc, List.take_append_drop]
        exact hsplit
      have hcur2 : (done ++ rest.take limit.toNat = [] ∧ next = "") ∨
          ∃ last, (done ++ rest.take limit.toNat).getLast? = some last ∧
            next = encodeCursor cl last.UpdatedAt last.ID.String := by
        right
        refine ⟨last, ?_, hnext⟩
        rw [List.getLast?_append, hlast]
        rfl
      have hfuel2 : (rest.drop limit.toNat).length < fuel := by
        rw [List.length_drop]
        omega
      obtain ⟨pages, hpages, hjoin, hfullpages, hallpages⟩ := ih (done ++ rest.take limit.toNat)
        (rest.drop limit.toNat) next w1 (by rw [hw1]) hsplit2 hfuel2 hcur2
      refine ⟨(rest.take limit.toNat).map User.selected :: pages, ?_, ?_, ?_, ?_⟩
      · simp only [listAllPages, hcall, hne, if_false, hpages, Option.map_some']
      · rw [List.flatten_cons, hjoin, ← List.map_append, List.take_append_drop]
      · intro page hpage
        rcases (mem_dropLast_cons _ _ _ hpage).2 with rfl | hin
        · rw [List.length_map, List.length_take, ← hn]
          omega
        · exact hfullpages page hin
      · intro page hpage
        rcases List.mem_cons.mp hpage with rfl | hin
        · exact hpagelen
        · exact hallpages page hin
    · have hnext := hshort (by omega)
      subst hnext
      refine ⟨[(rest.take limit.toNat).map User.selected], ?_, ?_, ?_, ?_⟩
      · simp only [listAllPages, hcall, if_true]
      · rw [List.flatten_cons, List.flatten_nil, List.append_nil, List.take_of_length_le (by omega)]
      · intro page hpage
        simp at hpage
      · intro page hpage
        rw [List.mem_singleton] at hpage
        subst hpage
        exact hpagelen

/-- C18.  On the PostgreSQL store with nothing failing and no transaction in
the context, for users with pairwise different `(updated_at, id)`, a limit of
at least 1 and no filters, when the library reads the cursor of each user back
(its base64 text decodes to the key, its timestamp text parses to the
timestamp, no `|` in either part, the cursor not empty) and the driver reads
each id back: the paging client, given more calls than there are users,
returns pages that together are the users sorted by `updated_at DESC, id
DESC`, each once; every page but the last holds exactly `limit` users and no
page holds more. -/
theorem listUsers_pages_cover_all (env : Env) (ops : SqlOps) (cl : CursorLib) (ctx : Context)
    (w : World) (limit : Int) (fuel : Nat)
    (hctx : ctx.txKey = none) (hq : ∀ n, env.stmtErr n = none) (hs : ∀ n, env.scanErr n = none)
    (hlimit : 1 ≤ limit)
    (hd : w.committed.users.Pairwise (fun a b => ¬ sameKey a b))
    (hids : ∀ u ∈ w.committed.users, u.ID.String ≠ "" ∧ '|' ∉ u.ID.String.toList ∧
      env.uuidIn u.ID.String = some u.ID)
    (hlib : ∀ u ∈ w.committed.users,
      cl.DecodeString (encodeCursor cl u.UpdatedAt u.ID.String) =
        .ok (cl.Format u.UpdatedAt ++ "|" ++ u.ID.String) ∧
      encodeCursor cl u.UpdatedAt u.ID.String ≠ "" ∧
      cl.Parse (cl.Format u.UpdatedAt) = .ok u.UpdatedAt ∧
      '|' ∉ (cl.Format u.UpdatedAt).toList)
    (hfuel : w.committed.users.length < fuel) :
    ∃ pages, listAllPages (NewUserUseCaseQueries env ops) cl ctx limit noFilters fuel "" w
        = some pages ∧
      pages.flatten = (w.committed.users.insertionSort listOrder).map User.selected ∧
      (w.committed.users.insertionSort listOrder).Perm w.committed.users ∧
      (w.committed.users.insertionSort listOrder).Pairwise listBefore ∧
      (∀ page ∈ pages.dropLast, (page.length : Int) = limit) ∧
      (∀ page ∈ pages, (page.length : Int) ≤ limit) := by
  have hlen : (w.committed.users.insertionSort listOrder).length < fuel := by
    rw [List.length_insertionSort]
    exact hfuel
  obtain ⟨pages, hpages, hflat, hfull, hall⟩ := listAllPages_from env ops cl ctx limit
    w.committed.users hctx hq hs hlimit hd hids hlib fuel []
    (w.committed.users.insertionSort listOrder) "" w rfl rfl hlen (Or.inl ⟨rfl, rfl⟩)
  exact ⟨pages, hpages, hflat, List.perm_insertionSort listOrder _, sorted_listBefore _ hd,
    hfull, hall⟩

set_option maxRecDepth 100000 in
/-- Witness for C18: five users and a limit of 2 give pages of 2, 2 and 1 in
the order of the query. -/
theorem listUsers_pages_cover_all_witness :
    listAllPages (NewUserUseCaseQueries quietEnv plainOps) goCursorLib Context.Background 2
        noFilters 6 "" pagingWorld =
      some [[(userAt "0f913f6a-497b-4305-b3d1-3f53657e3a25" 1724358605123456789).selected,
          (userAt "0f913f6a-497b-4305-b3d1-3f53657e3a24" 1724358604000000000).selected],
        [(userAt "0f913f6a-497b-4305-b3d1-3f53657e3a23" 1724358604000000000).selected,
          (userAt "0f913f6a-497b-4305-b3d1-3f53657e3a22" 1724358603500000000).selected],
        [(userAt "0f913f6a-497b-4305-b3d1-3f53657e3a21" 1724358603000000000).selected]] ∧
    ∃ pages, listAllPages (NewUserUseCaseQueries quietEnv plainOps) goCursorLib
        Context.Background 2 noFilters 6 "" pagingWorld = some pages ∧
      pages.flatten = (pagingWorld.committed.users.insertionSort listOrder).map User.selected ∧
      (pagingWorld.committed.users.insertionSort listOrder).Perm pagingWorld.committed.users ∧
      (pagingWorld.committed.users.insertionSort listOrder).Pairwise listBefore ∧
      (∀ page ∈ pages.dropLast, (page.length : Int) = 2) ∧
      (∀ page ∈ pages, (page.length : Int) ≤ 2) :=
  ⟨rfl, listUsers_pages_cover_all quietEnv plainOps goCursorLib Context.Background pagingWorld 2 6
    rfl (fun _ => rfl) (fun _ => rfl) (by decide) (by decide) (by decide)
    (fun u hu => by
      simp only [pagingWorld, fiveUsers, List.mem_cons, List.mem_singleton, List.not_mem_nil,
        or_false] at hu
      rcases hu with rfl | rfl | rfl | rfl | rfl <;> exact ⟨rfl, by decide, rfl, by decide⟩)
    (by decide)⟩

/-! ## Witnesses of the query, payload and broker statements -/

/-- Witness for C13: the create request of the repository tests and the same
request with another password, nothing failing: both runs hand `AddEvent` the
same payload, the five fields of the request. -/
theorem createUser_payload_ignores_password_witness :
    Call.AddEvent (.tx ⟨0⟩)
        ⟨UUID.Nil, "CreateUser", exampleAddUserReq.Marshal plainLib⟩
        "0d913f6a-497b-4305-b3d1-3f53657e3a27" none ∈
      ((NewUserUseCaseCommands quietEnv).CreateUser plainLib Context.Background
        exampleAddUserReq emptyWorld).1.trace ∧
    Call.AddEvent (.tx ⟨0⟩)
        ⟨UUID.Nil, "CreateUser", exampleAddUserReq.Marshal plainLib⟩
        "0d913f6a-497b-4305-b3d1-3f53657e3a27" none ∈
      ((NewUserUseCaseCommands quietEnv).CreateUser plainLib Context.Background
        { exampleAddUserReq with Password := "Another2pass" } emptyWorld).1.trace ∧
    exampleAddUserReq.Marshal plainLib =
      "\x7b\x22first_name\x22:\x22first\x22,\x22last_name\x22:\x22last\x22,\x22nickname\x22:\x22nick\x22,\x22email\x22:\x22email@email.pt\x22,\x22country\x22:\x22UK\x22\x7d" ∧
    exampleAddUserReq.Marshal plainLib =
      jsonObject plainLib [("first_name", exampleAddUserReq.FirstName),
        ("last_name", exampleAddUserReq.LastName), ("nickname", exampleAddUserReq.NickName),
        ("email", exampleAddUserReq.Email), ("country", exampleAddUserReq.CountryISOCode)] :=
  ⟨by decide, by decide, by decide,
    (createUser_payload_ignores_password quietEnv quietEnv plainLib Context.Background
      Context.Background emptyWorld emptyWorld exampleAddUserReq "Another2pass"
      ((NewUserUseCaseCommands quietEnv).CreateUser plainLib Context.Background
        exampleAddUserReq emptyWorld).1.trace
      ((NewUserUseCaseCommands quietEnv).CreateUser plainLib Context.Background
        { exampleAddUserReq with Password := "Another2pass" } emptyWorld).1.trace
      (.tx ⟨0⟩) (.tx ⟨0⟩) ⟨UUID.Nil, "CreateUser", exampleAddUserReq.Marshal plainLib⟩
      ⟨UUID.Nil, "CreateUser", exampleAddUserReq.Marshal plainLib⟩
      "0d913f6a-497b-4305-b3d1-3f53657e3a27" "0d913f6a-497b-4305-b3d1-3f53657e3a27" none none
      rfl rfl (by decide) (by decide)).2.1⟩

/-- Witness for C16: the three rejected cursors of the repository tests
(corrupted base64, three parts, a first part that is no timestamp); the first
is run through `ListUsers` on the PostgreSQL store. -/
theorem listUsers_rejects_bad_cursor_witness :
    (∃ e, goCursorLib.DecodeString
      "MjAyNC0wDowOToxMS45MzgyMiswMTowMHxjMTJlMjNmMy1mNWUzLTQxYmMtYWVjYS05ZDY2YmQwYjk2YTM="
        = .error e) ∧
    decodeCursor goCursorLib "YXxifGM=" = .error (.foreign "cursor is invalid") ∧
    decodeCursor goCursorLib "YXxi" = .error (.foreign "cursor is invalid: timestamp") ∧
    (NewUserUseCaseQueries quietEnv plainOps).ListUsers goCursorLib Context.Background
      ⟨"MjAyNC0wDowOToxMS45MzgyMiswMTowMHxjMTJlMjNmMy1mNWUzLTQxYmMtYWVjYS05ZDY2YmQwYjk2YTM=",
        2, noFilters⟩ pagingWorld =
      (pagingWorld, .returned ([], "", some .ErrInvalidPaginationCursor)) :=
  ⟨⟨_, rfl⟩, rfl, rfl,
    (listUsers_rejects_bad_cursor (NewUserUseCaseQueries quietEnv plainOps) goCursorLib
      Context.Background
      ⟨"MjAyNC0wDowOToxMS45MzgyMiswMTowMHxjMTJlMjNmMy1mNWUzLTQxYmMtYWVjYS05ZDY2YmQwYjk2YTM=",
        2, noFilters⟩ pagingWorld (by decide) (Or.inl ⟨_, rfl⟩)).2⟩

set_option maxRecDepth 100000 in
/-- Witness for C17: the first page of two of the five users comes with the
cursor of its second user; a page of ten holds all five and has no cursor. -/
theorem listUsers_next_cursor_witness :
    (NewUserUseCaseQueries quietEnv plainOps).ListUsers goCursorLib Context.Background
        ⟨"", 2, noFilters⟩ pagingWorld =
      (pagingWorld.log (.ListUsers .pool "" none 2
          [(userAt "0f913f6a-497b-4305-b3d1-3f53657e3a25" 1724358605123456789).selected,
            (userAt "0f913f6a-497b-4305-b3d1-3f53657e3a24" 1724358604000000000).selected] none),
        .returned
          ([(userAt "0f913f6a-497b-4305-b3d1-3f53657e3a25" 1724358605123456789).selected,
            (userAt "0f913f6a-497b-4305-b3d1-3f53657e3a24" 1724358604000000000).selected],
          "MjAyNC0wOC0yMlQyMDozMDowNFp8MGY5MTNmNmEtNDk3Yi00MzA1LWIzZDEtM2Y1MzY1N2UzYTI0",
          none)) ∧
    "MjAyNC0wOC0yMlQyMDozMDowNFp8MGY5MTNmNmEtNDk3Yi00MzA1LWIzZDEtM2Y1MzY1N2UzYTI0" =
      encodeCursor goCursorLib 1724358604000000000 "0f913f6a-497b-4305-b3d1-3f53657e3a24" ∧
    ∃ userIDCur updatedAtCur,
      userIDCur = "" ∧ updatedAtCur = none ∧
      (NewUserQueriesRepo quietEnv plainOps).ListUsers Context.Background userIDCur updatedAtCur 2
          noFilters pagingWorld =
        (pagingWorld.log (.ListUsers .pool "" none 2
          [(userAt "0f913f6a-497b-4305-b3d1-3f53657e3a25" 1724358605123456789).selected,
            (userAt "0f913f6a-497b-4305-b3d1-3f53657e3a24" 1724358604000000000).selected] none),
          ([(userAt "0f913f6a-497b-4305-b3d1-3f53657e3a25" 1724358605123456789).selected,
            (userAt "0f913f6a-497b-4305-b3d1-3f53657e3a24" 1724358604000000000).selected],
            none)) := by
  refine ⟨rfl, by decide, ?_⟩
  obtain ⟨userIDCur, updatedAtCur, hcur, hrepo, _, _⟩ :=
    listUsers_next_cursor (NewUserUseCaseQueries quietEnv plainOps) goCursorLib
      Context.Background ⟨"", 2, noFilters⟩ pagingWorld _ _ _ rfl
  rcases hcur with ⟨_, h1, h2⟩ | ⟨hne, _⟩
  · exact ⟨userIDCur, updatedAtCur, h1, h2, hrepo⟩
  · exact absurd rfl hne

/-- Witness for C19: on the PostgreSQL store with nothing failing, the id of
the stored user gives the user (without the password), an id no row carries
gives `ErrUserNotFound`, and a text that is no uuid gives `ErrInvalidUserID`
without a call. -/
theorem getUser_error_policy_witness :
    (NewUserUseCaseQueries quietEnv plainOps).GetUser plainLib Context.Background "invalid-uuid"
        userWorld = (userWorld, (none, some .ErrInvalidUserID)) ∧
    (NewUserUseCaseQueries quietEnv plainOps).GetUser plainLib Context.Background expectedUserID
        userWorld =
      (userWorld.log (.GetUser .pool expectedUserID (some storedUser.selected) none),
        (some storedUser.selected, none)) ∧
    (NewUserUseCaseQueries quietEnv plainOps).GetUser plainLib Context.Background expectedUserID
        emptyWorld =
      (emptyWorld.log (.GetUser .pool expectedUserID none (some .ErrUserNotFound)),
        (none, some .ErrUserNotFound)) :=
  ⟨(getUser_error_policy (NewUserUseCaseQueries quietEnv plainOps) plainLib Context.Background
      "invalid-uuid" userWorld).1 (by decide),
    ((getUser_error_policy (NewUserUseCaseQueries quietEnv plainOps) plainLib Context.Background
      expectedUserID userWorld).2 ⟨expectedUserID⟩ (by decide)).1 _ _ rfl,
    ((getUser_error_policy (NewUserUseCaseQueries quietEnv plainOps) plainLib Context.Background
      expectedUserID emptyWorld).2 ⟨expectedUserID⟩ (by decide)).2.1 _ _ _ rfl (by decide)⟩

/-- Witness for C20: the delete event on the users topic of a broker that
acknowledges it gives nil, with the `type` and `payload` body sent once. -/
theorem brokerPublish_results_witness :
    gcpPubSubNotifier.Publish ⟨"users"⟩ plainLib quietBroker Context.Background deleteEvent
        emptyWorld =
      (emptyWorld.log (.TopicPublish "users"
        "\x7b\x22type\x22:\x22DeleteUser\x22,\x22payload\x22:\x7b\x22ID\x22:\x220f913f6a-497b-4305-b3d1-3f53657e3a25\x22\x7d\x7d"
        attributes none), none) ∧
    gcpPubSubNotifier.Publish ⟨"users"⟩ plainLib deafBroker Context.Background deleteEvent
        emptyWorld =
      (emptyWorld.log (.TopicPublish "users"
        "\x7b\x22type\x22:\x22DeleteUser\x22,\x22payload\x22:\x7b\x22ID\x22:\x220f913f6a-497b-4305-b3d1-3f53657e3a25\x22\x7d\x7d"
        attributes (some (.foreign "rpc error: code = Unavailable"))),
        some .ErrNotificationNotSent) ∧
    gcpPubSubNotifier.Publish ⟨"users"⟩ plainLib quietBroker Context.Background firstEvent
        emptyWorld = (emptyWorld, some .ErrFailedToProcessData) ∧
    gcpPubSubNotifier.Publish ⟨"users"⟩ plainLib quietBroker Context.Background
        ⟨UUID.Nil, "RenameUser", "\x7b\x7d"⟩ emptyWorld =
      (emptyWorld, some .ErrNotificationNotSent) := by
  refine ⟨?_, rfl, rfl, rfl⟩
  rcases brokerPublish_results ⟨"users"⟩ plainLib quietBroker Context.Background deleteEvent
    emptyWorld with ⟨h, _⟩ | ⟨_, ⟨e, h, _⟩ | ⟨data, hd, ⟨e, h, _⟩ | ⟨_, h⟩⟩⟩
  · exact absurd (Or.inr (Or.inr rfl)) h
  · cases h
  · cases h
  · have hdata : data =
        "\x7b\x22type\x22:\x22DeleteUser\x22,\x22payload\x22:\x7b\x22ID\x22:\x220f913f6a-497b-4305-b3d1-3f53657e3a25\x22\x7d\x7d" := by
      have hd2 : marshalPubsubEvent plainLib quietBroker deleteEvent = .ok
          "\x7b\x22type\x22:\x22DeleteUser\x22,\x22payload\x22:\x7b\x22ID\x22:\x220f913f6a-497b-4305-b3d1-3f53657e3a25\x22\x7d\x7d" :=
        rfl
      rw [hd2] at hd
      exact (Except.ok.inj hd).symm
    rw [hdata] at h
    exact h

/-! ## Health checker -/

/-- C21.  For any store and broker client, with every call recorded: `Check`
returns true exactly when the store's `Ping` succeeds and the broker is
disabled or its `Ping` succeeds.  When the store's `Ping` fails it is the
only call made; when the broker is disabled the calls are the store's `Ping`
and `IsEnabled`, not the broker's `Ping`; otherwise the three calls are made
in that order. -/
theorem check_is_healthy_iff (σ : Type) (repo pubsub : MonitoringRepoQueries σ) (ctx : Context)
    (s : σ) (log : List MonitorCall) :
    ((recordedHealthCheck repo pubsub).Check ctx (s, log)).2 =
      ((repo.Ping ctx s).2 &&
        (!(pubsub.IsEnabled (repo.Ping ctx s).1).2 ||
          (pubsub.Ping ctx (pubsub.IsEnabled (repo.Ping ctx s).1).1).2)) ∧
    ((repo.Ping ctx s).2 = false →
      ((recordedHealthCheck repo pubsub).Check ctx (s, log)).1.2 = log ++ [.repoPing]) ∧
    ((repo.Ping ctx s).2 = true → (pubsub.IsEnabled (repo.Ping ctx s).1).2 = false →
      ((recordedHealthCheck repo pubsub).Check ctx (s, log)).1.2 =
        log ++ [.repoPing, .pubsubIsEnabled]) ∧
    ((repo.Ping ctx s).2 = true → (pubsub.IsEnabled (repo.Ping ctx s).1).2 = true →
      ((recordedHealthCheck repo pubsub).Check ctx (s, log)).1.2 =
        log ++ [.repoPing, .pubsubIsEnabled, .pubsubPing]) := by
  rcases hr : repo.Ping ctx s with ⟨s1, rok⟩
  rcases he : pubsub.IsEnabled s1 with ⟨s2, en⟩
  rcases hp : pubsub.Ping ctx s2 with ⟨s3, pok⟩
  cases rok <;> cases en <;>
    simp [recordedHealthCheck, NewHealthCheckQueries, healthCheckQueries.Check, recorded, hr, he,
      hp]

/-- Witness for C21: the four cases of the repository test. -/
theorem check_is_healthy_iff_witness :
    (recordedHealthCheck (fixedMonitor true true) (fixedMonitor true true)).Check
        Context.Background ((), []) = (((), [.repoPing, .pubsubIsEnabled, .pubsubPing]), true) ∧
    (recordedHealthCheck (fixedMonitor false true) (fixedMonitor true true)).Check
        Context.Background ((), []) = (((), [.repoPing]), false) ∧
    (recordedHealthCheck (fixedMonitor true true) (fixedMonitor false true)).Check
        Context.Background ((), []) = (((), [.repoPing, .pubsubIsEnabled, .pubsubPing]), false) ∧
    (recordedHealthCheck (fixedMonitor true true) (fixedMonitor false false)).Check
        Context.Background ((), []) = (((), [.repoPing, .pubsubIsEnabled]), true) ∧
    ((recordedHealthCheck (fixedMonitor false true) (fixedMonitor true true)).Check
        Context.Background ((), [])).1.2 = [] ++ [.repoPing] :=
  ⟨rfl, rfl, rfl, rfl,
    (check_is_healthy_iff Unit (fixedMonitor false true) (fixedMonitor true true)
      Context.Background () []).2.1 rfl⟩

/-! ## User store -/

/-- C22.  For every user, context and starting state, by what the driver
answers to the `INSERT`: on success `SaveUser` returns the id the database
generated and nil, the row written with that id; on an error that is a
`*pgconn.PgError` of code `23505` (these are the errors `IsConflictErr`
accepts) it returns the empty id and `ErrUserAlreadyExists`; on any other
error the empty id and `ErrInternal`.  A failed call writes nothing. -/
theorem saveUser_results (env : Env) (ctx : Context) (user : User) (w : World) :
    (driverFault env (userCommandsRepo.db ctx) w = none →
      userCommandsRepo.SaveUser env ctx user w =
        ((w.write (userCommandsRepo.db ctx)
            (.insertUser { user with ID := env.newID w.step, CreatedAt := env.now w.step,
                                     UpdatedAt := env.now w.step })).log
          (.SaveUser (userCommandsRepo.db ctx) user (env.newID w.step).String none),
          ((env.newID w.step).String, none))) ∧
    (driverFault env (userCommandsRepo.db ctx) w = some (.pgError "23505") →
      userCommandsRepo.SaveUser env ctx user w =
        (w.log (.SaveUser (userCommandsRepo.db ctx) user "" (some .ErrUserAlreadyExists)),
          ("", some .ErrUserAlreadyExists))) ∧
    (∀ err, driverFault env (userCommandsRepo.db ctx) w = some err → err ≠ .pgError "23505" →
      userCommandsRepo.SaveUser env ctx user w =
        (w.log (.SaveUser (userCommandsRepo.db ctx) user "" (some .ErrInternal)),
          ("", some .ErrInternal))) ∧
    (∀ err, IsConflictErr err = true ↔ err = .pgError "23505") := by
  have hconf : ∀ err, IsConflictErr err = true ↔ err = .pgError "23505" := by
    intro err
    cases err <;> simp [IsConflictErr]
  refine ⟨?_, ?_, ?_, hconf⟩
  · intro h
    simp only [userCommandsRepo.SaveUser, h]
  · intro h
    simp only [userCommandsRepo.SaveUser, h, (hconf _).mpr rfl, if_true]
  · intro err h hne
    have hfalse : IsConflictErr err = false := by
      cases hc : IsConflictErr err
      · rfl
      · exact absurd ((hconf err).mp hc) hne
    simp only [userCommandsRepo.SaveUser, h, hfalse]
    simp

/-- Witness for C22: the stored user of the tests saved on an empty table;
the same with the insert failing on the unique constraint, and with it
failing otherwise. -/
theorem saveUser_results_witness :
    (userCommandsRepo.SaveUser quietEnv Context.Background storedUser emptyWorld).2 =
      ("0d913f6a-497b-4305-b3d1-3f53657e3a27", none) ∧
    (userCommandsRepo.SaveUser (failingEnv (.pgError "23505")) Context.Background storedUser
      emptyWorld).2 = ("", some .ErrUserAlreadyExists) ∧
    (userCommandsRepo.SaveUser (failingEnv (.pgError "23514")) Context.Background storedUser
      emptyWorld).2 = ("", some .ErrInternal) ∧
    (userCommandsRepo.SaveUser (failingEnv (.foreign "conn closed")) Context.Background storedUser
      emptyWorld).2 = ("", some .ErrInternal) ∧
    (userCommandsRepo.SaveUser (failingEnv (.pgError "23505")) Context.Background storedUser
      emptyWorld).1.committed = emptyWorld.committed :=
  ⟨congrArg Prod.snd ((saveUser_results quietEnv Context.Background storedUser emptyWorld).1 rfl),
    congrArg Prod.snd ((saveUser_results (failingEnv (.pgError "23505")) Context.Background
      storedUser emptyWorld).2.1 rfl),
    congrArg Prod.snd ((saveUser_results (failingEnv (.pgError "23514")) Context.Background
      storedUser emptyWorld).2.2.1 _ rfl (by decide)),
    congrArg Prod.snd ((saveUser_results (failingEnv (.foreign "conn closed")) Context.Background
      storedUser emptyWorld).2.2.1 _ rfl (by decide)),
    rfl⟩

/-- C23.  For the store's `DeleteUser` and `UpdateUser`, in any context and
starting state: the result is `ErrInternal` exactly when the statement fails
(for `DeleteUser` also when the id text is no uuid for the database);
`ErrUserNotFound` exactly when it runs without error and no row has the id;
nil exactly when it runs without error and at least one row has the id. -/
theorem mutation_store_results (env : Env) (ctx : Context) (w : World) :
    (∀ userID : String,
      ((userCommandsRepo.DeleteUser env ctx userID w).2 = some .ErrInternal ↔
        driverFault env (userCommandsRepo.db ctx) w ≠ none ∨ env.uuidIn userID = none) ∧
      ((userCommandsRepo.DeleteUser env ctx userID w).2 = some .ErrUserNotFound ↔
        driverFault env (userCommandsRepo.db ctx) w = none ∧
          ∃ u, env.uuidIn userID = some u ∧
            ((w.view (userCommandsRepo.db ctx)).users.filter
              (fun r => decide (r.ID = u))).length = 0) ∧
      ((userCommandsRepo.DeleteUser env ctx userID w).2 = none ↔
        driverFault env (userCommandsRepo.db ctx) w = none ∧
          ∃ u, env.uuidIn userID = some u ∧
            1 ≤ ((w.view (userCommandsRepo.db ctx)).users.filter
              (fun r => decide (r.ID = u))).length)) ∧
    (∀ user : User,
      ((userCommandsRepo.UpdateUser env ctx user w).2 = some .ErrInternal ↔
        driverFault env (userCommandsRepo.db ctx) w ≠ none) ∧
      ((userCommandsRepo.UpdateUser env ctx user w).2 = some .ErrUserNotFound ↔
        driverFault env (userCommandsRepo.db ctx) w = none ∧
          ((w.view (userCommandsRepo.db ctx)).users.filter
            (fun r => decide (r.ID = user.ID))).length = 0) ∧
      ((userCommandsRepo.UpdateUser env ctx user w).2 = none ↔
        driverFault env (userCommandsRepo.db ctx) w = none ∧
          1 ≤ ((w.view (userCommandsRepo.db ctx)).users.filter
            (fun r => decide (r.ID = user.ID))).length)) := by
  constructor
  · intro userID
    cases hf : driverFault env (userCommandsRepo.db ctx) w with
    | some e => simp [userCommandsRepo.DeleteUser, hf]
    | none =>
      cases hu : env.uuidIn userID with
      | none => simp [userCommandsRepo.DeleteUser, hf, hu]
      | some u =>
        have hrun : userCommandsRepo.DeleteUser env ctx userID w =
            if ((w.view (userCommandsRepo.db ctx)).users.filter
                (fun r => decide (r.ID = u))).length = 0 then
              (w.log (.DeleteUser (userCommandsRepo.db ctx) userID (some .ErrUserNotFound)),
                some .ErrUserNotFound)
            else ((w.write (userCommandsRepo.db ctx) (.deleteUser u)).log
              (.DeleteUser (userCommandsRepo.db ctx) userID none), none) := by
          simp only [userCommandsRepo.DeleteUser, hf, hu]
        rw [hrun]
        have hex : ∀ P : UUID → Prop, (∃ v, some u = some v ∧ P v) ↔ P u := by
          intro P
          constructor
          · rintro ⟨v, hv, hp⟩
            cases hv
            exact hp
          · intro hp
            exact ⟨u, rfl, hp⟩
        rw [hex (fun v => ((w.view (userCommandsRepo.db ctx)).users.filter
            (fun r => decide (r.ID = v))).length = 0),
          hex (fun v => 1 ≤ ((w.view (userCommandsRepo.db ctx)).users.filter
            (fun r => decide (r.ID = v))).length)]
        generalize ((w.view (userCommandsRepo.db ctx)).users.filter
          (fun r => decide (r.ID = u))).length = n
        cases n with
        | zero => simp
        | succ k => simp
  · intro user
    cases hf : driverFault env (userCommandsRepo.db ctx) w with
    | some e => simp [userCommandsRepo.UpdateUser, hf]
    | none =>
      have hrun : userCommandsRepo.UpdateUser env ctx user w =
          if ((w.view (userCommandsRepo.db ctx)).users.filter
              (fun r => decide (r.ID = user.ID))).length = 0 then
            (w.log (.UpdateUser (userCommandsRepo.db ctx) user (some .ErrUserNotFound)),
              some .ErrUserNotFound)
          else ((w.write (userCommandsRepo.db ctx) (.updateUser user)).log
            (.UpdateUser (userCommandsRepo.db ctx) user none), none) := by
        simp only [userCommandsRepo.UpdateUser, hf]
      rw [hrun]
      generalize ((w.view (userCommandsRepo.db ctx)).users.filter
        (fun r => decide (r.ID = user.ID))).length = n
      cases n with
      | zero => simp
      | succ k => simp

/-- Witness for C23: deleting and updating the stored user, an id no row
carries, and with the statement failing. -/
theorem mutation_store_results_witness :
    (userCommandsRepo.DeleteUser quietEnv Context.Background expectedUserID userWorld).2 = none ∧
    (userCommandsRepo.DeleteUser quietEnv Context.Background expectedUserID emptyWorld).2 =
      some .ErrUserNotFound ∧
    (userCommandsRepo.DeleteUser (failingEnv (.foreign "conn closed")) Context.Background
      expectedUserID userWorld).2 = some .ErrInternal ∧
    (userCommandsRepo.UpdateUser quietEnv Context.Background storedUser userWorld).2 = none ∧
    (userCommandsRepo.UpdateUser quietEnv Context.Background storedUser emptyWorld).2 =
      some .ErrUserNotFound ∧
    (userCommandsRepo.UpdateUser (failingEnv (.pgError "23505")) Context.Background storedUser
      userWorld).2 = some .ErrInternal :=
  ⟨((mutation_store_results quietEnv Context.Background userWorld).1 expectedUserID).2.2.mpr
      ⟨rfl, ⟨expectedUserID⟩, rfl, by decide⟩,
    rfl, rfl, rfl, rfl, rfl⟩

/-! ## Limits of the list and of the password check -/

/-- On the PostgreSQL store a request with `Limit` 0 never returns users: the
call either fails or panics, and it panics whenever the query itself succeeds,
because the empty result has as many users as the limit and
`users[len(users)-1]` is then out of range. -/
theorem listUsers_limit_zero_panics (env : Env) (ops : SqlOps) (cl : CursorLib) (ctx : Context)
    (req : ListUsersRequest) (w : World) (hlimit : req.Limit = 0) :
    (((NewUserUseCaseQueries env ops).ListUsers cl ctx req w).2 = .panicked ∨
      ∃ err, ((NewUserUseCaseQueries env ops).ListUsers cl ctx req w).2 =
        .returned ([], "", some err)) ∧
    (req.Cursor = "" → driverFault env (userQueriesRepo.db ctx) w = none →
      env.scanErr w.step = none →
      (NewUserUseCaseQueries env ops).ListUsers cl ctx req w =
        (w.log (.ListUsers (userQueriesRepo.db ctx) "" none 0 [] none), .panicked)) := by
  have hstore : ∀ uid ts,
      (∃ c, userQueriesRepo.ListUsers env ops ctx uid ts 0 req.Filters w = (w.log c, ([], none))) ∨
      ∃ c err, userQueriesRepo.ListUsers env ops ctx uid ts 0 req.Filters w =
        (w.log c, ([], some err)) := by
    intro uid ts
    unfold userQueriesRepo.ListUsers
    simp only [Int.toNat_zero, List.take_zero, List.map_nil]
    split
    · split
      · exact Or.inr ⟨_, _, rfl⟩
      · exact Or.inl ⟨_, rfl⟩
    · exact Or.inr ⟨_, _, rfl⟩
  have hfrom : ∀ uid ts,
      ((NewUserUseCaseQueries env ops).listFrom cl ctx req uid ts w).2 = .panicked ∨
      ∃ err, ((NewUserUseCaseQueries env ops).listFrom cl ctx req uid ts w).2 =
        .returned ([], "", some err) := by
    intro uid ts
    have hrepo : (NewUserUseCaseQueries env ops).repo.ListUsers ctx uid ts 0 req.Filters w
        = userQueriesRepo.ListUsers env ops ctx uid ts 0 req.Filters w := rfl
    rcases hstore uid ts with ⟨c, h⟩ | ⟨c, err, h⟩
    · left
      simp only [userUseCaseQueries.listFrom, hlimit, hrepo, h]
      rfl
    · right
      refine ⟨.ErrInternal, ?_⟩
      simp only [userUseCaseQueries.listFrom, hlimit, hrepo, h]
  refine ⟨?_, ?_⟩
  · unfold userUseCaseQueries.ListUsers
    split
    · split
      · exact Or.inr ⟨_, rfl⟩
      · exact hfrom _ _
    · exact hfrom _ _
  · intro hcur hq hs
    have h0 : ¬ req.Cursor.utf8ByteSize > 0 := by
      rw [hcur]
      decide
    have hstore0 : userQueriesRepo.ListUsers env ops ctx "" none 0 req.Filters w =
        (w.log (.ListUsers (userQueriesRepo.db ctx) "" none 0 [] none), ([], none)) := by
      simp only [userQueriesRepo.ListUsers, hq, hs, Int.toNat_zero, List.take_zero, List.map_nil,
        lt_self_iff_false, if_false]
    have hrepo : (NewUserUseCaseQueries env ops).repo.ListUsers ctx "" none 0 req.Filters w
        = userQueriesRepo.ListUsers env ops ctx "" none 0 req.Filters w := rfl
    simp only [userUseCaseQueries.ListUsers, h0, if_false, userUseCaseQueries.listFrom, hlimit,
      hrepo, hstore0]
    rfl

/-- C27 (as written) fails: the request `Limit: 0` without cursor or filters
on the table of five users panics after the query, which returns no user. -/
theorem listUsers_panics_at_limit_zero :
    (NewUserUseCaseQueries quietEnv plainOps).ListUsers goCursorLib Context.Background
        ⟨"", 0, noFilters⟩ pagingWorld =
      (pagingWorld.log (.ListUsers .pool "" none 0 [] none), .panicked) :=
  (listUsers_limit_zero_panics quietEnv plainOps goCursorLib Context.Background
    ⟨"", 0, noFilters⟩ pagingWorld rfl).2 rfl rfl rfl

/-- C30 (as written) fails: `len` counts bytes, so a password of four
characters that takes six bytes (a letter, a digit and two letters of two
bytes each) is accepted. -/
theorem validatePassword_counts_bytes :
    validatePassword plainLib "a1éé" = none ∧
    "a1éé".length = 4 ∧
    "a1éé".utf8ByteSize = 6 :=
  ⟨by decide, by decide, by decide⟩

/-- The bytes of a text of one-byte characters are as many as its
characters. -/
theorem utf8Len_eq_length (cs : List Char) (h : ∀ c ∈ cs, c.utf8Size = 1) :
    String.utf8Len cs = cs.length := by
  induction cs with
  | nil => rfl
  | cons c cs ih =>
    rw [String.utf8Len_cons, List.length_cons, ih (fun d hd => h d (List.mem_cons_of_mem _ hd)),
      h c (List.mem_cons_self _ _)]

/-- C30 (amended).  Every password `validatePassword` accepts has at least 6
bytes; when each of its characters takes one byte, these are at least 6
characters. -/
theorem validatePassword_accepts_six_bytes (lib : Lib) (password : String)
    (h : validatePassword lib password = none) :
    6 ≤ password.utf8ByteSize ∧
    ((∀ c ∈ password.toList, c.utf8Size = 1) → 6 ≤ password.length) := by
  have hbytes : 6 ≤ password.utf8ByteSize := by
    unfold validatePassword at h
    simp only at h
    split at h
    · cases h
    · rename_i hcond
      simp only [Bool.or_eq_true, decide_eq_true_eq, not_or, not_lt] at hcond
      exact hcond.2
  refine ⟨hbytes, ?_⟩
  intro hone
  cases password with
  | mk cs =>
    rw [String.utf8ByteSize_mk, utf8Len_eq_length cs hone] at hbytes
    exact hbytes

/-- Witness for C30 (amended): the accepted password of the repository
test. -/
theorem validatePassword_accepts_six_bytes_witness :
    validatePassword plainLib "Password1!" = none ∧
    6 ≤ "Password1!".utf8ByteSize ∧
    ((∀ c ∈ "Password1!".toList, c.utf8Size = 1) → 6 ≤ "Password1!".length) :=
  ⟨by decide, validatePassword_accepts_six_bytes plainLib "Password1!" (by decide)⟩

/-- C27 (amended).  For any store and any request whose `Limit` is not 0,
`ListUsers` returns: when the store's list has as many users as the limit it
is not empty, so its last element is there. -/
theorem listUsers_returns_normally (uc : userUseCaseQueries) (cl : CursorLib) (ctx : Context)
    (req : ListUsersRequest) (w : World) (hlimit : req.Limit ≠ 0) :
    ∃ value, (uc.ListUsers cl ctx req w).2 = .returned value := by
  have hfrom : ∀ uid ts, ∃ value, (uc.listFrom cl ctx req uid ts w).2 = .returned value := by
    intro uid ts
    unfold userUseCaseQueries.listFrom
    rcases uc.repo.ListUsers ctx uid ts req.Limit req.Filters w with ⟨w1, users, err⟩
    cases err with
    | some e => exact ⟨_, rfl⟩
    | none =>
      simp only
      split
      · rename_i hlen
        cases hlast : users.getLast? with
        | some last => exact ⟨_, rfl⟩
        | none =>
          exfalso
          rw [List.getLast?_eq_none_iff] at hlast
          rw [hlast] at hlen
          exact hlimit hlen.symm
      · exact ⟨_, rfl⟩
  unfold userUseCaseQueries.ListUsers
  split
  · split
    · exact ⟨_, rfl⟩
    · exact hfrom _ _
  · exact hfrom _ _

set_option maxRecDepth 100000 in
/-- Witness for C27 (amended): the limits 2 and -1 on the table of five
users; the database refuses the negative limit and the call returns
`ErrInternal`. -/
theorem listUsers_returns_normally_witness :
    (∃ value, ((NewUserUseCaseQueries quietEnv plainOps).ListUsers goCursorLib
      Context.Background ⟨"", 2, noFilters⟩ pagingWorld).2 = .returned value) ∧
    ((NewUserUseCaseQueries quietEnv plainOps).ListUsers goCursorLib Context.Background
      ⟨"", -1, noFilters⟩ pagingWorld).2 = .returned ([], "", some .ErrInternal) :=
  ⟨listUsers_returns_normally (NewUserUseCaseQueries quietEnv plainOps) goCursorLib
    Context.Background ⟨"", 2, noFilters⟩ pagingWorld (by decide), rfl⟩

/-! ## The SQL text of the list query -/

/-- The five filter blocks, from any clauses and arguments gathered before
them: the patterns of the supplied filters are appended to the arguments in
order, and the clause of each carries the position of its pattern. -/
theorem filterBlocks_numbered (q0 : QueryParts) (filters : UserSearchFilters) :
    addFilterClause "country_iso_code" filters.CountryISOCode (fun v => v)
      (addFilterClause "email" filters.Email (fun v => "%" ++ v ++ "%")
        (addFilterClause "nickname" filters.NickName (fun v => "%" ++ v ++ "%")
          (addFilterClause "last_name" filters.LastName (fun v => "%" ++ v ++ "%")
            (addFilterClause "first_name" filters.FirstName (fun v => "%" ++ v ++ "%") q0)))) =
      { whereClauses := q0.whereClauses ++
          numberedClauses (q0.args.length + 1) ((suppliedFilters filters).map Prod.fst)
        args := q0.args ++ (suppliedFilters filters).map (fun cv => SqlArg.text cv.2) } := by
  obtain ⟨f1, f2, f3, f4, f5⟩ := filters
  obtain ⟨cs, as⟩ := q0
  cases f1 <;> cases f2 <;> cases f3 <;> cases f4 <;> cases f5 <;>
    simp [addFilterClause, suppliedFilters, numberedClauses, Nat.add_assoc]

/-- The clauses and arguments of the list query: those of the cursor, then
those of the supplied filters, each clause carrying the position of its
argument. -/
theorem listQueryParts_eq (cursorUserID : String) (cursorUpdatedAt : Option Nat)
    (filters : UserSearchFilters) :
    userQueriesRepo.listQueryParts cursorUserID cursorUpdatedAt filters =
      { whereClauses := cursorClauses cursorUserID cursorUpdatedAt ++
          numberedClauses ((cursorArgs cursorUserID cursorUpdatedAt).length + 1)
            ((suppliedFilters filters).map Prod.fst)
        args := cursorArgs cursorUserID cursorUpdatedAt ++
          (suppliedFilters filters).map (fun cv => SqlArg.text cv.2) } := by
  unfold userQueriesRepo.listQueryParts
  simp only []
  rw [filterBlocks_numbered]
  cases cursorUpdatedAt with
  | none => simp [cursorArgs, cursorClauses]
  | some ts =>
    by_cases h : cursorUserID = ""
    · simp [cursorArgs, cursorClauses, h]
    · simp [cursorArgs, cursorClauses, h]

/-- The columns of the supplied filters are some of the five columns, in
their order. -/
theorem suppliedFilters_columns (filters : UserSearchFilters) :
    (suppliedFilters filters).map Prod.fst ∈
      List.sublists ["first_name", "last_name", "nickname", "email", "country_iso_code"] := by
  obtain ⟨f1, f2, f3, f4, f5⟩ := filters
  cases f1 <;> cases f2 <;> cases f3 <;> cases f4 <;> cases f5 <;>
    (simp [suppliedFilters]; try decide)

set_option maxRecDepth 100000 in
/-- In the text with numbered placeholders, for every choice of columns, the
placeholders that occur are `$1` to `$n`, `n` the number of arguments. -/
theorem numberedListQuery_placeholders :
    ∀ cursor : Bool, ∀ columns ∈ List.sublists
        ["first_name", "last_name", "nickname", "email", "country_iso_code"],
      (placeholders (numberedListQuery cursor columns)).dedup =
        List.range' 1 ((if cursor then 2 else 0) + columns.length + 1) := by
  decide

/-- The cursor clause and the number of cursor arguments, by whether the
cursor is there. -/
theorem cursorParts_eq (cursorUserID : String) (cursorUpdatedAt : Option Nat) :
    (cursorClauses cursorUserID cursorUpdatedAt =
        if (decide (cursorUserID ≠ "") && cursorUpdatedAt.isSome) = true then [keysetText]
        else []) ∧
      (cursorArgs cursorUserID cursorUpdatedAt).length =
        if (decide (cursorUserID ≠ "") && cursorUpdatedAt.isSome) = true then 2 else 0 := by
  cases cursorUpdatedAt with
  | none => simp [cursorArgs, cursorClauses]
  | some ts =>
    by_cases h : cursorUserID = ""
    · simp [cursorArgs, cursorClauses, h]
    · simp [cursorArgs, cursorClauses, h]

/-- The arguments of the list query: those of the cursor, the patterns of the
supplied filters, the limit. -/
theorem listQuery_args (cursorUserID : String) (cursorUpdatedAt : Option Nat) (limit : Int)
    (filters : UserSearchFilters) :
    (userQueriesRepo.listQuery cursorUserID cursorUpdatedAt limit filters).2 =
      cursorArgs cursorUserID cursorUpdatedAt ++
        (suppliedFilters filters).map (fun cv => SqlArg.text cv.2) ++ [SqlArg.int32 limit] := by
  simp only [userQueriesRepo.listQuery, listQueryParts_eq]

/-- The text of the list query is the text with numbered placeholders. -/
theorem listQuery_text (cursorUserID : String) (cursorUpdatedAt : Option Nat) (limit : Int)
    (filters : UserSearchFilters) :
    (userQueriesRepo.listQuery cursorUserID cursorUpdatedAt limit filters).1 =
      numberedListQuery (decide (cursorUserID ≠ "") && cursorUpdatedAt.isSome)
        ((suppliedFilters filters).map Prod.fst) := by
  simp only [userQueriesRepo.listQuery, listQueryParts_eq, numberedListQuery,
    (cursorParts_eq cursorUserID cursorUpdatedAt).1,
    (cursorParts_eq cursorUserID cursorUpdatedAt).2, List.length_append, List.length_map]

/-- C29.  For every cursor id, cursor time, limit and filters: the arguments
handed to `Query` are the cursor time and id (when the id is not empty and the
time not nil), then the pattern of each supplied filter in the order
first_name, last_name, nickname, email, country, then the limit; the SQL text
is the text in which the keyset clause names `$1` and `$2`, the clause of each
supplied filter names the position of its pattern among the arguments and
`LIMIT` names the position of the limit; and the placeholders that occur in
the text are exactly `$1` to `$n`, `n` the number of arguments. -/
theorem listQuery_placeholders (cursorUserID : String) (cursorUpdatedAt : Option Nat)
    (limit : Int) (filters : UserSearchFilters) :
    (userQueriesRepo.listQuery cursorUserID cursorUpdatedAt limit filters).2 =
      cursorArgs cursorUserID cursorUpdatedAt ++
        (suppliedFilters filters).map (fun cv => SqlArg.text cv.2) ++ [.int32 limit] ∧
    (userQueriesRepo.listQuery cursorUserID cursorUpdatedAt limit filters).1 =
      numberedListQuery (decide (cursorUserID ≠ "") && cursorUpdatedAt.isSome)
        ((suppliedFilters filters).map Prod.fst) ∧
    (placeholders (userQueriesRepo.listQuery cursorUserID cursorUpdatedAt limit
        filters).1).dedup =
      List.range' 1 (userQueriesRepo.listQuery cursorUserID cursorUpdatedAt limit
        filters).2.length := by
  refine ⟨listQuery_args _ _ _ _, listQuery_text _ _ _ _, ?_⟩
  rw [listQuery_text, listQuery_args]
  have hlen : (cursorArgs cursorUserID cursorUpdatedAt ++
      (suppliedFilters filters).map (fun cv => SqlArg.text cv.2) ++
        [SqlArg.int32 limit]).length =
      (if (decide (cursorUserID ≠ "") && cursorUpdatedAt.isSome) = true then 2 else 0) +
        ((suppliedFilters filters).map Prod.fst).length + 1 := by
    simp only [List.length_append, List.length_map, List.length_singleton,
      (cursorParts_eq cursorUserID cursorUpdatedAt).2]
  rw [hlen]
  exact numberedListQuery_placeholders _ _ (suppliedFilters_columns filters)

set_option maxRecDepth 100000 in
/-- Witness for C29: a cursor with the filters first_name, nickname and
country. -/
theorem listQuery_placeholders_witness :
    userQueriesRepo.listQuery "abc" (some testInstant) 10
        ⟨some "fi", none, some "ni", none, some "UK"⟩ =
      ("\n\t\tSELECT id, first_name, last_name, country_iso_code, nickname, email, created_at, updated_at \n\t\tFROM users \n\t\tWHERE (updated_at < $1 OR (updated_at = $1 AND id < $2)) AND first_name ILIKE $3 AND nickname ILIKE $4 AND country_iso_code ILIKE $5 \n\t\tORDER BY updated_at DESC, id DESC LIMIT $6",
        [.timestamp testInstant, .text "abc", .text "%fi%", .text "%ni%", .text "UK",
          .int32 10]) ∧
    (placeholders (userQueriesRepo.listQuery "abc" (some testInstant) 10
        ⟨some "fi", none, some "ni", none, some "UK"⟩).1).dedup = [1, 2, 3, 4, 5, 6] :=
  ⟨by decide,
    (listQuery_placeholders "abc" (some testInstant) 10
      ⟨some "fi", none, some "ni", none, some "UK"⟩).2.2⟩

/-! ## Cursors and the keyset clause -/

/-- Joining texts gives a text that starts with what was gathered so far. -/
theorem intercalateGo_prefix (sep : String) (rest : List String) :
    ∀ acc : String, ∃ tail : String, String.intercalate.go acc sep rest = acc ++ tail := by
  induction rest with
  | nil => intro acc; exact ⟨"", by simp [String.intercalate.go]⟩
  | cons a as ih =>
    intro acc
    obtain ⟨tail, h⟩ := ih (acc ++ sep ++ a)
    refine ⟨sep ++ a ++ tail, ?_⟩
    rw [String.intercalate.go, h]
    simp only [String.append_assoc]

/-- The users the list query returns when it succeeds with a cursor all
satisfy the keyset clause of that cursor. -/
theorem repoListUsers_keyset (env : Env) (ops : SqlOps) (ctx : Context) (uid : String)
    (ts : Nat) (limit : Int) (filters : UserSearchFilters) (w w1 : World) (users : List User)
    (huid : uid ≠ "")
    (h : userQueriesRepo.ListUsers env ops ctx uid (some ts) limit filters w = (w1, (users, none))) :
    ∃ id, env.uuidIn uid = some id ∧ ∀ u ∈ users, keysetClause ts id u = true := by
  unfold userQueriesRepo.ListUsers at h
  simp only [huid, ne_eq, not_false_eq_true, if_true] at h
  cases hf : driverFault env (userQueriesRepo.db ctx) w with
  | some e => simp [hf] at h
  | none =>
    by_cases hl : limit < 0
    · simp [hf, hl] at h
    · cases hid : env.uuidIn uid with
      | none => simp [hf, hl, hid] at h
      | some id =>
        cases hs : env.scanErr w.step with
        | some e => simp [hf, hl, hid, hs] at h
        | none =>
          refine ⟨id, rfl, ?_⟩
          simp only [hf, hl, hid, hs, if_false, Option.map_some', Prod.mk.injEq, and_true] at h
          obtain ⟨_, rfl⟩ := h
          intro u hu
          rw [List.mem_map] at hu
          obtain ⟨row, hrow, rfl⟩ := hu
          have h1 := List.mem_of_mem_take hrow
          have h2 := (List.perm_insertionSort listOrder _).mem_iff.mp h1
          rw [List.mem_filter, Bool.and_eq_true] at h2
          exact h2.2.1

/-- The where clauses of the list query for a cursor with an id and a time
start with the keyset clause. -/
theorem listQueryParts_keyset (uid : String) (ts : Nat) (filters : UserSearchFilters)
    (huid : uid ≠ "") :
    ∃ rest, (userQueriesRepo.listQueryParts uid (some ts) filters).whereClauses =
      keysetText :: rest := by
  rw [listQueryParts_eq]
  refine ⟨numberedClauses ((cursorArgs uid (some ts)).length + 1)
    ((suppliedFilters filters).map Prod.fst), ?_⟩
  simp [cursorClauses, huid]

/-- C28 (amended).  For every request whose cursor is not empty and decodes
to a time and a user id that is not empty, on the PostgreSQL store: the store
is called with the decoded pair; the query it builds has the keyset clause as
its first where clause, inside the SQL text, with the decoded time and id as
the arguments `$1` and `$2`; and when the call returns users, each of them
satisfies the keyset predicate of the decoded pair. -/
theorem decoded_cursor_adds_keyset (env : Env) (ops : SqlOps) (cl : CursorLib) (ctx : Context)
    (req : ListUsersRequest) (w : World) (ts : Nat) (uid : String)
    (hne : req.Cursor ≠ "") (hdec : decodeCursor cl req.Cursor = .ok (ts, uid))
    (huid : uid ≠ "") :
    (NewUserUseCaseQueries env ops).ListUsers cl ctx req w =
      (NewUserUseCaseQueries env ops).listFrom cl ctx req uid (some ts) w ∧
    (userQueriesRepo.listQueryParts uid (some ts) req.Filters).whereClauses.head? =
      some keysetText ∧
    (userQueriesRepo.listQuery uid (some ts) req.Limit req.Filters).2.take 2 =
      [.timestamp ts, .text uid] ∧
    keysetText.toList <:+:
      (userQueriesRepo.listQuery uid (some ts) req.Limit req.Filters).1.toList ∧
    (∀ w1 users next,
      (NewUserUseCaseQueries env ops).ListUsers cl ctx req w =
        (w1, .returned (users, next, none)) →
      ∃ id, env.uuidIn uid = some id ∧ ∀ u ∈ users, keysetClause ts id u = true) := by
  have hcall : (NewUserUseCaseQueries env ops).ListUsers cl ctx req w =
      (NewUserUseCaseQueries env ops).listFrom cl ctx req uid (some ts) w := by
    have hpos := utf8ByteSize_pos_of_ne_empty req.Cursor hne
    simp only [userUseCaseQueries.ListUsers, hpos, if_true, hdec]
  obtain ⟨rest, hrest⟩ := listQueryParts_keyset uid ts req.Filters huid
  refine ⟨hcall, ?_, ?_, ?_, ?_⟩
  · rw [hrest]
    rfl
  · rw [listQuery_args]
    simp [cursorArgs, huid]
  · obtain ⟨tail, htail⟩ := intercalateGo_prefix " AND " rest keysetText
    have htext : (userQueriesRepo.listQuery uid (some ts) req.Limit req.Filters).1 =
        "\n\t\tSELECT id, first_name, last_name, country_iso_code, nickname, email, created_at, updated_at \n\t\tFROM users \n\t\t"
          ++ ("WHERE " ++ (keysetText ++ tail))
          ++ " \n\t\tORDER BY updated_at DESC, id DESC LIMIT $"
          ++ sprintNat ((userQueriesRepo.listQueryParts uid (some ts)
              req.Filters).args.length + 1) := by
      simp only [userQueriesRepo.listQuery, hrest, List.length_cons, gt_iff_lt,
        Nat.zero_lt_succ, if_true, String.intercalate, htail]
    rw [htext]
    refine ⟨("\n\t\tSELECT id, first_name, last_name, country_iso_code, nickname, email, created_at, updated_at \n\t\tFROM users \n\t\t"
        ++ "WHERE ").toList,
      (tail ++ " \n\t\tORDER BY updated_at DESC, id DESC LIMIT $"
        ++ sprintNat ((userQueriesRepo.listQueryParts uid (some ts)
            req.Filters).args.length + 1)).toList, ?_⟩
    simp only [String.toList, String.data_append, List.append_assoc]
  · intro w1 users next hrun
    rw [hcall] at hrun
    unfold userUseCaseQueries.listFrom at hrun
    rcases hrepo : (NewUserUseCaseQueries env ops).repo.ListUsers ctx uid (some ts) req.Limit
      req.Filters w with ⟨w2, us, err⟩
    rw [hrepo] at hrun
    have hus : err = none ∧ us = users := by
      cases err with
      | some e => simp at hrun
      | none =>
        simp only at hrun
        split at hrun
        · split at hrun
          · simp only [Prod.mk.injEq, Outcome.returned.injEq] at hrun
            exact ⟨rfl, hrun.2.1⟩
          · simp at hrun
        · simp only [Prod.mk.injEq, Outcome.returned.injEq] at hrun
          exact ⟨rfl, hrun.2.1⟩
    obtain ⟨rfl, rfl⟩ := hus
    exact repoListUsers_keyset env ops ctx uid ts req.Limit req.Filters w w2 us huid hrepo

set_option maxRecDepth 100000 in
/-- Witness for C28 (amended): the second page of the five users, asked for
with the cursor of the first page, holds the two users after the cursor. -/
theorem decoded_cursor_adds_keyset_witness :
    decodeCursor goCursorLib
        "MjAyNC0wOC0yMlQyMDozMDowNFp8MGY5MTNmNmEtNDk3Yi00MzA1LWIzZDEtM2Y1MzY1N2UzYTI0" =
      .ok (1724358604000000000, "0f913f6a-497b-4305-b3d1-3f53657e3a24") ∧
    ((NewUserUseCaseQueries quietEnv plainOps).ListUsers goCursorLib Context.Background
        ⟨"MjAyNC0wOC0yMlQyMDozMDowNFp8MGY5MTNmNmEtNDk3Yi00MzA1LWIzZDEtM2Y1MzY1N2UzYTI0", 2,
          noFilters⟩ pagingWorld).2 =
      .returned
        ([(userAt "0f913f6a-497b-4305-b3d1-3f53657e3a23" 1724358604000000000).selected,
          (userAt "0f913f6a-497b-4305-b3d1-3f53657e3a22" 1724358603500000000).selected],
        "MjAyNC0wOC0yMlQyMDozMDowMy41WnwwZjkxM2Y2YS00OTdiLTQzMDUtYjNkMS0zZjUzNjU3ZTNhMjI=",
        none) ∧
    (userQueriesRepo.listQueryParts "0f913f6a-497b-4305-b3d1-3f53657e3a24"
        (some 1724358604000000000) noFilters).whereClauses.head? = some keysetText :=
  ⟨rfl, rfl,
    (decoded_cursor_adds_keyset quietEnv plainOps goCursorLib Context.Background
      ⟨"MjAyNC0wOC0yMlQyMDozMDowNFp8MGY5MTNmNmEtNDk3Yi00MzA1LWIzZDEtM2Y1MzY1N2UzYTI0", 2,
        noFilters⟩ pagingWorld 1724358604000000000 "0f913f6a-497b-4305-b3d1-3f53657e3a24"
      (by decide) rfl (by decide)).2.1⟩

set_option maxRecDepth 100000 in
/-- C28 (as written) fails: the cursor whose text is a time, the bar and an
empty id decodes, and the request returns the first page of the table, as a
request without cursor does, although no user was updated before that time;
the query has no where clause. -/
theorem cursor_without_id_lists_first_page :
    decodeCursor goCursorLib "MjAyNC0wOC0yMlQyMDozMDowM1p8" = .ok (testInstant, "") ∧
    ((NewUserUseCaseQueries quietEnv plainOps).ListUsers goCursorLib Context.Background
        ⟨"MjAyNC0wOC0yMlQyMDozMDowM1p8", 2, noFilters⟩ pagingWorld).2 =
      ((NewUserUseCaseQueries quietEnv plainOps).ListUsers goCursorLib Context.Background
        ⟨"", 2, noFilters⟩ pagingWorld).2 ∧
    ((NewUserUseCaseQueries quietEnv plainOps).ListUsers goCursorLib Context.Background
        ⟨"MjAyNC0wOC0yMlQyMDozMDowM1p8", 2, noFilters⟩ pagingWorld).2 =
      .returned
        ([(userAt "0f913f6a-497b-4305-b3d1-3f53657e3a25" 1724358605123456789).selected,
          (userAt "0f913f6a-497b-4305-b3d1-3f53657e3a24" 1724358604000000000).selected],
        "MjAyNC0wOC0yMlQyMDozMDowNFp8MGY5MTNmNmEtNDk3Yi00MzA1LWIzZDEtM2Y1MzY1N2UzYTI0",
        none) ∧
    (∀ u ∈ pagingWorld.committed.users, ¬ u.UpdatedAt < testInstant) ∧
    userQueriesRepo.listQueryParts "" (some testInstant) noFilters = ⟨[], []⟩ ∧
    ¬ keysetText.toList <:+:
      (userQueriesRepo.listQuery "" (some testInstant) 2 noFilters).1.toList :=
  ⟨rfl, rfl, rfl, by decide, rfl, by decide⟩

/-! ## Filters of the list query -/

/-- The places of plain characters followed by a pattern: the characters
themselves, then the places of the pattern. -/
theorem likeTokens_plain_append (v p : List Char) (hv : plainChars v) :
    likeTokens (v ++ p) false =
      (likeTokens p false).map (fun ts => v.map LikeToken.literal ++ ts) := by
  induction v with
  | nil => simp
  | cons c v ih =>
    obtain ⟨h1, h2, h3⟩ := hv
    have hc1 : c ≠ '%' := fun e => h1 (by simp [e])
    have hc2 : c ≠ '_' := fun e => h2 (by simp [e])
    have hc3 : c ≠ likeEscape := fun e => h3 (by simp [e])
    have hv' : plainChars v :=
      ⟨fun e => h1 (by simp [e]), fun e => h2 (by simp [e]), fun e => h3 (by simp [e])⟩
    rw [List.cons_append, likeTokens]
    simp only [hc1, hc2, hc3, if_false, ih hv', Option.map_map]
    rfl

/-- Literal places followed by others match the texts that start with the
literal characters and go on with a match of the others. -/
theorem likeMatchTokens_literals (v : List Char) (ts : List LikeToken) :
    ∀ t, likeMatchTokens (v.map LikeToken.literal ++ ts) t = true ↔
      ∃ rest, t = v ++ rest ∧ likeMatchTokens ts rest = true := by
  induction v with
  | nil => intro t; simp
  | cons c v ih =>
    intro t
    cases t with
    | nil => simp [likeMatchTokens]
    | cons d t =>
      have hstep : likeMatchTokens (List.map LikeToken.literal (c :: v) ++ ts) (d :: t) =
          (decide (c = d) && likeMatchTokens (List.map LikeToken.literal v ++ ts) t) := rfl
      rw [hstep, Bool.and_eq_true, decide_eq_true_eq, ih t]
      constructor
      · rintro ⟨rfl, rest, rfl, h⟩
        exact ⟨rest, rfl, h⟩
      · rintro ⟨rest, hrest, h⟩
        rw [List.cons_append, List.cons.injEq] at hrest
        obtain ⟨rfl, rfl⟩ := hrest
        exact ⟨rfl, rest, rfl, h⟩

/-- The pattern `%v%` with plain `v` matches the texts that hold `v`. -/
theorem likeMatch_contains (v t : List Char) (hv : plainChars v) :
    likeMatch ('%' :: (v ++ ['%'])) t = true ↔ v <:+: t := by
  have htok : likeTokens ('%' :: (v ++ ['%'])) false =
      some (LikeToken.anyRun :: (v.map LikeToken.literal ++ [LikeToken.anyRun])) := by
    rw [likeTokens]
    have h92 : ¬ '%' = likeEscape := by decide
    simp only [h92, if_false, if_true, likeTokens_plain_append v ['%'] hv]
    rfl
  simp only [likeMatch, htok, likeMatchTokens, List.any_eq_true, List.mem_tails,
    likeMatchTokens_literals]
  constructor
  · rintro ⟨s, ⟨pre, rfl⟩, rest, rfl, _⟩
    exact ⟨pre, rest, by simp⟩
  · rintro ⟨pre, rest, rfl⟩
    exact ⟨v ++ rest, ⟨pre, by simp⟩, rest, rfl, [], List.nil_suffix, rfl⟩

/-- A plain pattern matches itself only. -/
theorem likeMatch_equals (v t : List Char) (hv : plainChars v) :
    likeMatch v t = true ↔ t = v := by
  have htok : likeTokens v false = some (v.map LikeToken.literal ++ []) := by
    have h := likeTokens_plain_append v [] hv
    rw [List.append_nil] at h
    rw [h]
    rfl
  simp only [likeMatch, htok, likeMatchTokens_literals, likeMatchTokens]
  constructor
  · rintro ⟨rest, rfl, hr⟩
    cases rest with
    | nil => simp
    | cons a as => simp at hr
  · rintro rfl
    exact ⟨[], by simp, rfl⟩

/-- Lowering a character gives a pattern character only when it was that
character. -/
theorem toLower_special (c x : Char) (hx : x = '%' ∨ x = '_' ∨ x = likeEscape)
    (h : c.toLower = x) : c = x := by
  unfold Char.toLower at h
  simp only at h
  split at h
  · rename_i hr
    exfalso
    have hn : (Char.ofNat (c.toNat + 32)).toNat = x.toNat := by rw [h]
    generalize c.toNat = n at hr hn
    obtain ⟨h65, h90⟩ := hr
    rcases hx with rfl | rfl | rfl <;>
      (interval_cases n <;> revert hn <;> decide)
  · exact h

/-- The lower-casing of Latin-1 gives a pattern character only when it was
that character. -/
theorem latin1Lower_special (c x : Char) (hx : x = '%' ∨ x = '_' ∨ x = likeEscape)
    (h : latin1Lower c = x) : c = x := by
  unfold latin1Lower at h
  split at h
  · rename_i hr
    exfalso
    have hn : (Char.ofNat (c.toNat + 32)).toNat = x.toNat := by rw [h]
    generalize c.toNat = n at hr hn
    have hlo : 65 ≤ n := by omega
    have hhi : n ≤ 222 := by omega
    rcases hx with rfl | rfl | rfl <;>
      (interval_cases n <;> revert hn <;> decide)
  · exact h

/-- Lowering the characters of a plain text leaves it plain, when lowering
gives a pattern character only from itself. -/
theorem plainChars_map (fold : Char → Char)
    (hfold : ∀ c x, (x = '%' ∨ x = '_' ∨ x = likeEscape) → fold c = x → c = x)
    (v : List Char) (hv : plainChars v) : plainChars (v.map fold) := by
  obtain ⟨h1, h2, h3⟩ := hv
  refine ⟨?_, ?_, ?_⟩ <;>
    (intro hmem
     rw [List.mem_map] at hmem
     obtain ⟨c, hc, hlow⟩ := hmem
     first
       | exact h1 (hfold c _ (Or.inl rfl) hlow ▸ hc)
       | exact h2 (hfold c _ (Or.inr (Or.inl rfl)) hlow ▸ hc)
       | exact h3 (hfold c _ (Or.inr (Or.inr rfl)) hlow ▸ hc))

/-- The stand-in for `ILIKE` with the pattern `%v%`, `v` plain: the field
holds `v`, both in lower case. -/
theorem sqlILike_contains (fold : Char → Char)
    (hfold : ∀ c x, (x = '%' ∨ x = '_' ∨ x = likeEscape) → fold c = x → c = x)
    (hpct : fold '%' = '%') (field v : String) (hv : plainText v) :
    sqlILike fold field ("%" ++ v ++ "%") = containsFold (lowerBy fold) field v := by
  have hpat : (lowerBy fold ("%" ++ v ++ "%")).toList = '%' :: (v.toList.map fold ++ ['%']) := by
    simp [lowerBy, String.toList, hpct]
  have hval : (lowerBy fold v).toList = v.toList.map fold := rfl
  rw [sqlILike, hpat, containsFold, hval, Bool.eq_iff_iff, decide_eq_true_iff]
  exact likeMatch_contains (v.toList.map fold) _ (plainChars_map fold hfold _ hv)

/-- The stand-in for `ILIKE` with a plain pattern: the field is the pattern,
both in lower case. -/
theorem sqlILike_equals (fold : Char → Char)
    (hfold : ∀ c x, (x = '%' ∨ x = '_' ∨ x = likeEscape) → fold c = x → c = x)
    (field v : String) (hv : plainText v) :
    sqlILike fold field v = equalsFold (lowerBy fold) field v := by
  have hval : (lowerBy fold v).toList = v.toList.map fold := rfl
  rw [sqlILike, equalsFold, Bool.eq_iff_iff, decide_eq_true_iff, hval,
    likeMatch_equals (v.toList.map fold) _ (plainChars_map fold hfold _ hv)]
  constructor
  · intro h
    exact congrArg String.mk h
  · intro h
    have := congrArg String.toList h
    exact this

/-- The users a successful list query returns: the rows that its keyset
clause (when there is a cursor) and its filter clauses select, put in order,
cut at the limit. -/
theorem repoListUsers_rows (env : Env) (ops : SqlOps) (ctx : Context) (uid : String)
    (ts : Option Nat) (limit : Int) (filters : UserSearchFilters) (w w1 : World)
    (users : List User)
    (h : userQueriesRepo.ListUsers env ops ctx uid ts limit filters w = (w1, (users, none))) :
    ∃ keyset : User → Bool,
      users = ((((w.view (userQueriesRepo.db ctx)).users.filter
        (fun r => keyset r && filterClauses ops filters r)).insertionSort listOrder).take
          limit.toNat).map User.selected ∧
      (uid = "" ∨ ts = none → keyset = fun _ => true) := by
  unfold userQueriesRepo.ListUsers at h
  simp only at h
  split at h
  · rename_i clause _ hk
    split at h
    · simp at h
    · simp only [Prod.mk.injEq, and_true] at h
      refine ⟨clause, h.2.symm, ?_⟩
      intro hcur
      by_cases hl : limit < 0
      · simp [hl] at hk
      · simp only [hl, if_false] at hk
        cases ts with
        | none =>
          simp only [Option.some.injEq] at hk
          exact hk.symm
        | some t =>
          rcases hcur with rfl | hc
          · simp only [ne_eq, not_true_eq_false, if_false, Option.some.injEq] at hk
            exact hk.symm
          · cases hc
  · simp at h

/-- C26 (amended).  Let `lower` be the lower-casing of the locale of the
database, so that for every `v` without the pattern characters `%`, `_` and
backslash `ILIKE` with the pattern `%v%` selects the texts that hold `v` and
with the pattern `v` the texts equal to `v`, both sides in lower case.  When
every supplied filter value is without pattern characters, the filter clauses
select exactly the users whose first name, last name, nickname and email hold
the value of the filter supplied for them and whose country code is the value
of the country filter, all compared in lower case; and a successful query
returns the rows so selected (and selected by the keyset clause, when there is
a cursor), put in order, the limit applied last. -/
theorem filters_select_matching_users (env : Env) (ops : SqlOps) (lower : String → String)
    (ctx : Context) (uid : String) (ts : Option Nat) (limit : Int)
    (filters : UserSearchFilters) (w : World)
    (hcontains : ∀ field v, plainText v →
      ops.ilike field ("%" ++ v ++ "%") = containsFold lower field v)
    (hequals : ∀ field v, plainText v → ops.ilike field v = equalsFold lower field v)
    (hplain : plainFilters filters) :
    (∀ u, filterClauses ops filters u = matchesFilters lower filters u) ∧
    (∀ w1 users,
      userQueriesRepo.ListUsers env ops ctx uid ts limit filters w = (w1, (users, none)) →
      ∃ keyset : User → Bool,
        users = ((((w.view (userQueriesRepo.db ctx)).users.filter
          (fun r => keyset r && matchesFilters lower filters r)).insertionSort listOrder).take
            limit.toNat).map User.selected ∧
        (uid = "" ∨ ts = none → keyset = fun _ => true)) := by
  have hsel : ∀ u, filterClauses ops filters u = matchesFilters lower filters u := by
    intro u
    obtain ⟨f1, f2, f3, f4, f5⟩ := filters
    have h1 : ∀ v, f1 = some v → plainText v := fun v e => hplain v (Or.inl e)
    have h2 : ∀ v, f2 = some v → plainText v := fun v e => hplain v (Or.inr (Or.inl e))
    have h3 : ∀ v, f3 = some v → plainText v := fun v e => hplain v (Or.inr (Or.inr (Or.inl e)))
    have h4 : ∀ v, f4 = some v → plainText v :=
      fun v e => hplain v (Or.inr (Or.inr (Or.inr (Or.inl e))))
    have h5 : ∀ v, f5 = some v → plainText v :=
      fun v e => hplain v (Or.inr (Or.inr (Or.inr (Or.inr e))))
    unfold filterClauses matchesFilters
    congr 1
    · congr 1
      · congr 1
        · congr 1
          · cases f1 with
            | none => rfl
            | some v => exact hcontains _ v (h1 v rfl)
          · cases f2 with
            | none => rfl
            | some v => exact hcontains _ v (h2 v rfl)
        · cases f3 with
          | none => rfl
          | some v => exact hcontains _ v (h3 v rfl)
      · cases f4 with
        | none => rfl
        | some v => exact hcontains _ v (h4 v rfl)
    · cases f5 with
      | none => rfl
      | some v => exact hequals _ v (h5 v rfl)
  refine ⟨hsel, ?_⟩
  intro w1 users h
  obtain ⟨keyset, hrows, hkey⟩ := repoListUsers_rows env ops ctx uid ts limit filters w w1 users h
  refine ⟨keyset, ?_, hkey⟩
  rw [hrows]
  simp only [hsel]

set_option maxRecDepth 100000 in
/-- Witness for C26 (amended), in two locales.  In the locale that knows A to
Z only: of three users, the filters first name `ANN` and country `uk` select
`Hannah` and `Anna`, both from `UK` in some case; with the limit 1 only the
later updated of them is returned.  In the locale of Latin-1: the first name
filter `josé` selects the user `JOSÉ`. -/
theorem filters_select_matching_users_witness :
    plainFilters ⟨some "ANN", none, none, none, some "uk"⟩ ∧
    (userQueriesRepo.ListUsers quietEnv (likeOps Char.toLower) Context.Background "" none 10
        ⟨some "ANN", none, none, none, some "uk"⟩ namesWorld).2 =
      ([(namedUser "0f913f6a-497b-4305-b3d1-3f53657e3a33" "Hannah" "Uk" 3).selected,
        (namedUser "0f913f6a-497b-4305-b3d1-3f53657e3a31" "Anna" "UK" 1).selected], none) ∧
    (userQueriesRepo.ListUsers quietEnv (likeOps Char.toLower) Context.Background "" none 1
        ⟨some "ANN", none, none, none, some "uk"⟩ namesWorld).2 =
      ([(namedUser "0f913f6a-497b-4305-b3d1-3f53657e3a33" "Hannah" "Uk" 3).selected], none) ∧
    (∀ u, filterClauses (likeOps Char.toLower) ⟨some "ANN", none, none, none, some "uk"⟩ u =
      matchesFilters (lowerBy Char.toLower) ⟨some "ANN", none, none, none, some "uk"⟩ u) ∧
    plainFilters ⟨some "josé", none, none, none, none⟩ ∧
    (userQueriesRepo.ListUsers quietEnv (likeOps latin1Lower) Context.Background "" none 10
        ⟨some "josé", none, none, none, none⟩ accentWorld).2 =
      ([(namedUser "0f913f6a-497b-4305-b3d1-3f53657e3a34" "JOSÉ" "PT" 4).selected], none) ∧
    (∀ u, filterClauses (likeOps latin1Lower) ⟨some "josé", none, none, none, none⟩ u =
      matchesFilters (lowerBy latin1Lower) ⟨some "josé", none, none, none, none⟩ u) :=
  have hplain : plainFilters ⟨some "ANN", none, none, none, some "uk"⟩ := by
    intro v hv
    have hv2 : v = "ANN" ∨ v = "uk" := by
      rcases hv with h | h | h | h | h
      · exact Or.inl (Option.some.inj h).symm
      · cases h
      · cases h
      · cases h
      · exact Or.inr (Option.some.inj h).symm
    rcases hv2 with rfl | rfl
    · unfold plainText plainChars
      decide
    · unfold plainText plainChars
      decide
  have hplain2 : plainFilters ⟨some "josé", none, none, none, none⟩ := by
    intro v hv
    have hv2 : v = "josé" := by
      rcases hv with h | h | h | h | h
      · exact (Option.some.inj h).symm
      · cases h
      · cases h
      · cases h
      · cases h
    subst hv2
    unfold plainText plainChars
    decide
  ⟨hplain, rfl, rfl,
    (filters_select_matching_users quietEnv (likeOps Char.toLower) (lowerBy Char.toLower)
      Context.Background "" none 10 ⟨some "ANN", none, none, none, some "uk"⟩ namesWorld
      (sqlILike_contains Char.toLower toLower_special rfl)
      (sqlILike_equals Char.toLower toLower_special) hplain).1,
    hplain2, rfl,
    (filters_select_matching_users quietEnv (likeOps latin1Lower) (lowerBy latin1Lower)
      Context.Background "" none 10 ⟨some "josé", none, none, none, none⟩ accentWorld
      (sqlILike_contains latin1Lower latin1Lower_special rfl)
      (sqlILike_equals latin1Lower latin1Lower_special) hplain2).1⟩

set_option maxRecDepth 100000 in
/-- C26 (as written) fails: the filters are `ILIKE` patterns.  The country
filter `uk` selects the stored user, whose country code `UK` is not the value
of the filter; the first name filter `f_rst` selects the stored user, whose
first name `first` does not hold `f_rst`, in lower case or not. -/
theorem filters_are_patterns :
    (userQueriesRepo.ListUsers quietEnv (likeOps Char.toLower) Context.Background "" none 10
        ⟨none, none, none, none, some "uk"⟩ userWorld).2 = ([storedUser.selected], none) ∧
    storedUser.CountryISOCode ≠ "uk" ∧
    (userQueriesRepo.ListUsers quietEnv (likeOps Char.toLower) Context.Background "" none 10
        ⟨some "f_rst", none, none, none, none⟩ userWorld).2 = ([storedUser.selected], none) ∧
    containsFold (lowerBy Char.toLower) storedUser.FirstName "f_rst" = false ∧
    containsFold (fun s => s) storedUser.FirstName "f_rst" = false :=
  ⟨rfl, by decide, rfl, by decide, by decide⟩

/-! ## Scheduler of the drain workers -/

/-- A worker passing from `ProcessOnce` to its deferred receive keeps its
slot. -/
theorem slotHolders_set_releasing (ws : List WorkerPc) :
    ∀ i, ws[i]? = some .processing → slotHolders (ws.set i .releasing) = slotHolders ws := by
  induction ws with
  | nil => intro i h; simp at h
  | cons a ws ih =>
    intro i h
    cases i with
    | zero =>
      simp only [List.getElem?_cons_zero, Option.some.injEq] at h
      subst h
      rfl
    | succ j =>
      simp only [List.getElem?_cons_succ] at h
      rw [List.set_cons_succ]
      cases a <;> simp [slotHolders, ih j h]

/-- A worker that has received from `tasksChan` holds no slot any more. -/
theorem slotHolders_set_finishing (ws : List WorkerPc) :
    ∀ i, ws[i]? = some .releasing →
      slotHolders (ws.set i .finishing) + 1 = slotHolders ws := by
  induction ws with
  | nil => intro i h; simp at h
  | cons a ws ih =>
    intro i h
    cases i with
    | zero =>
      simp only [List.getElem?_cons_zero, Option.some.injEq] at h
      subst h
      rfl
    | succ j =>
      simp only [List.getElem?_cons_succ] at h
      rw [List.set_cons_succ]
      cases a <;> simp [slotHolders, ← ih j h]

/-- A worker that ends held no slot; the workers are one fewer. -/
theorem slotHolders_eraseIdx (ws : List WorkerPc) :
    ∀ i, ws[i]? = some .finishing →
      slotHolders (ws.eraseIdx i) = slotHolders ws ∧ (ws.eraseIdx i).length + 1 = ws.length := by
  induction ws with
  | nil => intro i h; simp at h
  | cons a ws ih =>
    intro i h
    cases i with
    | zero =>
      simp only [List.getElem?_cons_zero, Option.some.injEq] at h
      subst h
      exact ⟨rfl, rfl⟩
    | succ j =>
      simp only [List.getElem?_cons_succ] at h
      obtain ⟨h1, h2⟩ := ih j h
      rw [List.eraseIdx_cons_succ]
      refine ⟨?_, by simp [h2]⟩
      cases a <;> simp [slotHolders, h1]

/-- A worker just started holds a slot. -/
theorem slotHolders_append_processing (ws : List WorkerPc) :
    slotHolders (ws ++ [.processing]) = slotHolders ws + 1 := by
  induction ws with
  | nil => rfl
  | cons a ws ih => cases a <;> simp [slotHolders, ih]

/-- A worker at its deferred receive holds a slot. -/
theorem slotHolders_pos_of_releasing (ws : List WorkerPc) :
    ∀ i : Nat, ws[i]? = some WorkerPc.releasing → 0 < slotHolders ws := by
  induction ws with
  | nil => intro i h; simp at h
  | cons a ws ih =>
    intro i h
    cases i with
    | zero =>
      simp only [List.getElem?_cons_zero, Option.some.injEq] at h
      subst h
      simp [slotHolders]
    | succ j =>
      simp only [List.getElem?_cons_succ] at h
      have hpos := ih j h
      cases a
      · simp [slotHolders]
      · simp [slotHolders]
      · simpa [slotHolders] using hpos

/-- The invariant holds at the start. -/
theorem inv_init : Scheduler.init.Inv := by
  simp [Scheduler.Inv, Scheduler.init, slotHolders, slotsReserved]

/-- Every step keeps the invariant. -/
theorem inv_step (s s1 : Scheduler) (e : SchedulerEvent) (hinv : s.Inv)
    (h : s.step e = some s1) : s1.Inv := by
  obtain ⟨hslots, hcap, hwg⟩ := hinv
  cases e with
  | tick =>
    simp only [Scheduler.step] at h
    split at h
    · rename_i hc
      cases h
      simp only [Scheduler.Inv, hc, slotsReserved] at hslots hwg ⊢
      simp [hslots, hcap, hwg]
      omega
    · cases h
  | send =>
    simp only [Scheduler.step] at h
    split at h
    · rename_i hc
      cases h
      obtain ⟨hc, hlt⟩ := hc
      simp only [Scheduler.Inv, hc, slotsReserved] at hslots hwg ⊢
      simp [hwg]
      omega
    · cases h
  | add =>
    simp only [Scheduler.step] at h
    split at h
    · rename_i hc
      cases h
      simp only [Scheduler.Inv, hc, slotsReserved] at hslots hwg ⊢
      simp [hwg]
      omega
    · cases h
  | spawn =>
    simp only [Scheduler.step] at h
    split at h
    · rename_i hc
      cases h
      simp only [Scheduler.Inv, hc, slotsReserved, slotHolders_append_processing] at hslots hwg ⊢
      simp [hwg] at *
      omega
    · cases h
  | finish i =>
    simp only [Scheduler.step] at h
    split at h
    · rename_i hc
      cases h
      simp only [Scheduler.Inv, slotHolders_set_releasing _ i hc, List.length_set]
      exact ⟨hslots, hcap, hwg⟩
    · cases h
  | release i =>
    simp only [Scheduler.step] at h
    split at h
    · rename_i hc
      cases h
      obtain ⟨hc, hpos⟩ := hc
      have hset := slotHolders_set_finishing _ i hc
      simp only [Scheduler.Inv, List.length_set]
      refine ⟨by omega, by omega, hwg⟩
    · cases h
  | done i =>
    simp only [Scheduler.step] at h
    split at h
    · rename_i hc
      cases h
      obtain ⟨hc, hpos⟩ := hc
      obtain ⟨h1, h2⟩ := slotHolders_eraseIdx _ i hc
      simp only [Scheduler.Inv, h1]
      refine ⟨hslots, hcap, ?_⟩
      have hlen : 0 < s.workers.length := by omega
      split at hwg
      · rename_i hsp
        simp only [hsp, if_true]
        omega
      · rename_i hsp
        simp only [hsp, if_false]
        omega
    · cases h
  | stop =>
    simp only [Scheduler.step] at h
    split at h
    · rename_i hc
      cases h
      simp only [Scheduler.Inv, hc, slotsReserved] at hslots hwg ⊢
      simp [hslots, hcap, hwg]
      omega
    · cases h
  | join =>
    simp only [Scheduler.step] at h
    split at h
    · rename_i hc
      cases h
      obtain ⟨hc, hz⟩ := hc
      simp only [Scheduler.Inv, hc, slotsReserved] at hslots hwg ⊢
      simp [hslots, hwg] at *
      omega
    · cases h

/-- The invariant holds in every state a run reaches from a state where it
holds. -/
theorem inv_run (events : List SchedulerEvent) :
    ∀ s s1 : Scheduler, s.Inv → Scheduler.run events s = some s1 → s1.Inv := by
  induction events with
  | nil =>
    intro s s1 hinv h
    simp only [Scheduler.run, Option.some.injEq] at h
    exact h ▸ hinv
  | cons e es ih =>
    intro s s1 hinv h
    simp only [Scheduler.run] at h
    cases hstep : s.step e with
    | none => rw [hstep] at h; cases h
    | some s2 =>
      rw [hstep] at h
      exact ih s2 s1 (inv_step s s2 e hinv hstep) h

/-- C25.  In every state the scheduler reaches from its start, by any
sequence of steps of the controller and the workers: the workers in flight
are at most `_maxConcurrentProcess` (5); the values in `tasksChan` are exactly
one for each worker in flight and one for the worker the controller is about
to start, so each worker holds one slot from before it is started until its
deferred receive; that receive never finds the channel empty, and the `Done`
after it never finds the counter at zero. -/
theorem scheduler_bounds_workers (events : List SchedulerEvent) (s : Scheduler)
    (h : Scheduler.run events Scheduler.init = some s) :
    slotHolders s.workers ≤ _maxConcurrentProcess ∧
    s.tasksChan = slotHolders s.workers + slotsReserved s.controller ∧
    (∀ i : Nat, s.workers[i]? = some WorkerPc.releasing →
      (s.step (.release i)).isSome = true) ∧
    (∀ i : Nat, s.workers[i]? = some WorkerPc.finishing →
      (s.step (.done i)).isSome = true) := by
  obtain ⟨hslots, hcap, hwg⟩ := inv_run events Scheduler.init s inv_init h
  refine ⟨by omega, hslots, ?_, ?_⟩
  · intro i hi
    have hpos := slotHolders_pos_of_releasing s.workers i hi
    have hchan : 0 < s.tasksChan := by omega
    simp only [Scheduler.step, hi, hchan, and_self, if_true, Option.isSome_some]
  · intro i hi
    have hlen : i < s.workers.length := by
      by_contra hge
      rw [List.getElem?_eq_none (by omega)] at hi
      cases hi
    have hpos : 0 < s.wg := by omega
    simp only [Scheduler.step, hi, hpos, and_self, if_true, Option.isSome_some]

/-- Witness for C25: after five ticks five workers are in flight and the
channel is full; the send of a sixth tick cannot be taken until a worker has
received from the channel. -/
theorem scheduler_bounds_workers_witness :
    Scheduler.run dispatchFive Scheduler.init =
      some ⟨5, 5, .selecting, [.processing, .processing, .processing, .processing,
        .processing]⟩ ∧
    Scheduler.run (dispatchFive ++ [.tick, .send]) Scheduler.init = none ∧
    Scheduler.run (dispatchFive ++ [.tick, .finish 2, .release 2, .send]) Scheduler.init =
      some ⟨5, 5, .adding, [.processing, .processing, .finishing, .processing,
        .processing]⟩ ∧
    slotHolders [WorkerPc.processing, .processing, .processing, .processing, .processing] ≤
      _maxConcurrentProcess :=
  ⟨rfl, rfl, rfl,
    (scheduler_bounds_workers dispatchFive
      ⟨5, 5, .selecting, [.processing, .processing, .processing, .processing, .processing]⟩
      rfl).1⟩

/-- The counter of the wait group is not bounded by the capacity of the
channel: a worker gives its slot back before it calls `Done`, and the
controller can reserve that slot and add to the counter in between. -/
theorem waitGroup_can_exceed_capacity :
    (Scheduler.run (dispatchFive ++ [.tick, .finish 2, .release 2, .send, .add])
      Scheduler.init).map (fun s => (s.wg, s.tasksChan, slotHolders s.workers)) =
        some (6, 5, 4) := rfl

end UsersApi
